import Mathlib

/-! # cwrkPlanet: rooms engine and credential core

A shallow embedding of the parts of `room-service` and `auth-service` that the
specification's contract clauses talk about, followed by the theorems that
settle those clauses.

Conventions of the embedding

* Go `error` values are terms of `GoError`; `errors.Is` is `GoError.is`.
* A database is a record of its tables, every table a list of rows in
  insertion order; a repository method is a function from the database to the
  new database and the method's result. On the paths of admission and
  pagination the rooms database executes every statement; where the code is
  asked about its behaviour on errors (the credential core, and leaving,
  chat persistence and room creation in the rooms engine), a failure of a
  statement is an input of the call.
* Values that come from outside the code (clock readings, the signed access
  token, the random refresh token, SHA-256) are inputs.
* `time.Time` values that get formatted (room and message timestamps, cursors)
  are modelled by their calendar reading, `Time`; their instant is
  `Time.unixNano`. Times that are only compared and shifted (sessions) are
  modelled by their instant.
* Go strings that hold text are Lean strings; `encoding/json`, `encoding/base64`
  and the RFC 3339 layout of package `time` are modelled on runes and bytes,
  as far as the cursor codec and the loggers use them.
* Libraries outside the repository (`golang-jwt`, `fmt`, `strconv`) are modelled
  as far as the code uses them; what has no model here (bcrypt, RSA signatures,
  the case tables of package `unicode`, the number formats of `float64`) is a
  parameter.
* What a handler of the live channel does is the list of the calls it makes on
  its collaborators, in order.
-/

namespace CwrkPlanet

/-! ## Errors -/

/-- Go error values: package-level sentinels made by `errors.New`, errors that
come out of a library, and `fmt.Errorf` wrappers with one `%w` operand (and
possibly one `%v` operand). -/
inductive GoError where
  | sentinel (name : String)
  | lib (text : String)
  | wrap (format : String) (wrapped : GoError)
  | wrapWith (format : String) (wrapped : GoError) (detail : GoError)
  deriving DecidableEq, Repr

namespace GoError

/-- The test `errors.Is(e, target)` for a comparable target: walk the `%w` chain. -/
def is : GoError → GoError → Bool
  | sentinel n, t => decide (sentinel n = t)
  | lib s, t => decide (lib s = t)
  | wrap f w, t => decide (wrap f w = t) || is w t
  | wrapWith f w d, t => decide (wrapWith f w d = t) || is w t

end GoError

instance instDecidableEqExcept {ε α : Type} [DecidableEq ε] [DecidableEq α] :
    DecidableEq (Except ε α)
  | .ok a, .ok b => if h : a = b then isTrue (by rw [h]) else isFalse (by intro h'; cases h'; exact h rfl)
  | .error a, .error b =>
    if h : a = b then isTrue (by rw [h]) else isFalse (by intro h'; cases h'; exact h rfl)
  | .ok _, .error _ => isFalse (by intro h; cases h)
  | .error _, .ok _ => isFalse (by intro h; cases h)

/-- Sentinel `domain.ErrRoomNotFound` of room-service. -/
def ErrRoomNotFound : GoError := .sentinel "domain.ErrRoomNotFound"
/-- Sentinel `domain.ErrRoomFull` of room-service. -/
def ErrRoomFull : GoError := .sentinel "domain.ErrRoomFull"
/-- Sentinel `domain.ErrAlreadyJoined` of room-service. -/
def ErrAlreadyJoined : GoError := .sentinel "domain.ErrAlreadyJoined"
/-- Sentinel `domain.ErrNotInRoom` of room-service. -/
def ErrNotInRoom : GoError := .sentinel "domain.ErrNotInRoom"
/-- Sentinel `pgx.ErrNoRows`: a `Scan` of a query that selected no row. -/
def pgxErrNoRows : GoError := .sentinel "pgx.ErrNoRows"
/-- Sentinel `postgres.ErrInvalidCursor` of room-service. -/
def ErrInvalidCursor : GoError := .sentinel "postgres.ErrInvalidCursor"

/-! ## Time -/

/-- A `time.Time`, given by the calendar reading it has in its own location and
the offset of that location (seconds east of UTC) at that moment. -/
structure Time where
  year : Int
  month : Nat
  day : Nat
  hour : Nat
  minute : Nat
  second : Nat
  nsec : Nat
  offset : Int
  deriving DecidableEq, Repr

/-! ## Rooms engine: data model -/

/-- Row of `rooms` (`domain.Room`). -/
structure Room where
  ID : String
  Name : String
  MaxParticipants : Int
  CreatedAt : Time
  deriving DecidableEq, Repr

/-- Row of `room_participants` (`domain.Participant`). -/
structure Participant where
  RoomID : String
  UserID : Int
  JoinedAt : Time
  LastSeen : Time
  deriving DecidableEq, Repr

/-- Row of `room_messages` (`domain.ChatMessage`). -/
structure ChatMessage where
  ID : String
  RoomID : String
  UserID : Int
  Text : String
  ReplyTo : Option String
  CreatedAt : Time
  deriving DecidableEq, Repr

/-- The rooms database: the three tables the room-service repositories query. -/
structure DB where
  rooms : List Room
  participants : List Participant
  messages : List ChatMessage
  deriving DecidableEq, Repr

/-- The rows of `room_participants` of one room, in insertion order. -/
def DB.roster (db : DB) (roomID : String) : List Participant :=
  db.participants.filter (fun p => p.RoomID == roomID)

/-! ## Rooms engine: admission -/

/-- The query of `RoomRepository.Get`: the row of `rooms` with that id, or
`ErrRoomNotFound` when the query selects no row. -/
def RoomRepository.Get (db : DB) (id : String) : Except GoError Room :=
  match db.rooms.find? (fun rm => rm.ID == id) with
  | some rm => .ok rm
  | none => .error ErrRoomNotFound

/-- The query of `ParticipantRepository.CountInRoom`: `SELECT COUNT(*)` over the
room's participants. -/
def ParticipantRepository.CountInRoom (db : DB) (roomID : String) : Int :=
  ((db.roster roomID).length : Int)

/-- The query of `ParticipantRepository.Exists`. -/
def ParticipantRepository.Exists (db : DB) (roomID : String) (userID : Int) : Bool :=
  db.participants.any (fun p => p.RoomID == roomID && p.UserID == userID)

/-- Modelled from the spec: the statement
`INSERT INTO room_participants (room_id, user_id) VALUES ($1, $2) ON CONFLICT DO NOTHING`
against the table whose declaration is not among the sources; by the spec the
table has `PK(room_id, user_id)`, and its two timestamps are filled in by the
database (`dbNow`). -/
def insertParticipantOnConflictDoNothing (db : DB) (roomID : String) (userID : Int)
    (dbNow : Time) : DB :=
  if ParticipantRepository.Exists db roomID userID then db
  else { db with participants :=
          db.participants ++ [{ RoomID := roomID, UserID := userID,
                                JoinedAt := dbNow, LastSeen := dbNow }] }

/-- The transaction of `ParticipantRepository.Join`: lock the room row and read
its `max_participants` (which, when positive, replaces the caller's limit),
count the room's participants, refuse with `ErrRoomFull` at the limit,
otherwise insert and commit. A return before the commit rolls back, so the
database is the old one. -/
def ParticipantRepository.Join (db : DB) (p : Participant) (maxParticipants : Int)
    (dbNow : Time) : DB × Except GoError Unit :=
  match db.rooms.find? (fun rm => rm.ID == p.RoomID) with
  | none => (db, .error pgxErrNoRows)
  | some rm =>
    let mp := rm.MaxParticipants
    let maxParticipants := if mp > 0 then mp else maxParticipants
    let count := ParticipantRepository.CountInRoom db p.RoomID
    if count ≥ maxParticipants then (db, .error ErrRoomFull)
    else (insertParticipantOnConflictDoNothing db p.RoomID p.UserID dbNow, .ok ())

/-- The repository methods a call of `MemberService.JoinRoom` can reach. -/
inductive RepoCall where
  | roomGet
  | participantExists
  | participantJoin
  deriving DecidableEq, Repr

/-- What one call of `MemberService.JoinRoom` leaves behind: the database, the
returned value or error, and the repository methods it called, in order. -/
structure JoinOutcome where
  db : DB
  result : Except GoError Participant
  calls : List RepoCall
  deriving DecidableEq, Repr

/-- The clock readings one `JoinRoom` call consumes: the two `time.Now()` of the
service and the timestamp the database gives the inserted row. -/
structure JoinClock where
  joinedAt : Time
  lastSeen : Time
  dbNow : Time
  deriving DecidableEq, Repr

/-- Function `MemberService.JoinRoom`: load the room, pre-check membership, then run the
join transaction with the room's limit. -/
def MemberService.JoinRoom (db : DB) (roomID : String) (userID : Int) (clk : JoinClock) :
    JoinOutcome :=
  match RoomRepository.Get db roomID with
  | .error err => { db := db, result := .error err, calls := [.roomGet] }
  | .ok room =>
    if ParticipantRepository.Exists db roomID userID then
      { db := db, result := .error ErrAlreadyJoined, calls := [.roomGet, .participantExists] }
    else
      let p : Participant :=
        { RoomID := roomID, UserID := userID, JoinedAt := clk.joinedAt, LastSeen := clk.lastSeen }
      match ParticipantRepository.Join db p room.MaxParticipants clk.dbNow with
      | (db', .error err) =>
        { db := db', result := .error err,
          calls := [.roomGet, .participantExists, .participantJoin] }
      | (db', .ok ()) =>
        { db := db', result := .ok p,
          calls := [.roomGet, .participantExists, .participantJoin] }

/-- A sequence of `JoinRoom` calls on one room, run one after the other (the
order in which the room's row lock lets the joins through): the outcome of
every call, in order. -/
def runJoins (db : DB) (roomID : String) : List (Int × JoinClock) → List JoinOutcome
  | [] => []
  | (u, clk) :: rest =>
    let o := MemberService.JoinRoom db roomID u clk
    o :: runJoins o.db roomID rest

/-- The calls of a run that returned a participant. -/
def succeeded (os : List JoinOutcome) : List JoinOutcome :=
  os.filter (fun o => match o.result with | .ok _ => true | .error _ => false)

/-- The calls of a run that returned the given error. -/
def failedWith (e : GoError) (os : List JoinOutcome) : List JoinOutcome :=
  os.filter (fun o => match o.result with | .ok _ => false | .error e' => e' == e)

/-- Run of `k` successive `JoinRoom` calls of one user on one room. -/
def repeatJoin (db : DB) (roomID : String) (userID : Int) (clks : List JoinClock) :
    List JoinOutcome :=
  runJoins db roomID (clks.map (fun clk => (userID, clk)))

/-- The database after a run of calls that started from `db`. -/
def finalDB (db : DB) (os : List JoinOutcome) : DB :=
  match os.getLast? with
  | some o => o.db
  | none => db

/-! ### Sample data -/

/-- Midnight UTC of 1 January 2024. -/
def sampleTime : Time :=
  { year := 2024, month := 1, day := 1, hour := 0, minute := 0, second := 0, nsec := 0,
    offset := 0 }

/-- A clock that reads `sampleTime` everywhere. -/
def sampleClock : JoinClock :=
  { joinedAt := sampleTime, lastSeen := sampleTime, dbNow := sampleTime }

/-- A room of two seats. -/
def sampleRoom : Room :=
  { ID := "r", Name := "g", MaxParticipants := 2, CreatedAt := sampleTime }

/-- A database that holds the empty `sampleRoom` and nothing else. -/
def sampleDB : DB := { rooms := [sampleRoom], participants := [], messages := [] }

/-! ## Text, UTF-8 and base64

The cursor codec is `encoding/json` followed by `encoding/base64`. Both are
modelled on runes (code points, `Nat`) and bytes (`Nat` below 256). -/

/-- The runes of a string. -/
def runes (s : String) : List Nat := s.toList.map Char.toNat

/-- The string of a list of runes. -/
def ofRunes (rs : List Nat) : String := String.mk (rs.map Char.ofNat)

/-- A Unicode scalar value: what a rune of a Lean string is. -/
def validRune (r : Nat) : Prop := r < 0xD800 ∨ (0xE000 ≤ r ∧ r < 0x110000)

/-- Function `utf8.EncodeRune` on a valid rune. -/
def utf8EncodeRune (r : Nat) : List Nat :=
  if r < 0x80 then [r]
  else if r < 0x800 then [0xC0 + r / 64, 0x80 + r % 64]
  else if r < 0x10000 then [0xE0 + r / 4096, 0x80 + r / 64 % 64, 0x80 + r % 64]
  else [0xF0 + r / 262144, 0x80 + r / 4096 % 64, 0x80 + r / 64 % 64, 0x80 + r % 64]

/-- The bytes of a text: the concatenation of `utf8EncodeRune`. -/
def utf8Encode : List Nat → List Nat
  | [] => []
  | r :: rs => utf8EncodeRune r ++ utf8Encode rs

/-- A UTF-8 continuation byte, `0x80..0xBF`. -/
def isCont (b : Nat) : Bool := decide (0x80 ≤ b) && decide (b ≤ 0xBF)

/-- Function `utf8.DecodeRune`: the first rune of the bytes and its width; an invalid or
short encoding gives `(U+FFFD, 1)`, no bytes give `(U+FFFD, 0)`. -/
def utf8DecodeRune : List Nat → Nat × Nat
  | [] => (0xFFFD, 0)
  | b0 :: rest =>
    if b0 < 0x80 then (b0, 1)
    else if 0xC2 ≤ b0 ∧ b0 ≤ 0xDF then
      match rest with
      | b1 :: _ => if isCont b1 then ((b0 % 32) * 64 + b1 % 64, 2) else (0xFFFD, 1)
      | [] => (0xFFFD, 1)
    else if 0xE0 ≤ b0 ∧ b0 ≤ 0xEF then
      match rest with
      | b1 :: b2 :: _ =>
        let lo := if b0 = 0xE0 then 0xA0 else 0x80
        let hi := if b0 = 0xED then 0x9F else 0xBF
        if lo ≤ b1 ∧ b1 ≤ hi ∧ isCont b2 then
          ((b0 % 16) * 4096 + (b1 % 64) * 64 + b2 % 64, 3)
        else (0xFFFD, 1)
      | _ => (0xFFFD, 1)
    else if 0xF0 ≤ b0 ∧ b0 ≤ 0xF4 then
      match rest with
      | b1 :: b2 :: b3 :: _ =>
        let lo := if b0 = 0xF0 then 0x90 else 0x80
        let hi := if b0 = 0xF4 then 0x8F else 0xBF
        if lo ≤ b1 ∧ b1 ≤ hi ∧ isCont b2 ∧ isCont b3 then
          ((b0 % 8) * 262144 + (b1 % 64) * 4096 + (b2 % 64) * 64 + b3 % 64, 4)
        else (0xFFFD, 1)
      | _ => (0xFFFD, 1)
    else (0xFFFD, 1)

/-- Read bytes as text the way `encoding/json` does: rune after rune with
`utf8.DecodeRune`, every byte that starts no valid encoding read as U+FFFD.
`fuel` bounds the number of runes; the length of the input is enough. -/
def utf8DecodeLossyAux : Nat → List Nat → List Nat
  | 0, _ => []
  | _ + 1, [] => []
  | fuel + 1, b :: bs =>
    let (r, size) := utf8DecodeRune (b :: bs)
    r :: utf8DecodeLossyAux fuel ((b :: bs).drop size)

/-- The text of a byte sequence, invalid bytes replaced by U+FFFD. -/
def utf8DecodeLossy (bs : List Nat) : List Nat := utf8DecodeLossyAux bs.length bs

/-- The alphabet of `base64.URLEncoding`: the character of a 6-bit value. -/
def b64Char (n : Nat) : Nat :=
  if n < 26 then 65 + n
  else if n < 52 then 97 + (n - 26)
  else if n < 62 then 48 + (n - 52)
  else if n = 62 then 45
  else 95

/-- The decode map of `base64.URLEncoding`: the 6-bit value of a character. -/
def b64Val (c : Nat) : Option Nat :=
  if 65 ≤ c ∧ c ≤ 90 then some (c - 65)
  else if 97 ≤ c ∧ c ≤ 122 then some (c - 97 + 26)
  else if 48 ≤ c ∧ c ≤ 57 then some (c - 48 + 52)
  else if c = 45 then some 62
  else if c = 95 then some 63
  else none

/-- The characters of `base64.RawURLEncoding.EncodeToString`: three bytes give
four characters, a rest of one or two bytes gives two or three, no padding. -/
def b64EncodeRunes : List Nat → List Nat
  | a :: b :: c :: rest =>
    b64Char (a / 4) :: b64Char (a % 4 * 16 + b / 16) :: b64Char (b % 16 * 4 + c / 64) ::
      b64Char (c % 64) :: b64EncodeRunes rest
  | [a, b] => [b64Char (a / 4), b64Char (a % 4 * 16 + b / 16), b64Char (b % 16 * 4)]
  | [a] => [b64Char (a / 4), b64Char (a % 4 * 16)]
  | [] => []

/-- Function `base64.RawURLEncoding.EncodeToString`. -/
def b64EncodeToString (bs : List Nat) : String := ofRunes (b64EncodeRunes bs)

/-- The bytes of a sequence of 6-bit values: four values give three bytes, a
rest of two or three gives one or two bytes (the unused low bits are not
checked, the encoding is not strict), a rest of one is corrupt input. -/
def b64DecodeVals : List Nat → Option (List Nat)
  | a :: b :: c :: d :: rest =>
    (b64DecodeVals rest).map
      (fun bs => (a * 4 + b / 16) :: (b % 16 * 16 + c / 4) :: (c % 4 * 64 + d) :: bs)
  | [a, b, c] => some [a * 4 + b / 16, b % 16 * 16 + c / 4]
  | [a, b] => some [a * 4 + b / 16]
  | [_] => none
  | [] => some []

/-- The values of the characters, or `none` at a character outside the alphabet. -/
def b64Vals : List Nat → Option (List Nat)
  | [] => some []
  | c :: cs =>
    match b64Val c with
    | none => none
    | some v => (b64Vals cs).map (fun vs => v :: vs)

/-- Function `base64.RawURLEncoding.DecodeString`: line feeds and carriage returns are
skipped, every other character has to be in the alphabet (the padding
character `=` is not), and the values are regrouped into bytes. -/
def b64DecodeString (s : String) : Option (List Nat) :=
  match b64Vals ((runes s).filter (fun c => c != 10 && c != 13)) with
  | none => none
  | some vs => b64DecodeVals vs

/-! ## `time.Time` as JSON (RFC 3339) -/

/-- The ASCII digit of a value below ten. -/
def digitChar (d : Nat) : Nat := 48 + d

/-- The value of an ASCII digit. -/
def digitVal (c : Nat) : Option Nat := if 48 ≤ c ∧ c ≤ 57 then some (c - 48) else none

/-- Digits of `appendInt(b, n, 2)` for `0 ≤ n < 100`. -/
def pad2 (n : Nat) : List Nat := [digitChar (n / 10 % 10), digitChar (n % 10)]

/-- Digits of `appendInt(b, n, 4)` for `0 ≤ n < 10000`. -/
def pad4 (n : Nat) : List Nat :=
  [digitChar (n / 1000 % 10), digitChar (n / 100 % 10), digitChar (n / 10 % 10), digitChar (n % 10)]

/-- The nine decimal digits of a nanosecond count, most significant first. -/
def digits9 (n : Nat) : List Nat :=
  [n / 100000000 % 10, n / 10000000 % 10, n / 1000000 % 10, n / 100000 % 10, n / 10000 % 10,
   n / 1000 % 10, n / 100 % 10, n / 10 % 10, n % 10]

/-- Cut the trailing zeros of a digit sequence. -/
def trimZeros (ds : List Nat) : List Nat := (ds.reverse.dropWhile (fun d => d == 0)).reverse

/-- Function `appendNano` with the layout `.999999999`: nothing for a zero count, else a
period and the nine digits without their trailing zeros. -/
def appendNano (nsec : Nat) : List Nat :=
  if nsec = 0 then [] else 46 :: (trimZeros (digits9 nsec)).map digitChar

/-- The zone of `appendFormatRFC3339`: `Z` for offset zero, else the sign and
`hh:mm` of the offset cut to whole minutes (Go's `/` rounds toward zero). -/
def appendZone (offset : Int) : List Nat :=
  if offset = 0 then [90]
  else
    let zone := offset.natAbs / 60
    (if offset < 0 ∧ zone ≠ 0 then 45 else 43) :: (pad2 (zone / 60) ++ 58 :: pad2 (zone % 60))

/-- Function `Time.appendFormatRFC3339` with nanoseconds, for a year in `[0, 9999]`:
`2006-01-02T15:04:05.999999999Z07:00`. -/
def Time.appendFormatRFC3339 (t : Time) : List Nat :=
  pad4 t.year.toNat ++ 45 :: pad2 t.month ++ 45 :: pad2 t.day ++ 84 :: pad2 t.hour ++
    58 :: pad2 t.minute ++ 58 :: pad2 t.second ++ appendNano t.nsec ++ appendZone t.offset

/-- Function `Time.appendStrictRFC3339`, the text `Time.MarshalJSON` puts between the
quotes. It is an error for the year to lie outside `[0, 9999]` and for the
zone hour to lie outside `[0, 23]`. -/
def Time.appendStrictRFC3339 (t : Time) : Except GoError (List Nat) :=
  if t.year < 0 ∨ t.year ≥ 10000 then
    .error (.lib "Time.MarshalJSON: year outside of range [0,9999]")
  else if t.offset ≠ 0 ∧ t.offset.natAbs / 60 / 60 ≥ 24 then
    .error (.lib "Time.MarshalJSON: timezone hour outside of range [0,23]")
  else .ok t.appendFormatRFC3339

/-- Leap years of the proleptic Gregorian calendar. -/
def isLeap (y : Int) : Bool := decide (y % 4 = 0) && (decide (y % 100 ≠ 0) || decide (y % 400 = 0))

/-- The function `daysIn` of package `time`. -/
def daysIn (m : Nat) (y : Int) : Nat :=
  if m = 2 then (if isLeap y then 29 else 28)
  else if m = 4 ∨ m = 6 ∨ m = 9 ∨ m = 11 then 30
  else 31

/-- The closure `parseUint` of `parseRFC3339` on a two-digit field. -/
def parseUint2 (a b : Nat) (min max : Nat) : Option Nat :=
  match digitVal a, digitVal b with
  | some x, some y => if min ≤ x * 10 + y ∧ x * 10 + y ≤ max then some (x * 10 + y) else none
  | _, _ => none

/-- The closure `parseUint` of `parseRFC3339` on the four-digit year. -/
def parseUint4 (a b c d : Nat) : Option Nat :=
  match digitVal a, digitVal b, digitVal c, digitVal d with
  | some w, some x, some y, some z => some (((w * 10 + x) * 10 + y) * 10 + z)
  | _, _, _, _ => none

/-- The decimal value of a sequence of digit values. -/
def digitsValue (ds : List Nat) : Nat := ds.foldl (fun acc d => acc * 10 + d) 0

/-- The leading ASCII digits of a text, as values, and the rest of the text. -/
def spanDigits : List Nat → List Nat × List Nat
  | [] => ([], [])
  | c :: cs =>
    match digitVal c with
    | some d => let (ds, rest) := spanDigits cs; (d :: ds, rest)
    | none => ([], c :: cs)

/-- The fractional second of `parseRFC3339`: a period followed by at least one
digit; `parseNanoseconds` reads at most nine digits and scales them. Without
such a prefix the count is zero and nothing is consumed. -/
def parseFraction (s : List Nat) : Nat × List Nat :=
  match s with
  | 46 :: rest =>
    match spanDigits rest with
    | ([], _) => (0, s)
    | (ds, rest') => (digitsValue (ds.take 9) * 10 ^ (9 - (ds.take 9).length), rest')
  | _ => (0, s)

/-- The zone of `parseRFC3339`: exactly `Z`, or a sign, `hh` in `0..23`, a colon
and `mm` in `0..59`; the offset in seconds. -/
def parseZone (s : List Nat) : Option Int :=
  match s with
  | [90] => some 0
  | [sg, h1, h2, c, m1, m2] =>
    match parseUint2 h1 h2 0 23, parseUint2 m1 m2 0 59 with
    | some hr, some mm =>
      if (sg = 45 ∨ sg = 43) ∧ c = 58 then
        some (if sg = 45 then -(((hr * 60 + mm) * 60 : Nat) : Int) else (((hr * 60 + mm) * 60 : Nat) : Int))
      else none
    | _, _ => none
  | _ => none

/-- The function `parseRFC3339` of package `time`, which `Time.UnmarshalJSON`
applies to the text between the quotes. The fallback of `parseStrictRFC3339`
through `time.Parse`, taken when this function refuses, is not modelled: a
text that only the fallback accepts is refused here. -/
def parseRFC3339 (s : List Nat) : Option Time :=
  match s with
  | y1 :: y2 :: y3 :: y4 :: d1 :: mo1 :: mo2 :: d2 :: dd1 :: dd2 :: tt :: h1 :: h2 :: c1 ::
      mi1 :: mi2 :: c2 :: s1 :: s2 :: rest =>
    match parseUint4 y1 y2 y3 y4, parseUint2 mo1 mo2 1 12 with
    | some year, some month =>
      match parseUint2 dd1 dd2 1 (daysIn month year), parseUint2 h1 h2 0 23,
          parseUint2 mi1 mi2 0 59, parseUint2 s1 s2 0 59 with
      | some day, some hour, some min, some sec =>
        if d1 = 45 ∧ d2 = 45 ∧ tt = 84 ∧ c1 = 58 ∧ c2 = 58 then
          let (nsec, rest') := parseFraction rest
          match parseZone rest' with
          | some off =>
            some { year := year, month := month, day := day, hour := hour, minute := min,
                   second := sec, nsec := nsec, offset := off }
          | none => none
        else none
      | _, _, _, _ => none
    | _, _ => none
  | _ => none

/-- The zero `time.Time`: 1 January of year 1, 00:00:00 UTC. -/
def Time.zero : Time :=
  { year := 1, month := 1, day := 1, hour := 0, minute := 0, second := 0, nsec := 0, offset := 0 }

/-- Days from 1970-01-01 to the given date of the proleptic Gregorian calendar. -/
def daysFromCivil (y : Int) (m d : Nat) : Int :=
  let y' : Int := if m ≤ 2 then y - 1 else y
  let era : Int := y' / 400
  let yoe : Int := y' - era * 400
  let mp : Int := if m > 2 then (m : Int) - 3 else (m : Int) + 9
  let doy : Int := (153 * mp + 2) / 5 + (d : Int) - 1
  let doe : Int := yoe * 365 + yoe / 4 - yoe / 100 + doy
  era * 146097 + doe - 719468

/-- The instant of a time: nanoseconds since 1970-01-01T00:00:00Z. -/
def Time.unixNano (t : Time) : Int :=
  (daysFromCivil t.year t.month t.day * 86400 + (t.hour * 3600 + t.minute * 60 + t.second : Nat)
      - t.offset) * 1000000000 + t.nsec

/-- The calendar reading is one a `time.Time` can have. -/
def Time.Valid (t : Time) : Prop :=
  1 ≤ t.month ∧ t.month ≤ 12 ∧ 1 ≤ t.day ∧ t.day ≤ daysIn t.month t.year ∧
  t.hour ≤ 23 ∧ t.minute ≤ 59 ∧ t.second ≤ 59 ∧ t.nsec < 1000000000

instance (t : Time) : Decidable t.Valid := by unfold Time.Valid; infer_instance

/-- The time has an RFC 3339 form that names its instant: the year is in
`[0, 9999]` and the zone offset is a whole number of minutes below 24 hours. -/
def Time.Encodable (t : Time) : Prop :=
  0 ≤ t.year ∧ t.year ≤ 9999 ∧ t.offset % 60 = 0 ∧ t.offset.natAbs < 86400

instance (t : Time) : Decidable t.Encodable := by unfold Time.Encodable; infer_instance

/-! ## `encoding/json` for the cursor -/

/-- Pagination cursor (`postgres.Cursor`): the `(created_at, id)` of a boundary row. -/
structure Cursor where
  CreatedAt : Time
  ID : String
  deriving DecidableEq, Repr

/-- A lower-case hexadecimal digit. -/
def hexChar (n : Nat) : Nat := if n < 10 then 48 + n else 97 + (n - 10)

/-- The value of a hexadecimal digit of either case. -/
def hexVal (c : Nat) : Option Nat :=
  if 48 ≤ c ∧ c ≤ 57 then some (c - 48)
  else if 97 ≤ c ∧ c ≤ 102 then some (c - 97 + 10)
  else if 65 ≤ c ∧ c ≤ 70 then some (c - 65 + 10)
  else none

/-- How the JSON encoder (with HTML escaping, the default of `json.Marshal`)
writes one rune of a string: `\"`, `\\`, `\b`, `\f`, `\n`, `\r`, `\t`,
`\u00XX` for the other control characters and for `<`, `>`, `&`, `\u2028` and
`\u2029` for the two line separators, and the rune itself otherwise. -/
def jsonEscapeRune (r : Nat) : List Nat :=
  if r = 34 ∨ r = 92 then [92, r]
  else if r = 8 then [92, 98]
  else if r = 12 then [92, 102]
  else if r = 10 then [92, 110]
  else if r = 13 then [92, 114]
  else if r = 9 then [92, 116]
  else if r < 32 ∨ r = 60 ∨ r = 62 ∨ r = 38 then
    [92, 117, 48, 48, hexChar (r / 16), hexChar (r % 16)]
  else if r = 0x2028 ∨ r = 0x2029 then [92, 117, 50, 48, 50, hexChar (r % 16)]
  else [r]

/-- The body of a JSON string literal for a text. -/
def jsonEscape : List Nat → List Nat
  | [] => []
  | r :: rs => jsonEscapeRune r ++ jsonEscape rs

/-- The JSON object of a cursor around the text of its time and the escaped
text of its id: an opening brace, `"created_at":"`, the time, `","id":"`, the
id, `"` and a closing brace. -/
def cursorText (ts esc : List Nat) : List Nat :=
  runes "\x7b\"created_at\":\"" ++ ts ++ runes "\",\"id\":\"" ++ esc ++ runes "\"\x7d"

/-- The call `json.Marshal(c)` for a `Cursor`:
the object with the RFC 3339 text of the time and the escaped id, or the error
of `Time.MarshalJSON`. -/
def jsonMarshalCursor (c : Cursor) : Except GoError (List Nat) :=
  match c.CreatedAt.appendStrictRFC3339 with
  | .error e => .error (.wrap "json: error calling MarshalJSON for type time.Time: %w" e)
  | .ok ts =>
    .ok (cursorText ts (jsonEscape (runes c.ID)))

/-- A parsed JSON value; a string keeps the text between its quotes next to
the text it denotes. -/
inductive JVal where
  | null
  | bool (b : Bool)
  | num (raw : List Nat)
  | str (raw : List Nat) (val : List Nat)
  | arr (items : List JVal)
  | obj (members : List (List Nat × JVal))

/-- Skip JSON white space: space, tab, line feed, carriage return. -/
def skipWs : List Nat → List Nat
  | [] => []
  | c :: cs => if c = 32 ∨ c = 9 ∨ c = 10 ∨ c = 13 then skipWs cs else c :: cs

/-- Four hexadecimal digits as a number. -/
def hex4 (a b c d : Nat) : Option Nat :=
  match hexVal a, hexVal b, hexVal c, hexVal d with
  | some w, some x, some y, some z => some (((w * 16 + x) * 16 + y) * 16 + z)
  | _, _, _, _ => none

/-- One step of `unquote` at a character that is not the closing quote: the
raw characters consumed, the rune they denote and the rest. A backslash starts
one of the escapes `\" \\ \/ \b \f \n \r \t \uXXXX`; a `\u` escape that is a high
surrogate followed by a `\u` low surrogate denotes the pair's rune, any other
surrogate denotes U+FFFD. Control characters and other escapes are syntax
errors. -/
def unquoteStep : List Nat → Option (List Nat × Nat × List Nat)
  | [] => none
  | c :: cs =>
    if c < 32 then none
    else if c = 92 then
      match cs with
      | [] => none
      | e :: cs1 =>
        if e = 117 then
          match cs1 with
          | h1 :: h2 :: h3 :: h4 :: cs2 =>
            match hex4 h1 h2 h3 h4 with
            | none => none
            | some u =>
              if 0xD800 ≤ u ∧ u < 0xE000 then
                let lone := some ([c, e, h1, h2, h3, h4], 0xFFFD, cs2)
                match cs2 with
                | b :: u' :: g1 :: g2 :: g3 :: g4 :: cs3 =>
                  match (if b = 92 ∧ u' = 117 then hex4 g1 g2 g3 g4 else none) with
                  | some u2 =>
                    if u < 0xDC00 ∧ 0xDC00 ≤ u2 ∧ u2 < 0xE000 then
                      some ([c, e, h1, h2, h3, h4, b, u', g1, g2, g3, g4],
                            (u - 0xD800) * 1024 + (u2 - 0xDC00) + 0x10000, cs3)
                    else lone
                  | none => lone
                | _ => lone
              else some ([c, e, h1, h2, h3, h4], u, cs2)
          | _ => none
        else if e = 34 ∨ e = 92 ∨ e = 47 then some ([c, e], e, cs1)
        else if e = 98 then some ([c, e], 8, cs1)
        else if e = 102 then some ([c, e], 12, cs1)
        else if e = 110 then some ([c, e], 10, cs1)
        else if e = 114 then some ([c, e], 13, cs1)
        else if e = 116 then some ([c, e], 9, cs1)
        else none
    else some ([c], c, cs)

/-- A string literal after its opening quote: the raw text up to the closing
quote, the text it denotes, and what follows the closing quote. `fuel` bounds
the number of steps; the length of the input is enough. -/
def parseStringBodyAux : Nat → List Nat → Option (List Nat × List Nat × List Nat)
  | 0, _ => none
  | _ + 1, [] => none
  | fuel + 1, c :: cs =>
    if c = 34 then some ([], [], cs)
    else
      match unquoteStep (c :: cs) with
      | none => none
      | some (raw1, r, rest) =>
        (parseStringBodyAux fuel rest).map (fun (raw, val, rest') => (raw1 ++ raw, r :: val, rest'))

/-- A string literal after its opening quote. -/
def parseStringBody (cs : List Nat) : Option (List Nat × List Nat × List Nat) :=
  parseStringBodyAux cs.length cs

/-- One or more digits and the rest. -/
def parseDigits1 (cs : List Nat) : Option (List Nat × List Nat) :=
  match spanDigits cs with
  | ([], _) => none
  | (ds, rest) => some (ds.map digitChar, rest)

/-- A number literal: `-?(0|[1-9][0-9]*)(\.[0-9]+)?([eE][+-]?[0-9]+)?`. -/
def parseNumber (cs : List Nat) : Option (List Nat × List Nat) :=
  let (sign, cs1) := match cs with
    | 45 :: t => ([45], t)
    | _ => ([], cs)
  let intPart : Option (List Nat × List Nat) := match cs1 with
    | 48 :: t => some ([48], t)
    | _ => parseDigits1 cs1
  match intPart with
  | none => none
  | some (ip, cs2) =>
    let fracPart : Option (List Nat × List Nat) := match cs2 with
      | 46 :: t => (parseDigits1 t).map (fun (ds, r) => (46 :: ds, r))
      | _ => some ([], cs2)
    match fracPart with
    | none => none
    | some (fp, cs3) =>
      let expPart : Option (List Nat × List Nat) := match cs3 with
        | e :: t =>
          if e = 101 ∨ e = 69 then
            match t with
            | s :: t' =>
              if s = 43 ∨ s = 45 then (parseDigits1 t').map (fun (ds, r) => (e :: s :: ds, r))
              else (parseDigits1 t).map (fun (ds, r) => (e :: ds, r))
            | [] => none
          else some ([], cs3)
        | [] => some ([], cs3)
      match expPart with
      | none => none
      | some (ep, cs4) => some (sign ++ ip ++ fp ++ ep, cs4)

/-- The members of a non-empty object after its brace, up to and including the
closing brace; `pv` parses a member's value. `n` bounds the number of members. -/
def parseMembers (pv : List Nat → Option (JVal × List Nat)) :
    Nat → List Nat → Option (List (List Nat × JVal) × List Nat)
  | 0, _ => none
  | n + 1, cs =>
    match skipWs cs with
    | q :: cs1 =>
      if q = 34 then
        match parseStringBody cs1 with
        | none => none
        | some (_, key, cs2) =>
          match skipWs cs2 with
          | col :: cs3 =>
            if col = 58 then
              match pv cs3 with
              | none => none
              | some (v, cs4) =>
                match skipWs cs4 with
                | d :: cs5 =>
                  if d = 125 then some ([(key, v)], cs5)
                  else if d = 44 then
                    (parseMembers pv n cs5).map (fun (ms, rest) => ((key, v) :: ms, rest))
                  else none
                | [] => none
            else none
          | [] => none
      else none
    | [] => none

/-- The elements of a non-empty array after its bracket, up to and including
the closing bracket. `n` bounds the number of elements. -/
def parseElements (pv : List Nat → Option (JVal × List Nat)) :
    Nat → List Nat → Option (List JVal × List Nat)
  | 0, _ => none
  | n + 1, cs =>
    match pv cs with
    | none => none
    | some (v, cs1) =>
      match skipWs cs1 with
      | d :: cs2 =>
        if d = 93 then some ([v], cs2)
        else if d = 44 then (parseElements pv n cs2).map (fun (vs, rest) => (v :: vs, rest))
        else none
      | [] => none

/-- Does the text start with the given word? The rest, if so. -/
def stripWord : List Nat → List Nat → Option (List Nat)
  | [], cs => some cs
  | _ :: _, [] => none
  | w :: ws, c :: cs => if w = c then stripWord ws cs else none

/-- One JSON value, after white space. `depth` is the nesting still allowed:
the scanner of `encoding/json` refuses more than 10000 open arrays and objects. -/
def parseValue : Nat → List Nat → Option (JVal × List Nat)
  | depth, cs =>
    match skipWs cs with
    | [] => none
    | c :: cs1 =>
      if c = 34 then (parseStringBody cs1).map (fun (raw, val, rest) => (JVal.str raw val, rest))
      else if c = 123 then
        match depth with
        | 0 => none
        | depth' + 1 =>
          match skipWs cs1 with
          | [] => none
          | c2 :: rest =>
            if c2 = 125 then some (JVal.obj [], rest)
            else (parseMembers (parseValue depth') (cs1.length + 1) cs1).map
                   (fun (ms, rest) => (JVal.obj ms, rest))
      else if c = 91 then
        match depth with
        | 0 => none
        | depth' + 1 =>
          match skipWs cs1 with
          | [] => none
          | c2 :: rest =>
            if c2 = 93 then some (JVal.arr [], rest)
            else (parseElements (parseValue depth') (cs1.length + 1) cs1).map
                   (fun (vs, rest) => (JVal.arr vs, rest))
      else if c = 116 then (stripWord [114, 117, 101] cs1).map (fun rest => (JVal.bool true, rest))
      else if c = 102 then
        (stripWord [97, 108, 115, 101] cs1).map (fun rest => (JVal.bool false, rest))
      else if c = 110 then (stripWord [117, 108, 108] cs1).map (fun rest => (JVal.null, rest))
      else (parseNumber (c :: cs1)).map (fun (raw, rest) => (JVal.num raw, rest))

/-- The syntax check and parse of `json.Unmarshal`: one value, white space
around it, nothing else. -/
def parseJSON (cs : List Nat) : Option JVal :=
  match parseValue 10000 cs with
  | none => none
  | some (v, rest) => if skipWs rest = [] then some v else none

/-- ASCII lower case of a rune. -/
def asciiLower (c : Nat) : Nat := if 65 ≤ c ∧ c ≤ 90 then c + 32 else c

/-- The field of `Cursor` a key names: the JSON name itself or, failing that,
the name under case folding (for these two names, ASCII case). -/
def cursorField (key : List Nat) : Option Bool :=
  if key.map asciiLower = runes "created_at" then some true
  else if key.map asciiLower = runes "id" then some false
  else none

/-- Store the members of an object into a `Cursor`, in order. `created_at` goes
through `Time.UnmarshalJSON` (`null` leaves the field alone, a string is parsed
as RFC 3339, anything else is an error); `id` takes a string (`null` leaves the
field alone, another kind is a type error); other keys are skipped. -/
def storeMembers : List (List Nat × JVal) → Cursor → Option Cursor
  | [], c => some c
  | (key, v) :: ms, c =>
    match cursorField key with
    | none => storeMembers ms c
    | some true =>
      match v with
      | .null => storeMembers ms c
      | .str raw _ =>
        match parseRFC3339 raw with
        | some t => storeMembers ms { c with CreatedAt := t }
        | none => none
      | _ => none
    | some false =>
      match v with
      | .null => storeMembers ms c
      | .str _ val => storeMembers ms { c with ID := ofRunes val }
      | _ => none

/-- The call `json.Unmarshal(data, &c)` for a zero `Cursor`: `null` leaves the
cursor zero, an object is stored member by member, any other value is a type
error; `none` stands for a returned error. -/
def jsonUnmarshalCursor (data : List Nat) : Option Cursor :=
  match parseJSON (utf8DecodeLossy data) with
  | none => none
  | some .null => some { CreatedAt := Time.zero, ID := "" }
  | some (.obj ms) => storeMembers ms { CreatedAt := Time.zero, ID := "" }
  | some _ => none

/-! ## The cursor codec (`pagination.go`) -/

/-- Function `EncodeCursor`: marshal to JSON, then unpadded URL-safe base64. -/
def EncodeCursor (c : Cursor) : Except GoError String :=
  match jsonMarshalCursor c with
  | .error err => .error (.wrap "encode cursor: %w" err)
  | .ok data => .ok (b64EncodeToString (utf8Encode data))

/-- Function `DecodeCursor`: the empty string is "no cursor"; a failure of the base64 or
of the JSON decoding is an error that wraps `ErrInvalidCursor`. -/
def DecodeCursor (s : String) : Except GoError (Option Cursor) :=
  if s = "" then .ok none
  else
    match b64DecodeString s with
    | none =>
      .error (.wrapWith "%w: decode base64: %v" ErrInvalidCursor (.lib "illegal base64 data"))
    | some data =>
      match jsonUnmarshalCursor data with
      | none => .error (.wrapWith "%w: decode json: %v" ErrInvalidCursor (.lib "json error"))
      | some c => .ok (some c)

/-! ## Cursor pagination (`chat_repo.go`, `room_repo.go`, `room_service.go`) -/

/-- The row filter of both paginated queries,
`created_at < $2 OR (created_at = $2 AND id < $3)`, on the instant and the id
of a row and of the cursor. Ids compare as strings. -/
def rowBelow (t : Int) (id : String) (ct : Int) (cid : String) : Prop :=
  t < ct ∨ (t = ct ∧ id < cid)

instance (t : Int) (id : String) (ct : Int) (cid : String) : Decidable (rowBelow t id ct cid) := by
  unfold rowBelow; infer_instance

/-- The whole `WHERE` condition on the cursor: `$2 IS NULL OR ...`. -/
def afterCursor (cur : Option Cursor) (t : Time) (id : String) : Bool :=
  match cur with
  | none => true
  | some c => decide (rowBelow t.unixNano id c.CreatedAt.unixNano c.ID)

/-- The order `ORDER BY created_at DESC, id DESC` on messages: `a` may stand
before `b`. -/
def msgDesc (a b : ChatMessage) : Prop :=
  ¬ rowBelow a.CreatedAt.unixNano a.ID b.CreatedAt.unixNano b.ID

instance : DecidableRel msgDesc := fun a b => by unfold msgDesc; infer_instance

/-- The order `ORDER BY created_at DESC, id DESC` on rooms. -/
def roomDesc (a b : Room) : Prop :=
  ¬ rowBelow a.CreatedAt.unixNano a.ID b.CreatedAt.unixNano b.ID

instance : DecidableRel roomDesc := fun a b => by unfold roomDesc; infer_instance

/-- The query of `ChatRepository.History`: the messages of the room below the
cursor, newest first, at most `limit` of them. -/
def historyQuery (db : DB) (roomID : String) (cur : Option Cursor) (limit : Nat) :
    List ChatMessage :=
  ((db.messages.filter
      (fun m => m.RoomID == roomID && afterCursor cur m.CreatedAt m.ID)).insertionSort
    msgDesc).take limit

/-- The limit `ChatRepository.History` uses: 50 for a request of zero or less,
at most 100. -/
def historyLimit (limit : Int) : Nat :=
  if limit ≤ 0 then 50 else if limit > 100 then 100 else limit.toNat

/-- The next-cursor of a page in `ChatRepository.History`: the encoded
`(created_at, id)` of the last row when the page has `limit` rows and the
encoding succeeds, the empty string otherwise. -/
def historyNext (out : List ChatMessage) (limit : Nat) : String :=
  if out.length = limit then
    match out.getLast? with
    | some last =>
      match EncodeCursor { CreatedAt := last.CreatedAt, ID := last.ID } with
      | .ok c => c
      | .error _ => ""
    | none => ""
  else ""

/-- Function `ChatRepository.History`: clamp the limit, decode the cursor (a failure is
wrapped once more), run the query, and emit a next-cursor for a full page. -/
def ChatRepository.History (db : DB) (roomID after : String) (limit : Int) :
    Except GoError (List ChatMessage × String) :=
  let limit := historyLimit limit
  match DecodeCursor after with
  | .error err => .error (.wrap "decode cursor: %w" err)
  | .ok cur =>
    let out := historyQuery db roomID cur limit
    .ok (out, historyNext out limit)

/-- Function `ChatService.History` hands the call to the repository. -/
def ChatService.History (db : DB) (roomID after : String) (limit : Int) :
    Except GoError (List ChatMessage × String) :=
  ChatRepository.History db roomID after limit

/-- The query of `RoomRepository.List`. -/
def listQuery (db : DB) (cur : Option Cursor) (limit : Nat) : List Room :=
  ((db.rooms.filter (fun rm => afterCursor cur rm.CreatedAt rm.ID)).insertionSort roomDesc).take
    limit

/-- The next-cursor of a page in `RoomRepository.List`; an encoding error is
dropped and leaves the empty string. -/
def listNext (rooms : List Room) (limit : Nat) : String :=
  if rooms.length = limit then
    match rooms.getLast? with
    | some last =>
      match EncodeCursor { CreatedAt := last.CreatedAt, ID := last.ID } with
      | .ok c => c
      | .error _ => ""
    | none => ""
  else ""

/-- Function `RoomRepository.List` for a positive limit (the service passes no other):
decode the cursor (a failure is returned as it is), run the query, and emit a
next-cursor for a full page. -/
def RoomRepository.List (db : DB) (limit : Nat) (cursorStr : String) :
    Except GoError (List Room × String) :=
  match DecodeCursor cursorStr with
  | .error err => .error err
  | .ok cur =>
    let rooms := listQuery db cur limit
    .ok (rooms, listNext rooms limit)

/-- The limit `RoomService.ListRooms` uses: 20 for a request of zero or less,
at most 50. -/
def listLimit (limit : Int) : Nat :=
  if limit ≤ 0 then 20 else if limit > 50 then 50 else limit.toNat

/-- Function `RoomService.ListRooms`: clamp the limit and list. -/
def RoomService.ListRooms (db : DB) (limit : Int) (cursor : String) :
    Except GoError (List Room × String) :=
  RoomRepository.List db (listLimit limit) cursor

/-- Follow the next-cursors of `History` from the given cursor: the pages
returned, in order, until a page comes with an empty next-cursor. `fuel` bounds
the number of calls; `none` when the bound is reached or a call fails. -/
def historyPages (db : DB) (roomID : String) (limit : Int) :
    Nat → String → Option (List (List ChatMessage))
  | 0, _ => none
  | fuel + 1, after =>
    match ChatService.History db roomID after limit with
    | .error _ => none
    | .ok (page, next) =>
      if next = "" then some [page]
      else (historyPages db roomID limit fuel next).map (fun pages => page :: pages)

/-! ### Sample cursors -/

/-- The cursor `(2024-01-01T00:00:00Z, "a")`. -/
def sampleCursor : Cursor := { CreatedAt := sampleTime, ID := "a" }

/-- A cursor whose time lies in the year 10000. -/
def farCursor : Cursor := { CreatedAt := { sampleTime with year := 10000 }, ID := "a" }

/-- A cursor whose time is read in a zone thirty seconds east of UTC. -/
def oddZoneCursor : Cursor := { CreatedAt := { sampleTime with offset := 30 }, ID := "a" }

/-- Call of `EncodeCursor` followed by `DecodeCursor`; an error of the first is the
error of the whole. -/
def encodeThenDecode (c : Cursor) : Except GoError (Option Cursor) :=
  match EncodeCursor c with
  | .error e => .error e
  | .ok s => DecodeCursor s

/-- The sort key of a row: the instant and the id, ordered lexicographically. -/
def rowKey (t : Int) (id : String) : Lex (Int × String) := toLex (t, id)

/-- The sort key of a message. -/
def ChatMessage.key (m : ChatMessage) : Lex (Int × String) := rowKey m.CreatedAt.unixNano m.ID

/-- The sort key of a room. -/
def Room.key (rm : Room) : Lex (Int × String) := rowKey rm.CreatedAt.unixNano rm.ID

/-- A message of the year 10000 in room `r`. -/
def farMessage : ChatMessage :=
  { ID := "m2", RoomID := "r", UserID := 1, Text := "late", ReplyTo := none,
    CreatedAt := { sampleTime with year := 10000 } }

/-- A message of 2024 in room `r`. -/
def sampleMessage : ChatMessage :=
  { ID := "m1", RoomID := "r", UserID := 1, Text := "early", ReplyTo := none,
    CreatedAt := sampleTime }

/-- A database with the two messages `sampleMessage` and `farMessage`. -/
def farDB : DB := { rooms := [sampleRoom], participants := [], messages := [sampleMessage, farMessage] }

/-- A database with the message `sampleMessage` only. -/
def oneMessageDB : DB := { rooms := [sampleRoom], participants := [], messages := [sampleMessage] }

/-- A second message of room `r`, one second after `sampleMessage`. -/
def laterMessage : ChatMessage :=
  { ID := "m2", RoomID := "r", UserID := 2, Text := "later", ReplyTo := none,
    CreatedAt := { sampleTime with second := 1 } }

/-- A database with two messages of room `r` whose timestamps can be encoded. -/
def twoMessageDB : DB :=
  { rooms := [sampleRoom], participants := [], messages := [sampleMessage, laterMessage] }

/-! ## Credential core: refresh sessions (`auth-service`)

Times of the credential core are only compared and shifted; they are modelled
by their instant, nanoseconds since the Unix epoch. -/

/-- Sentinel `errs.ErrEmptyTokenHash` of auth-service. -/
def ErrEmptyTokenHash : GoError := .sentinel "errs.ErrEmptyTokenHash"
/-- Sentinel `errs.ErrPastExpiry` of auth-service. -/
def ErrPastExpiry : GoError := .sentinel "errs.ErrPastExpiry"
/-- Sentinel `errs.ErrInvalidCredentials` of auth-service. -/
def ErrInvalidCredentials : GoError := .sentinel "errs.ErrInvalidCredentials"
/-- Sentinel `errs.ErrSessionExpired` of auth-service. -/
def ErrSessionExpired : GoError := .sentinel "errs.ErrSessionExpired"
/-- Sentinel `repository.ErrNotFound` of auth-service. -/
def ErrNotFound : GoError := .sentinel "repository.ErrNotFound"
/-- Sentinel `repository.ErrAlreadyExists` of auth-service. -/
def ErrAlreadyExists : GoError := .sentinel "repository.ErrAlreadyExists"

/-- The predicate `unicode.IsSpace`. -/
def isSpace (r : Nat) : Bool :=
  r == 9 || r == 10 || r == 11 || r == 12 || r == 13 || r == 32 || r == 0x85 || r == 0xA0 ||
  r == 0x1680 || (decide (0x2000 ≤ r) && decide (r ≤ 0x200A)) || r == 0x2028 || r == 0x2029 ||
  r == 0x202F || r == 0x205F || r == 0x3000

/-- The function `strings.TrimSpace`. -/
def TrimSpace (s : String) : String :=
  ofRunes ((((runes s).dropWhile isSpace).reverse.dropWhile isSpace).reverse)

/-- Row of `auth_sessions` (`domain.Session`). -/
structure Session where
  ID : Int
  UserID : Int
  TokenHash : String
  ExpiresAt : Int
  CreatedAt : Int
  UpdatedAt : Int
  UserAgent : Option String
  IP : Option String
  deriving DecidableEq, Repr

/-- Function `trimPtr`: trim, and an empty result is absent. -/
def trimPtr (p : Option String) : Option String :=
  match p with
  | none => none
  | some s => if TrimSpace s = "" then none else some (TrimSpace s)

/-- Function `domain.NewSession` (without options): refuse a blank token hash and an
expiry that is not after `now`. -/
def NewSession (userID : Int) (tokenHash : String) (expiresAt now : Int) :
    Except GoError Session :=
  if TrimSpace tokenHash = "" then .error ErrEmptyTokenHash
  else if ¬ (expiresAt > now) then .error ErrPastExpiry
  else .ok { ID := 0, UserID := userID, TokenHash := tokenHash, ExpiresAt := expiresAt,
             CreatedAt := now, UpdatedAt := now, UserAgent := none, IP := none }

/-- Function `Session.IsExpired`: the expiry is not after `now`. -/
def Session.IsExpired (s : Session) (now : Int) : Bool := !decide (s.ExpiresAt > now)

/-- Function `Session.SetUserAgent`. -/
def Session.SetUserAgent (s : Session) (ua : Option String) (now : Int) : Session :=
  { s with UserAgent := trimPtr ua, UpdatedAt := now }

/-- Function `Session.SetIP`. -/
def Session.SetIP (s : Session) (addr : Option String) (now : Int) : Session :=
  { s with IP := addr, UpdatedAt := now }

/-- The credential database as the session repository sees it: the rows of
`auth_sessions` and the last id its sequence gave out. -/
structure AuthDB where
  sessions : List Session
  lastSessionID : Int
  deriving DecidableEq, Repr

/-- Function `toNullStringPtr`: trim, and an empty result is NULL. -/
def toNullStringPtr (p : Option String) : Option String :=
  match p with
  | none => none
  | some s => if TrimSpace s = "" then none else some (TrimSpace s)

/-- Modelled from the spec: the statement `QueryCreateSession` against
`auth_sessions`, whose declaration is not among the sources; by the spec the
table has `id PK` (given out by a sequence) and `token_hash UQ`. A duplicate
token hash is the unique violation 23505, which `mapPgError` turns into
`ErrAlreadyExists`. `fault` is a failure of the statement that does not come
from the data (connection, deadline); nothing is inserted then. -/
def SessionRepo.Create (fault : Option GoError) (db : AuthDB) (s : Session) :
    AuthDB × Except GoError Int :=
  match fault with
  | some e => (db, .error e)
  | none =>
    if db.sessions.any (fun x => x.TokenHash == TrimSpace s.TokenHash) then
      (db, .error ErrAlreadyExists)
    else
      let id := db.lastSessionID + 1
      ({ sessions := db.sessions ++
            [{ s with ID := id, TokenHash := TrimSpace s.TokenHash,
                      UserAgent := toNullStringPtr s.UserAgent }],
         lastSessionID := id }, .ok id)

/-- Function `SessionRepo.GetByTokenHash`: the row with exactly that (trimmed) token
hash, `ErrNotFound` when there is none, the storage error when the query
fails. -/
def SessionRepo.GetByTokenHash (fault : Option GoError) (db : AuthDB) (tokenHash : String) :
    Except GoError Session :=
  match fault with
  | some e => .error e
  | none =>
    match db.sessions.find? (fun x => x.TokenHash == TrimSpace tokenHash) with
    | some s => .ok s
    | none => .error ErrNotFound

/-- Function `SessionRepo.DeleteByID`: delete the row with that id; `ErrNotFound` when
no row was affected, the storage error (and no change) when the statement
fails. -/
def SessionRepo.DeleteByID (fault : Option GoError) (db : AuthDB) (id : Int) :
    AuthDB × Except GoError Unit :=
  match fault with
  | some e => (db, .error e)
  | none =>
    if db.sessions.any (fun x => x.ID == id) then
      ({ db with sessions := db.sessions.filter (fun x => !(x.ID == id)) }, .ok ())
    else (db, .error ErrNotFound)

/-- Metadata of a login (`service.LoginMeta`); the address as its text. -/
structure LoginMeta where
  UserAgent : Option String
  IP : Option String
  deriving DecidableEq, Repr

/-- The fixed parts of an `AuthService` that a refresh uses. The SHA-256 of
`security.SHA256HexOfString` is a parameter. -/
structure AuthService where
  refreshTTL : Int
  SHA256HexOfString : String → String

/-- What one call of `Refresh` takes from outside: the two readings of the
clock (`s.now()` in `Refresh` and in `issueTokens`), the outcome of
`jwt.SignAccessToken` and of `security.RandomStringURLSafe(32)`, and, for each
of the three statements the call can send to the database, a failure of the
statement (connection, deadline) if there is one. -/
structure RefreshEnv where
  now : Int
  issueNow : Int
  signed : Except GoError String
  random : Except GoError String
  getFault : Option GoError
  deleteFault : Option GoError
  createFault : Option GoError

/-- Function `AuthService.issueTokens`: sign the access token, draw the refresh token,
build the session, delete the old session if one is given (the outcome of the
delete is dropped), and only then insert the new session. -/
def AuthService.issueTokens (svc : AuthService) (env : RefreshEnv) (db : AuthDB) (userID : Int)
    (loginMeta : Option LoginMeta) (oldSessionID : Option Int) :
    AuthDB × Except GoError (String × String) :=
  let now := env.issueNow
  match env.signed with
  | .error err => (db, .error err)
  | .ok access =>
    match env.random with
    | .error err => (db, .error err)
    | .ok refresh =>
      let hash := svc.SHA256HexOfString refresh
      let expires := now + svc.refreshTTL
      match NewSession userID hash expires now with
      | .error err => (db, .error err)
      | .ok sess =>
        let sess :=
          match loginMeta with
          | none => sess
          | some m =>
            let sess :=
              if m.UserAgent.isSome ∧ m.UserAgent ≠ some "" then sess.SetUserAgent m.UserAgent now
              else sess
            if m.IP.isSome then sess.SetIP m.IP now else sess
        let db1 :=
          match oldSessionID with
          | none => db
          | some old => (SessionRepo.DeleteByID env.deleteFault db old).1
        match SessionRepo.Create env.createFault db1 sess with
        | (db2, .error err) => (db2, .error err)
        | (db2, .ok _) => (db2, .ok (access, refresh))

/-- The session `issueTokens` hands to the insert: the new session after the
login metadata has been applied to it. -/
def issuedSession (ns : Session) (loginMeta : Option LoginMeta) (now : Int) : Session :=
  match loginMeta with
  | none => ns
  | some m =>
    let sess :=
      if m.UserAgent.isSome ∧ m.UserAgent ≠ some "" then ns.SetUserAgent m.UserAgent now
      else ns
    if m.IP.isSome then sess.SetIP m.IP now else sess

/-- Result of a refresh (`service.RefreshResult`). -/
structure RefreshResult where
  UserID : Int
  AccessToken : String
  RefreshToken : String
  deriving DecidableEq, Repr

/-- Function `AuthService.Refresh`: look the session up by the hash of the presented
token (`ErrInvalidCredentials` when there is none), delete an expired session
and fail with `ErrSessionExpired`, otherwise issue a new pair with the old
session's id. -/
def AuthService.Refresh (svc : AuthService) (env : RefreshEnv) (db : AuthDB)
    (refreshToken : String) (loginMeta : Option LoginMeta) : AuthDB × Except GoError RefreshResult :=
  let hash := svc.SHA256HexOfString refreshToken
  match SessionRepo.GetByTokenHash env.getFault db hash with
  | .error err =>
    if err.is ErrNotFound then (db, .error ErrInvalidCredentials) else (db, .error err)
  | .ok sess =>
    let now := env.now
    if sess.IsExpired now then
      ((SessionRepo.DeleteByID env.deleteFault db sess.ID).1, .error ErrSessionExpired)
    else
      match svc.issueTokens env db sess.UserID loginMeta (some sess.ID) with
      | (db', .error err) => (db', .error err)
      | (db', .ok (access, newRefresh)) =>
        (db', .ok { UserID := sess.UserID, AccessToken := access, RefreshToken := newRefresh })

/-- The constraints of `auth_sessions` the spec names: `token_hash UQ`. -/
def AuthDB.UniqueHashes (db : AuthDB) : Prop := (db.sessions.map (fun s => s.TokenHash)).Nodup

instance (db : AuthDB) : Decidable db.UniqueHashes := by unfold AuthDB.UniqueHashes; infer_instance

/-- The outside of a `Refresh` call behaves: no statement fails, the access
token gets signed, and the refresh token drawn is fresh, that is, its hash is
not blank and is the token hash of no session in the store. -/
def RefreshEnv.Healthy (env : RefreshEnv) (svc : AuthService) (db : AuthDB) : Prop :=
  env.getFault = none ∧ env.deleteFault = none ∧ env.createFault = none ∧
  (∃ access, env.signed = .ok access) ∧
  ∃ refresh, env.random = .ok refresh ∧
    TrimSpace (svc.SHA256HexOfString refresh) ≠ "" ∧
    ∀ x ∈ db.sessions, x.TokenHash ≠ TrimSpace (svc.SHA256HexOfString refresh)

/-- The call of `issueTokens` fails before it touches the store: the signing fails, the
random source fails, or `NewSession` refuses. -/
def AuthService.issueFailsEarly (svc : AuthService) (env : RefreshEnv) (userID : Int) : Prop :=
  (∃ e, env.signed = .error e) ∨ (∃ e, env.random = .error e) ∨
  ∃ refresh e, env.random = .ok refresh ∧
    NewSession userID (svc.SHA256HexOfString refresh) (env.issueNow + svc.refreshTTL)
      env.issueNow = .error e

/-! ### Sample data -/

/-- A stand-in for SHA-256 in examples: an injective tagging of the token. -/
def sampleSHA (s : String) : String := "sha256:" ++ s

/-- A service with a refresh lifetime of one hour. -/
def sampleService : AuthService :=
  { refreshTTL := 3600000000000, SHA256HexOfString := sampleSHA }

/-- The session of user 1 for the refresh token `R1`, created at instant 0. -/
def sampleSession : Session :=
  { ID := 1, UserID := 1, TokenHash := "sha256:R1", ExpiresAt := 3600000000000,
    CreatedAt := 0, UpdatedAt := 0, UserAgent := none, IP := none }

/-- A store that holds `sampleSession` only. -/
def sampleAuthDB : AuthDB := { sessions := [sampleSession], lastSessionID := 1 }

/-- An outside in which everything works: the clock reads `now`, the signer
returns `access`, the random source returns `refresh`. -/
def workingEnv (now : Int) (access refresh : String) : RefreshEnv :=
  { now := now, issueNow := now, signed := .ok access, random := .ok refresh,
    getFault := none, deleteFault := none, createFault := none }

/-- As `workingEnv`, but the insert of the new session fails. -/
def insertFailsEnv (now : Int) (access refresh : String) : RefreshEnv :=
  { workingEnv now access refresh with createFault := some (.lib "conn closed") }

/-- As `workingEnv`, but the delete of a session fails. -/
def deleteFailsEnv (now : Int) (access refresh : String) : RefreshEnv :=
  { workingEnv now access refresh with deleteFault := some (.lib "conn closed") }

/-- The session that replaces `sampleSession` when `R1` is refreshed to `R2` at
instant 10. -/
def rotatedSession : Session :=
  { ID := 2, UserID := 1, TokenHash := "sha256:R2", ExpiresAt := 3600000000010,
    CreatedAt := 10, UpdatedAt := 10, UserAgent := none, IP := none }

/-- The store after that refresh. -/
def rotatedAuthDB : AuthDB := { sessions := [rotatedSession], lastSessionID := 2 }

/-- Another session, for the refresh token `R3`. -/
def otherSession : Session :=
  { ID := 2, UserID := 1, TokenHash := "sha256:R3", ExpiresAt := 3600000000000,
    CreatedAt := 0, UpdatedAt := 0, UserAgent := none, IP := none }

/-- The store after `R1` was refreshed to `R2` at instant 10 while the delete
of the old session failed: both sessions are there. -/
def keptAuthDB : AuthDB := { sessions := [sampleSession, rotatedSession], lastSessionID := 2 }

/-! ## Credential core: users, registration and login (`auth-service`) -/

/-- Sentinel `errs.ErrInvalidEmail` of auth-service. -/
def ErrInvalidEmail : GoError := .sentinel "errs.ErrInvalidEmail"
/-- Sentinel `errs.ErrEmptyPasswordHash` of auth-service. -/
def ErrEmptyPasswordHash : GoError := .sentinel "errs.ErrEmptyPasswordHash"
/-- Sentinel `errs.ErrPasswordTooShort` of auth-service. -/
def ErrPasswordTooShort : GoError := .sentinel "errs.ErrPasswordTooShort"
/-- The error `bcrypt.ErrMismatchedHashAndPassword` of package bcrypt. -/
def bcryptErrMismatchedHashAndPassword : GoError :=
  .lib "crypto/bcrypt: hashedPassword is not the hash of the given password"

/-- The function `unicode.ToLower` on one rune: an ASCII capital is shifted, any
other ASCII rune is kept; what the case tables of package `unicode` give for a
rune above ASCII is the parameter `tbl`. -/
def unicodeToLower (tbl : Nat → Nat) (r : Nat) : Nat :=
  if r < 128 then (if 65 ≤ r ∧ r ≤ 90 then r + 32 else r) else tbl r

/-- The function `strings.ToLower`. -/
def ToLower (tbl : Nat → Nat) (s : String) : String :=
  ofRunes ((runes s).map (unicodeToLower tbl))

/-- Function `normalizeEmail`: trim, then lower-case. -/
def normalizeEmail (tbl : Nat → Nat) (s : String) : String := ToLower tbl (TrimSpace s)

/-- Row of `users` (`domain.User`). -/
structure User where
  ID : Int
  Email : String
  EmailVerified : Bool
  PasswordHash : String
  DisplayName : Option String
  AvatarURL : Option String
  CreatedAt : Int
  UpdatedAt : Int
  deriving DecidableEq, Repr

/-- Function `WithDisplayName`: the option of `NewUser` that sets the display name. -/
def WithDisplayName (name : String) : User → User :=
  fun u => { u with DisplayName := trimPtr (some name) }

/-- Function `domain.NewUser`: normalize the email, refuse an empty email and a blank
password hash, then apply the options in order. -/
def NewUser (tbl : Nat → Nat) (email passwordHash : String) (now : Int)
    (opts : List (User → User)) : Except GoError User :=
  let email := normalizeEmail tbl email
  if email = "" then .error ErrInvalidEmail
  else if TrimSpace passwordHash = "" then .error ErrEmptyPasswordHash
  else
    .ok (opts.foldl (fun u opt => opt u)
      { ID := 0, Email := email, EmailVerified := false, PasswordHash := passwordHash,
        DisplayName := none, AvatarURL := none, CreatedAt := now, UpdatedAt := now })

/-- The credential database: the rows of `users`, the last id the sequence of
`users` gave out, and the session table. -/
structure CredentialDB where
  users : List User
  lastUserID : Int
  auth : AuthDB
  deriving DecidableEq, Repr

/-- Modelled from the spec: the statement `QueryCreateUser` against `users`, whose
declaration is not among the sources; by the spec the table has `id PK` (given
out by a sequence) and `email UQ`, and emails are compared as text. A
duplicate email is the unique violation 23505, which `mapPgError` turns into
`ErrAlreadyExists`. `fault` is a failure of the statement that does not come
from the data; nothing is inserted then. -/
def UserRepo.Create (fault : Option GoError) (db : CredentialDB) (u : User) :
    CredentialDB × Except GoError Int :=
  match fault with
  | some e => (db, .error e)
  | none =>
    if db.users.any (fun x => x.Email == u.Email) then (db, .error ErrAlreadyExists)
    else
      let id := db.lastUserID + 1
      ({ db with
          users := db.users ++
            [{ u with ID := id, DisplayName := toNullStringPtr u.DisplayName,
                      AvatarURL := toNullStringPtr u.AvatarURL }],
          lastUserID := id }, .ok id)

/-- Function `UserRepo.GetByEmail`: the row whose email is exactly the argument,
`ErrNotFound` when there is none, the storage error when the query fails. -/
def UserRepo.GetByEmail (fault : Option GoError) (db : CredentialDB) (email : String) :
    Except GoError User :=
  match fault with
  | some e => .error e
  | none =>
    match db.users.find? (fun x => x.Email == email) with
    | some u => .ok u
    | none => .error ErrNotFound

/-- Function `UserRepo.ExistsByEmail`: whether a row has exactly the trimmed argument
as its email. -/
def UserRepo.ExistsByEmail (fault : Option GoError) (db : CredentialDB) (email : String) :
    Except GoError Bool :=
  match fault with
  | some e => .error e
  | none => .ok (db.users.any (fun x => x.Email == TrimSpace email))

/-- Password policy (`security.BcryptConfig`). -/
structure BcryptConfig where
  Cost : Int
  MinLength : Int
  deriving DecidableEq, Repr

/-- Package `golang.org/x/crypto/bcrypt` as the code uses it. `GenerateFromPassword`
stands for one draw of the salt. -/
structure Bcrypt where
  GenerateFromPassword : String → Int → Except GoError String
  CompareHashAndPassword : String → String → Option GoError

/-- Function `security.HashPassword`: the plaintext must have at least `MinLength`
bytes (6 when the policy gives none), then bcrypt hashes it at the policy's
cost (`bcrypt.DefaultCost`, 10, when the policy gives none). -/
def HashPassword (lib : Bcrypt) (plain : String) (cfg : Option BcryptConfig) :
    Except GoError String :=
  let minLen : Int :=
    match cfg with
    | some c => if c.MinLength > 0 then c.MinLength else 6
    | none => 6
  let cost : Int :=
    match cfg with
    | some c => if c.Cost > 0 then c.Cost else 10
    | none => 10
  if ((utf8Encode (runes plain)).length : Int) < minLen then .error ErrPasswordTooShort
  else
    match lib.GenerateFromPassword plain cost with
    | .error err => .error err
    | .ok hash => .ok hash

/-- Function `security.ComparePassword`: the outcome of `bcrypt.CompareHashAndPassword`. -/
def ComparePassword (lib : Bcrypt) (hash plain : String) : Option GoError :=
  lib.CompareHashAndPassword hash plain

/-- What `Register` and `Login` use beyond the parts of a refresh: the password
policy of the service, package bcrypt, and the case tables of package
`unicode`. -/
structure AuthDeps where
  passPolicy : BcryptConfig
  bcrypt : Bcrypt
  lower : Nat → Nat

/-- What one call of `Register` or `Login` takes from outside: the reading of the
clock in `Register`, a failure of the lookup in `users` and of the insert into
`users` if there is one, and the outside of `issueTokens`. -/
structure CredEnv where
  now : Int
  lookupFault : Option GoError
  createUserFault : Option GoError
  issue : RefreshEnv

/-- Result of a registration (`service.RegisterResult`). -/
structure RegisterResult where
  User : User
  AccessToken : String
  RefreshToken : String
  deriving DecidableEq, Repr

/-- Result of a login (`service.LoginResult`). -/
structure LoginResult where
  User : User
  AccessToken : String
  RefreshToken : String
  deriving DecidableEq, Repr

/-- The options `Register` hands to `NewUser`: the display name, if one is given. -/
def registerOptions (displayName : Option String) : List (User → User) :=
  match displayName with
  | some d => [WithDisplayName d]
  | none => []

/-- Function `AuthService.Register`: refuse an email that `ExistsByEmail` finds, hash
the password, build the user, insert it, and issue the first pair of tokens. -/
def AuthService.Register (svc : AuthService) (deps : AuthDeps) (env : CredEnv)
    (db : CredentialDB) (email password : String) (displayName : Option String) :
    CredentialDB × Except GoError RegisterResult :=
  match UserRepo.ExistsByEmail env.lookupFault db email with
  | .error err => (db, .error err)
  | .ok true => (db, .error ErrAlreadyExists)
  | .ok false =>
    match HashPassword deps.bcrypt password (some deps.passPolicy) with
    | .error err => (db, .error err)
    | .ok hash =>
      let now := env.now
      match NewUser deps.lower email hash now (registerOptions displayName) with
      | .error err => (db, .error err)
      | .ok u =>
        match UserRepo.Create env.createUserFault db u with
        | (db1, .error err) => (db1, .error err)
        | (db1, .ok id) =>
          let u := { u with ID := id }
          match svc.issueTokens env.issue db1.auth u.ID none none with
          | (a, .error err) => ({ db1 with auth := a }, .error err)
          | (a, .ok (access, refresh)) =>
            ({ db1 with auth := a },
              .ok { User := u, AccessToken := access, RefreshToken := refresh })

/-- Function `AuthService.Login`: look the user up by the email as given
(`ErrInvalidCredentials` when there is none), compare the password with the
stored hash and return the outcome of the comparison when it is an error,
otherwise issue a pair of tokens. -/
def AuthService.Login (svc : AuthService) (deps : AuthDeps) (env : CredEnv)
    (db : CredentialDB) (email password : String) (loginMeta : Option LoginMeta) :
    CredentialDB × Except GoError LoginResult :=
  match UserRepo.GetByEmail env.lookupFault db email with
  | .error err =>
    if err.is ErrNotFound then (db, .error ErrInvalidCredentials) else (db, .error err)
  | .ok u =>
    match ComparePassword deps.bcrypt u.PasswordHash password with
    | some err => (db, .error err)
    | none =>
      match svc.issueTokens env.issue db.auth u.ID loginMeta none with
      | (a, .error err) => ({ db with auth := a }, .error err)
      | (a, .ok (access, refresh)) =>
        ({ db with auth := a },
          .ok { User := u, AccessToken := access, RefreshToken := refresh })

/-- The status codes of gRPC (`codes.Code`) that the handlers of the two services
give out. -/
inductive Code where
  | InvalidArgument
  | AlreadyExists
  | NotFound
  | Unauthenticated
  | Internal
  | FailedPrecondition
  | Unimplemented
  deriving DecidableEq, Repr

/-- Function `mapError` of the handlers, for an error that is not nil: the code of the
status it builds. -/
def mapError (err : GoError) : Code :=
  if err.is ErrAlreadyExists then .AlreadyExists
  else if err.is ErrNotFound then .NotFound
  else if err.is ErrInvalidCredentials then .Unauthenticated
  else if err.is ErrSessionExpired then .Unauthenticated
  else .Internal

/-- Request of a login (`authv1.LoginRequest`). -/
structure LoginRequest where
  Email : String
  Password : String
  deriving DecidableEq, Repr

/-- Request of a registration (`authv1.RegisterRequest`). -/
structure RegisterRequest where
  Email : String
  Password : String
  DisplayName : String
  deriving DecidableEq, Repr

/-- Function `AuthHandler.Login`: trim the email of the request, call the service, and
map an error to its status code. The response is stood for by the result of
the service it is built from; `loginMeta` is what `extractLoginMeta` reads
from the call. -/
def AuthHandler.Login (svc : AuthService) (deps : AuthDeps) (env : CredEnv)
    (db : CredentialDB) (req : Option LoginRequest) (loginMeta : Option LoginMeta) :
    CredentialDB × Except Code LoginResult :=
  match req with
  | none => (db, .error .InvalidArgument)
  | some r =>
    match svc.Login deps env db (TrimSpace r.Email) r.Password loginMeta with
    | (db1, .error err) => (db1, .error (mapError err))
    | (db1, .ok res) => (db1, .ok res)

/-- Function `AuthHandler.Register`: trim the email and the display name of the request
(a blank display name is absent), call the service, and map an error to its
status code. -/
def AuthHandler.Register (svc : AuthService) (deps : AuthDeps) (env : CredEnv)
    (db : CredentialDB) (req : Option RegisterRequest) :
    CredentialDB × Except Code RegisterResult :=
  match req with
  | none => (db, .error .InvalidArgument)
  | some r =>
    let displayName := if TrimSpace r.DisplayName ≠ "" then some (TrimSpace r.DisplayName) else none
    match svc.Register deps env db (TrimSpace r.Email) r.Password displayName with
    | (db1, .error err) => (db1, .error (mapError err))
    | (db1, .ok res) => (db1, .ok res)

/-! ### Sample data -/

/-- A stand-in for bcrypt in examples: the hash of a password is the password
behind a fixed tag, and a hash matches the password it tags. -/
def sampleBcrypt : Bcrypt :=
  { GenerateFromPassword := fun p _ => .ok ("$2a$10$" ++ p)
    CompareHashAndPassword := fun h p =>
      if h = "$2a$10$" ++ p then none else some bcryptErrMismatchedHashAndPassword }

/-- The policy of the defaults, the stand-in for bcrypt, and case tables that
keep every rune above ASCII. -/
def sampleDeps : AuthDeps :=
  { passPolicy := { Cost := 10, MinLength := 6 }, bcrypt := sampleBcrypt, lower := id }

/-- An outside of `Register` and `Login` in which everything works. -/
def credEnv (now : Int) (access refresh : String) : CredEnv :=
  { now := now, lookupFault := none, createUserFault := none,
    issue := workingEnv now access refresh }

/-- An empty credential database. -/
def emptyCredentialDB : CredentialDB :=
  { users := [], lastUserID := 0, auth := { sessions := [], lastSessionID := 0 } }

/-- The user the registration of `Alice@X.com` with `passw0rd` at instant 0 stores. -/
def aliceUser : User :=
  { ID := 1, Email := "alice@x.com", EmailVerified := false, PasswordHash := "$2a$10$passw0rd",
    DisplayName := none, AvatarURL := none, CreatedAt := 0, UpdatedAt := 0 }

/-- The session that registration opens, for the refresh token `R1`. -/
def aliceSession : Session :=
  { ID := 1, UserID := 1, TokenHash := "sha256:R1", ExpiresAt := 3600000000000,
    CreatedAt := 0, UpdatedAt := 0, UserAgent := none, IP := none }

/-- The credential database after that registration. -/
def aliceDB : CredentialDB :=
  { users := [aliceUser], lastUserID := 1,
    auth := { sessions := [aliceSession], lastSessionID := 1 } }
/-! ## Credential core: access tokens (`auth-service/internal/security/jwt.go`)

The text of a token (base64 of JSON, the RSA signature over it) is not
modelled: a signed token is the record of what was signed and of the key pair
that signed it, and a signature verifies under the public key of that pair
only. Instants are nanoseconds since the Unix epoch, durations nanoseconds. -/

/-- Sentinel `errs.ErrInvalidToken` of auth-service. -/
def ErrInvalidToken : GoError := .sentinel "errs.ErrInvalidToken"
/-- Sentinel `errs.ErrInvalidIssuer` of auth-service. -/
def ErrInvalidIssuer : GoError := .sentinel "errs.ErrInvalidIssuer"
/-- Sentinel `errs.ErrInvalidAudience` of auth-service. -/
def ErrInvalidAudience : GoError := .sentinel "errs.ErrInvalidAudience"
/-- Sentinel `errs.ErrTokenExpired` of auth-service. -/
def ErrTokenExpired : GoError := .sentinel "errs.ErrTokenExpired"
/-- Sentinel `errs.ErrInvalidSubject` of auth-service. -/
def ErrInvalidSubject : GoError := .sentinel "errs.ErrInvalidSubject"

/-- Method `Time.Unix`: the whole seconds of an instant, rounded down. -/
def unixSeconds (t : Int) : Int := t / 1000000000

/-- The decimal digits of a number, most significant first; `fuel` bounds the
number of digits. -/
def decimalAux : Nat → Nat → List Nat → List Nat
  | 0, _, acc => acc
  | fuel + 1, n, acc =>
    if n < 10 then digitChar n :: acc else decimalAux fuel (n / 10) (digitChar (n % 10) :: acc)

/-- The decimal digits of a number. -/
def decimal (n : Nat) : List Nat := decimalAux (n + 1) n []

/-- The function `strconv.FormatInt(i, 10)`, which is what `fmt.Sprint` prints for an
`int64`. -/
def formatInt (i : Int) : String :=
  if i < 0 then ofRunes (45 :: decimal i.natAbs) else ofRunes (decimal i.natAbs)

/-- The claims of a token (`jwt.StandardClaims` of golang-jwt, version 3). -/
structure StandardClaims where
  Audience : String
  ExpiresAt : Int
  Id : String
  IssuedAt : Int
  Issuer : String
  NotBefore : Int
  Subject : String
  deriving DecidableEq, Repr

/-- The claims of an access token (`security.AccessClaims`): the standard claims
and nothing else. -/
structure AccessClaims extends StandardClaims
  deriving DecidableEq, Repr

/-- The signer of access tokens (`security.JWTSigner`). A key is the number of
the key pair it belongs to. -/
structure JWTSigner where
  privateKey : Nat
  publicKey : Nat
  issuer : String
  audience : String
  ttl : Int
  clockSkew : Int
  deriving DecidableEq, Repr

/-- A signed token: the algorithm its header names, its claims, and the key pair
whose private key signed it. -/
structure SignedToken where
  alg : String
  claims : AccessClaims
  signedWith : Nat
  deriving DecidableEq, Repr

/-- The claims that `SignAccessToken` builds for a user at the instant `now`. -/
def JWTSigner.accessClaims (s : JWTSigner) (userID : Int) (now : Int) : AccessClaims :=
  { Subject := formatInt userID
    Issuer := s.issuer
    Audience := s.audience
    IssuedAt := unixSeconds now
    NotBefore := unixSeconds (now + -s.clockSkew)
    ExpiresAt := unixSeconds (now + s.ttl)
    Id := "" }

/-- Function `JWTSigner.SignAccessToken`: build the claims and sign them with RS256 and
the private key; `signFault` is a failure of `SignedString` if there is one. -/
def JWTSigner.SignAccessToken (s : JWTSigner) (signFault : Option GoError) (userID : Int)
    (now : Int) : Except GoError SignedToken :=
  match signFault with
  | some e => .error e
  | none => .ok { alg := "RS256", claims := s.accessClaims userID now, signedWith := s.privateKey }

/-- Method `StandardClaims.Valid` of golang-jwt (version 3), at the Unix second
`now`: the token must not be past `exp`, not before `iat` and not before
`nbf`, each claim being skipped when it is zero; there is no allowance for
clock skew. The error holds the text of the last check that failed (the text
of the first is cut before the delay it names). -/
def StandardClaims.Valid (c : StandardClaims) (now : Int) : Option GoError :=
  let e1 : Option GoError :=
    if c.ExpiresAt ≠ 0 ∧ ¬ (now ≤ c.ExpiresAt) then some (.lib "token is expired") else none
  let e2 : Option GoError :=
    if c.IssuedAt ≠ 0 ∧ ¬ (now ≥ c.IssuedAt) then some (.lib "Token used before issued") else e1
  if c.NotBefore ≠ 0 ∧ ¬ (now ≥ c.NotBefore) then some (.lib "token is not valid yet") else e2

/-- Function `jwt.ParseWithClaims` of golang-jwt (version 3) on a token that decodes:
ask `keyFunc` for the key, validate the claims at the reading `timeFunc` of
the clock, verify the signature, and return the claims when nothing failed.
An error is represented by its text. -/
def ParseWithClaims (tok : SignedToken) (keyFunc : SignedToken → Except GoError Nat)
    (timeFunc : Int) : Except GoError AccessClaims :=
  match keyFunc tok with
  | .error _ => .error (.lib "invalid token")
  | .ok key =>
    let vErr := tok.claims.toStandardClaims.Valid (unixSeconds timeFunc)
    let vErr : Option GoError :=
      if tok.signedWith ≠ key then some (.lib "crypto/rsa: verification error") else vErr
    match vErr with
    | some e => .error e
    | none => .ok tok.claims

/-- Method `VerifyIssuer` of the claims: a required issuer must be present and equal. -/
def StandardClaims.VerifyIssuer (c : StandardClaims) (cmp : String) (req : Bool) : Bool :=
  if c.Issuer = "" then !req else decide (c.Issuer = cmp)

/-- Method `VerifyAudience` of the claims: a required audience must be present and
equal. -/
def StandardClaims.VerifyAudience (c : StandardClaims) (cmp : String) (req : Bool) : Bool :=
  if c.Audience = "" then !req else decide (c.Audience = cmp)

/-- Function `JWTSigner.ParseAndValidate`: parse with the library (the key function
refuses every algorithm but RS256), then check issuer and audience, then the
window from `nbf - clockSkew` to `exp + clockSkew` at the reading `now` of the
clock. `timeFunc` is the reading the library takes. After a parse without
error the token is valid, so the test of `token.Valid` never fires. -/
def JWTSigner.ParseAndValidate (s : JWTSigner) (timeFunc now : Int) (tok : SignedToken) :
    Except GoError AccessClaims :=
  match ParseWithClaims tok
      (fun t => if t.alg ≠ "RS256" then .error ErrInvalidToken else .ok s.publicKey)
      timeFunc with
  | .error err => .error err
  | .ok claims =>
    if ¬ claims.VerifyIssuer s.issuer true then .error ErrInvalidIssuer
    else if ¬ claims.VerifyAudience s.audience true then .error ErrInvalidAudience
    else
      let nbf := claims.NotBefore * 1000000000 + -s.clockSkew
      let exp := claims.ExpiresAt * 1000000000 + s.clockSkew
      if now < nbf ∨ now > exp then .error ErrTokenExpired else .ok claims

/-! ### `fmt.Sscan` into an `int64` -/

/-- The value of a digit in `strconv.ParseUint`: a decimal digit or a letter. -/
def digitValue36 (c : Nat) : Option Nat :=
  if 48 ≤ c ∧ c ≤ 57 then some (c - 48)
  else if 97 ≤ c ∧ c ≤ 122 then some (c - 97 + 10)
  else if 65 ≤ c ∧ c ≤ 90 then some (c - 65 + 10)
  else none

/-- The loop of `strconv.ParseUint` for 64 bits: with base 0 underscores are
skipped and noted; a character that is no digit of the base, or an overflow,
ends the parse with an error. -/
def parseUintLoop (base : Nat) (base0 : Bool) : List Nat → Nat → Bool → Option (Nat × Bool)
  | [], n, us => some (n, us)
  | c :: r, n, us =>
    if c = 95 ∧ base0 = true then parseUintLoop base base0 r n true
    else
      match digitValue36 c with
      | none => none
      | some d =>
        if d ≥ base then none
        else if n ≥ (2 ^ 64 - 1) / base + 1 then none
        else if n * base + d ≥ 2 ^ 64 then none
        else parseUintLoop base base0 r (n * base + d) us

/-- The byte `c | 0x20` that `strconv` calls `lower(c)`, for the three letters
of a base prefix. -/
def isPrefixLetter (c letter : Nat) : Bool := c == letter || c + 32 == letter

/-- The loop of `underscoreOK`: `saw` is 0 at the beginning, 1 after a digit or
base prefix, 2 after an underscore, 3 after anything else. -/
def underscoreLoop (hex : Bool) : List Nat → Nat → Bool
  | [], saw => saw != 2
  | c :: r, saw =>
    if (48 ≤ c ∧ c ≤ 57) ∨ (hex = true ∧ ((97 ≤ c ∧ c ≤ 102) ∨ (65 ≤ c ∧ c ≤ 70))) then
      underscoreLoop hex r 1
    else if c = 95 then
      if saw ≠ 1 then false else underscoreLoop hex r 2
    else if saw = 2 then false
    else underscoreLoop hex r 3

/-- The function `underscoreOK` of `strconv`: underscores stand only between digits or
between a base prefix and a digit. -/
def underscoreOK (s : List Nat) : Bool :=
  let s := match s with
    | c :: r => if c = 45 ∨ c = 43 then r else s
    | [] => s
  match s with
  | z :: c :: r =>
    if z = 48 ∧ (isPrefixLetter c 98 || isPrefixLetter c 111 || isPrefixLetter c 120) then
      underscoreLoop (isPrefixLetter c 120) r 1
    else underscoreLoop false s 0
  | _ => underscoreLoop false s 0

/-- The function `strconv.ParseUint(s, base, 64)`, without the kind of the error:
base 0 reads the base from the prefix and allows underscores. -/
def ParseUint (s : List Nat) (base : Nat) : Option Nat :=
  match s with
  | [] => none
  | c :: r =>
    if 2 ≤ base ∧ base ≤ 36 then
      match parseUintLoop base false s 0 false with
      | none => none
      | some (n, _) => some n
    else if base = 0 then
      let (base, body) : Nat × List Nat :=
        if c = 48 then
          match r with
          | l :: d :: r2 =>
            if isPrefixLetter l 98 then (2, d :: r2)
            else if isPrefixLetter l 111 then (8, d :: r2)
            else if isPrefixLetter l 120 then (16, d :: r2)
            else (8, r)
          | _ => (8, r)
        else (10, s)
      match parseUintLoop base true body 0 false with
      | none => none
      | some (n, underscores) => if underscores && !underscoreOK s then none else some n
    else none

/-- The function `strconv.ParseInt(s, base, 64)`, without the kind of the error. -/
def ParseInt (s : List Nat) (base : Nat) : Option Int :=
  match s with
  | [] => none
  | c :: r =>
    let neg := decide (c = 45)
    let body := if c = 43 ∨ c = 45 then r else s
    match ParseUint body base with
    | none => none
    | some un =>
      if !neg && decide (un ≥ 2 ^ 63) then none
      else if neg && decide (un > 2 ^ 63) then none
      else some (if neg then -(un : Int) else (un : Int))

/-- Method `scanBasePrefix` of the scanner of `fmt`: what goes into the token, the
digits that may follow, whether a digit has been seen, and the rest of the
input. -/
def scanBasePrefix (cs : List Nat) : List Nat × List Nat × Bool × List Nat :=
  match cs with
  | z :: r =>
    if z = 48 then
      match r with
      | l :: r2 =>
        if l = 98 ∨ l = 66 then ([48, l], [48, 49, 95], true, r2)
        else if l = 111 ∨ l = 79 then ([48, l], [48, 49, 50, 51, 52, 53, 54, 55, 95], true, r2)
        else if l = 120 ∨ l = 88 then
          ([48, l], [48, 49, 50, 51, 52, 53, 54, 55, 56, 57, 97, 65, 98, 66, 99, 67, 100, 68,
            101, 69, 102, 70, 95], true, r2)
        else ([48], [48, 49, 50, 51, 52, 53, 54, 55, 95], true, r)
      | [] => ([48], [48, 49, 50, 51, 52, 53, 54, 55, 95], true, r)
    else ([], [48, 49, 50, 51, 52, 53, 54, 55, 56, 57, 95], false, cs)
  | [] => ([], [48, 49, 50, 51, 52, 53, 54, 55, 56, 57, 95], false, cs)

/-- The call `fmt.Sscan(str, &id)` for an `int64`: skip leading space, take a sign,
a base prefix and the digits that follow, and parse that token with
`strconv.ParseInt(tok, 0, 64)`. What follows the token is not looked at. The
result is absent when `Sscan` returns an error. -/
def SscanInt64 (str : String) : Option Int :=
  let cs := (runes str).dropWhile isSpace
  match cs with
  | [] => none
  | c :: r =>
    let (sign, cs1) : List Nat × List Nat := if c = 43 ∨ c = 45 then ([c], r) else ([], cs)
    match scanBasePrefix cs1 with
    | (pre, digits, haveDigits, cs2) =>
      let body := cs2.takeWhile (fun x => digits.contains x)
      if !haveDigits && body.isEmpty then none else ParseInt (sign ++ pre ++ body) 0

/-- Function `SubjectAsUserID`: the subject of the claims, scanned as an `int64`;
absent claims, an empty subject and a subject that does not scan are
`ErrInvalidSubject`. -/
def SubjectAsUserID (claims : Option AccessClaims) : Except GoError Int :=
  match claims with
  | none => .error ErrInvalidSubject
  | some c =>
    if c.Subject = "" then .error ErrInvalidSubject
    else
      match SscanInt64 c.Subject with
      | none => .error ErrInvalidSubject
      | some id => .ok id

/-! ### Sample data -/

/-- A signer with a lifetime of 900 seconds and a clock skew of 30 seconds. -/
def sampleSigner : JWTSigner :=
  { privateKey := 1, publicKey := 1, issuer := "cwrk-auth", audience := "cwrk-api",
    ttl := 900000000000, clockSkew := 30000000000 }

/-- The token `sampleSigner` signs for user 7 at second 1000. -/
def sampleToken : SignedToken :=
  { alg := "RS256", signedWith := 1,
    claims := { Subject := "7", Issuer := "cwrk-auth", Audience := "cwrk-api", IssuedAt := 1000,
                NotBefore := 970, ExpiresAt := 1900, Id := "" } }

/-- The outcome of `ParseAndValidate` for `sampleToken` when the clock reads
second `sec`. -/
def validateAtSecond (sec : Int) : Except GoError AccessClaims :=
  sampleSigner.ParseAndValidate (sec * 1000000000) (sec * 1000000000) sampleToken
/-! ## Redaction in the loggers of auth-service (`transport/http/server.go`, `transport/grpc/server.go`)

A Go string that may hold any bytes (a request body, a logged text) is a list
of bytes. -/

/-- The function `strings.Contains` on bytes or runes. -/
def Contains : List Nat → List Nat → Bool
  | [], sub => sub.isEmpty
  | c :: cs, sub => (stripWord sub (c :: cs)).isSome || Contains cs sub

/-- What the JSON decoder and encoder do with a number, whose text stands for
the `float64` it denotes: whether `strconv.ParseFloat` accepts the text, and
the text the encoder writes for the value. -/
structure Float64Text where
  parses : List Nat → Bool
  format : List Nat → List Nat

/-- The values that `json.Unmarshal` stores into an `any`: nil, `bool`,
`float64`, `string`, `[]any` and `map[string]any`. A map is the list of its
entries, every key once, in the order in which the keys were first set. -/
inductive GoVal where
  | null
  | bool (b : Bool)
  | float64 (raw : List Nat)
  | string (s : String)
  | slice (items : List GoVal)
  | map (entries : List (String × GoVal))

/-- The assignment `m[k] = v`. -/
def mapSet (m : List (String × GoVal)) (k : String) (v : GoVal) : List (String × GoVal) :=
  match m with
  | [] => [(k, v)]
  | (k', v') :: rest => if k' = k then (k', v) :: rest else (k', v') :: mapSet rest k v

mutual
/-- The value the decoder builds for a parsed JSON value; a number that
`strconv.ParseFloat` refuses is an error of `json.Unmarshal`, which is `none`
here. In an object a later member overwrites an earlier one of the same key. -/
def decodeAny (fl : Float64Text) : JVal → Option GoVal
  | .null => some .null
  | .bool b => some (.bool b)
  | .num raw => if fl.parses raw then some (.float64 raw) else none
  | .str _ val => some (.string (ofRunes val))
  | .arr items => (decodeItems fl items).map GoVal.slice
  | .obj ms =>
    (decodeMembers fl ms).map (fun es => GoVal.map (es.foldl (fun m e => mapSet m e.1 e.2) []))
/-- The values of the elements of an array. -/
def decodeItems (fl : Float64Text) : List JVal → Option (List GoVal)
  | [] => some []
  | v :: vs =>
    match decodeAny fl v, decodeItems fl vs with
    | some a, some as => some (a :: as)
    | _, _ => none
/-- The keys and values of the members of an object, in the order of the text. -/
def decodeMembers (fl : Float64Text) : List (List Nat × JVal) → Option (List (String × GoVal))
  | [] => some []
  | (k, v) :: ms =>
    match decodeAny fl v, decodeMembers fl ms with
    | some a, some as => some ((ofRunes k, a) :: as)
    | _, _ => none
end

/-- The call `json.Unmarshal(b, &v)` for an `any`; `none` stands for a returned error. -/
def jsonUnmarshalAny (fl : Float64Text) (b : List Nat) : Option GoVal :=
  match parseJSON (utf8DecodeLossy b) with
  | none => none
  | some j => decodeAny fl j

/-- The texts of a list, with commas between them. -/
def joinComma : List (List Nat) → List Nat
  | [] => []
  | [x] => x
  | x :: y :: rest => x ++ 44 :: joinComma (y :: rest)

/-- The order of Go strings, byte by byte, which for texts is rune by rune: is
the first text at most the second? -/
def keyLE : List Nat → List Nat → Bool
  | [], _ => true
  | _ :: _, [] => false
  | a :: as, b :: bs => if a < b then true else if b < a then false else keyLE as bs

/-- A JSON string literal for a text. -/
def jsonQuote (s : String) : List Nat := 34 :: jsonEscape (runes s) ++ [34]

mutual
/-- The text `json.Marshal` writes for a value that came out of `json.Unmarshal`:
the entries of a map are written in the order of their keys. -/
def jsonMarshalAny (fl : Float64Text) : GoVal → List Nat
  | .null => runes "null"
  | .bool b => if b then runes "true" else runes "false"
  | .float64 raw => fl.format raw
  | .string s => jsonQuote s
  | .slice items => 91 :: joinComma (marshalItems fl items) ++ [93]
  | .map es =>
    123 :: joinComma
      (((marshalEntries fl es).insertionSort
          (fun a b => keyLE (runes a.1) (runes b.1) = true)).map
        (fun e => jsonQuote e.1 ++ 58 :: e.2)) ++ [125]
/-- The texts of the elements of a slice. -/
def marshalItems (fl : Float64Text) : List GoVal → List (List Nat)
  | [] => []
  | v :: vs => jsonMarshalAny fl v :: marshalItems fl vs
/-- The keys of a map with the texts of their values. -/
def marshalEntries (fl : Float64Text) : List (String × GoVal) → List (String × List Nat)
  | [] => []
  | (k, v) :: es => (k, jsonMarshalAny fl v) :: marshalEntries fl es
end

/-- The set `redactKeys` of the HTTP server, which is the set `redactedKeys` of
the gRPC server. -/
def redactKeys : List String :=
  ["password", "password_hash", "refresh", "refresh_token", "access", "access_token", "token",
   "jwt", "authorization"]

/-- The test `redactKeys[strings.ToLower(k)]` of `redactWalk`. -/
def isRedactKey (tbl : Nat → Nat) (k : String) : Bool := redactKeys.contains (ToLower tbl k)

mutual
/-- Function `redactWalk` (the same in both servers): in a map, the value of a key
whose lower-case form is in `redactKeys` becomes the sentinel, any other value
is walked; the elements of a slice are walked; other values are left alone. -/
def redactWalk (tbl : Nat → Nat) : GoVal → GoVal
  | .map es => .map (redactEntries tbl es)
  | .slice items => .slice (redactItems tbl items)
  | .null => .null
  | .bool b => .bool b
  | .float64 raw => .float64 raw
  | .string s => .string s
/-- The loop of `redactWalk` over the entries of a map. -/
def redactEntries (tbl : Nat → Nat) : List (String × GoVal) → List (String × GoVal)
  | [] => []
  | (k, v) :: es =>
    (k, if isRedactKey tbl k then GoVal.string "***REDACTED***" else redactWalk tbl v) ::
      redactEntries tbl es
/-- The loop of `redactWalk` over the elements of a slice. -/
def redactItems (tbl : Nat → Nat) : List GoVal → List GoVal
  | [] => []
  | v :: vs => redactWalk tbl v :: redactItems tbl vs
end

/-- Function `redactJSONBytes` of the gRPC server: a text that `json.Unmarshal` refuses
is returned as it is; otherwise the value is walked and marshalled again. -/
def redactJSONBytes (fl : Float64Text) (tbl : Nat → Nat) (b : List Nat) : List Nat :=
  match jsonUnmarshalAny fl b with
  | none => b
  | some v => utf8Encode (jsonMarshalAny fl (redactWalk tbl v))

/-- Function `redactJSON` of the HTTP server: the empty text for an empty body, and
otherwise as `redactJSONBytes`. -/
def redactJSON (fl : Float64Text) (tbl : Nat → Nat) (b : List Nat) : List Nat :=
  if b.length = 0 then []
  else
    match jsonUnmarshalAny fl b with
    | none => b
    | some v => utf8Encode (jsonMarshalAny fl (redactWalk tbl v))

/-- Function `clip` (the same in both servers): a text longer than `n` bytes is cut
to `n` bytes and marked. -/
def clip (s : List Nat) (n : Int) : List Nat :=
  if n ≤ 0 ∨ (s.length : Int) ≤ n then s
  else s.take n.toNat ++ utf8Encode (runes "...(truncated)")

/-- A request or response handed to `marshalRedacted`: whether it is a proto
message, what `protojson` makes of it, and what `json.Marshal` makes of it. -/
structure LoggedMessage where
  isProto : Bool
  protoJSON : Except GoError (List Nat)
  stdJSON : Except GoError (List Nat)

/-- Function `marshalRedacted` of the gRPC server: the empty text for nil, the redacted
`protojson` text of a proto message, failing that the redacted text of
`json.Marshal`, failing that a fixed text. -/
def marshalRedacted (fl : Float64Text) (tbl : Nat → Nat) (v : Option LoggedMessage) :
    List Nat :=
  match v with
  | none => []
  | some m =>
    match (if m.isProto then m.protoJSON else .error (.lib "not a proto message")) with
    | .ok b => redactJSONBytes fl tbl b
    | .error _ =>
      match m.stdJSON with
      | .ok b => redactJSONBytes fl tbl b
      | .error _ => utf8Encode (runes "<unmarshallable>")

/-- An HTTP request as the loggers read it: the `Content-Type` header and the
body, absent when `r.Body` is nil. -/
structure HttpRequest where
  Method : String
  Path : String
  ContentType : String
  Body : Option (List Nat)
  deriving DecidableEq, Repr

/-- Function `safeReadBodyOnce` of the HTTP server: the body of a request whose content
type contains `application/json`, read up to 1 MiB; the empty text when there
is no body, another content type, or more than 1 MiB. -/
def safeReadBodyOnce (tbl : Nat → Nat) (r : HttpRequest) : List Nat :=
  match r.Body with
  | none => []
  | some b =>
    if !Contains (runes (ToLower tbl r.ContentType)) (runes "application/json") then []
    else if b.length > 1048576 then []
    else b

/-- The field `req` that `requestLogger` of the HTTP server writes for a request. -/
def requestLoggerReq (fl : Float64Text) (tbl : Nat → Nat) (r : HttpRequest) : List Nat :=
  clip (redactJSON fl tbl (safeReadBodyOnce tbl r)) 2048

/-- The fields `req` and `resp` that `loggingUnaryInterceptor` of the gRPC server
writes for a call. -/
def loggingUnaryInterceptorField (fl : Float64Text) (tbl : Nat → Nat)
    (v : Option LoggedMessage) : List Nat :=
  clip (marshalRedacted fl tbl v) 2048

mutual
/-- A value is redacted: in every map in it, at any depth, a key whose
lower-case form is in `redactKeys` holds the sentinel. -/
def Redacted (tbl : Nat → Nat) : GoVal → Prop
  | .map es => RedactedEntries tbl es
  | .slice items => RedactedItems tbl items
  | .null => True
  | .bool _ => True
  | .float64 _ => True
  | .string _ => True
/-- The entries of a map are redacted. -/
def RedactedEntries (tbl : Nat → Nat) : List (String × GoVal) → Prop
  | [] => True
  | (k, v) :: es =>
    (if isRedactKey tbl k then v = GoVal.string "***REDACTED***" else Redacted tbl v) ∧
      RedactedEntries tbl es
/-- The elements of a slice are redacted. -/
def RedactedItems (tbl : Nat → Nat) : List GoVal → Prop
  | [] => True
  | v :: vs => Redacted tbl v ∧ RedactedItems tbl vs
end

mutual
/-- Two values differ at most in what they hold under keys whose lower-case
form is in `redactKeys`, at any depth. -/
def SecretsApart (tbl : Nat → Nat) : GoVal → GoVal → Prop
  | .map es, .map es' => SecretsApartEntries tbl es es'
  | .slice items, .slice items' => SecretsApartItems tbl items items'
  | .null, .null => True
  | .bool b, .bool b' => b = b'
  | .float64 raw, .float64 raw' => raw = raw'
  | .string s, .string s' => s = s'
  | _, _ => False
/-- The entries of two maps differ at most in secrets. -/
def SecretsApartEntries (tbl : Nat → Nat) :
    List (String × GoVal) → List (String × GoVal) → Prop
  | [], [] => True
  | (k, v) :: es, (k', v') :: es' =>
    k = k' ∧ (if isRedactKey tbl k then True else SecretsApart tbl v v') ∧
      SecretsApartEntries tbl es es'
  | _, _ => False
/-- The elements of two slices differ at most in secrets. -/
def SecretsApartItems (tbl : Nat → Nat) : List GoVal → List GoVal → Prop
  | [], [] => True
  | v :: vs, v' :: vs' => SecretsApart tbl v v' ∧ SecretsApartItems tbl vs vs'
  | _, _ => False
end

/-! ### Sample data -/

/-- A stand-in for the number formats in examples: every number text is accepted
and written back as it is. -/
def sampleFloats : Float64Text := { parses := fun _ => true, format := id }

/-- The body of a login. -/
def loginBody : List Nat := runes "\x7b\"email\":\"a@x.com\",\"password\":\"hunter2\"\x7d"

/-- The body of a login that lacks its closing brace. -/
def brokenLoginBody : List Nat := runes "\x7b\"email\":\"a@x.com\",\"password\":\"hunter2\""

/-- The body of the login with another password. -/
def otherLoginBody : List Nat := runes "\x7b\"email\":\"a@x.com\",\"password\":\"s3cret!\"\x7d"

/-- The text logged for both logins. -/
def redactedLoginBody : List Nat :=
  runes "\x7b\"email\":\"a@x.com\",\"password\":\"***REDACTED***\"\x7d"

/-- A login request over HTTP with the given body. -/
def loginRequest (body : List Nat) : HttpRequest :=
  { Method := "POST", Path := "/auth/login", ContentType := "application/json", Body := some body }
/-! ## The logging middleware of the gateway (`api-gateway/pkg/httputil/logging.go`) -/

/-- A call a handler makes on its response writer: `WriteHeader(code)`, or
`Write(b)`, for which the writer below reports `n` bytes written. -/
inductive ResponseCall where
  | WriteHeader (code : Int)
  | Write (b : List Nat) (n : Int)
  deriving DecidableEq, Repr

/-- The response writer of the middleware, which remembers status, byte count
and body. -/
structure logResponseWriter where
  status : Int
  bytes : Int
  body : List Nat
  deriving DecidableEq, Repr

/-- Method `logResponseWriter.WriteHeader`. -/
def logResponseWriter.WriteHeader (w : logResponseWriter) (code : Int) : logResponseWriter :=
  { w with status := code }

/-- Method `logResponseWriter.Write`: a first write without a status sets 200; the
bytes go to the remembered body. -/
def logResponseWriter.Write (w : logResponseWriter) (b : List Nat) (n : Int) :
    logResponseWriter :=
  let w := if w.status = 0 then { w with status := 200 } else w
  { w with body := w.body ++ b, bytes := w.bytes + n }

/-- The response writer after one call of the handler. -/
def logResponseWriter.after (w : logResponseWriter) : ResponseCall → logResponseWriter
  | .WriteHeader code => w.WriteHeader code
  | .Write b n => w.Write b n

/-- A value of a field of a log record. -/
inductive LogValue where
  | text (s : List Nat)
  | int (i : Int)
  deriving DecidableEq, Repr

/-- Function `MiddlewareLogging`: the fields of the record it writes for a request. The
body is read when the content type contains `json` and there is a body, and is
handed on to the handler `next`; `reqID` is the request id of the context and
`dur` the text of the measured duration. -/
def MiddlewareLogging (tbl : Nat → Nat) (next : HttpRequest → List ResponseCall)
    (reqID dur : String) (r : HttpRequest) : List (String × LogValue) :=
  let reqBody : List Nat :=
    if Contains (runes (ToLower tbl r.ContentType)) (runes "json") && r.Body.isSome then
      r.Body.getD []
    else []
  let lrw := (next r).foldl logResponseWriter.after { status := 0, bytes := 0, body := [] }
  [("req_id", .text (utf8Encode (runes reqID))),
   ("method", .text (utf8Encode (runes r.Method))),
   ("path", .text (utf8Encode (runes r.Path))),
   ("status", .int lrw.status),
   ("bytes", .int lrw.bytes),
   ("duration", .text (utf8Encode (runes dur))),
   ("req_body", .text reqBody),
   ("resp_body", .text lrw.body)]
/-! ## The fan-out hub and the live sessions (`room-service/internal/transport/ws`) -/

/-- Entry of the roster in a `state` message (`ws.ParticipantStateItem`). -/
structure ParticipantStateItem where
  UserID : String
  JoinedAt : Int
  LastSeen : Int
  deriving DecidableEq, Repr

/-- Payload of `peer_joined` and `peer_left` (`ws.PeerEventPayload`). -/
structure PeerEventPayload where
  RoomID : String
  UserID : String
  deriving DecidableEq, Repr

/-- Payload of `chat` (`ws.ChatPayload`). -/
structure ChatPayload where
  RoomID : String
  UserID : String
  Message : String
  MsgID : String
  TSUnix : Int
  deriving DecidableEq, Repr

/-- Payload of `chat_ack` (`ws.ChatAckPayload`). -/
structure ChatAckPayload where
  MsgID : String
  deriving DecidableEq, Repr

/-- The payloads the server puts into a message. -/
inductive Payload where
  | state (RoomID : String) (Participants : List ParticipantStateItem)
  | peerEvent (p : PeerEventPayload)
  | chat (p : ChatPayload)
  | chatAck (p : ChatAckPayload)
  deriving DecidableEq, Repr

/-- Envelope of the live channel (`ws.Message`); `Typ` is its field `Type`. -/
structure Message where
  Typ : String
  Payload : Payload
  deriving DecidableEq, Repr

/-- Constant `TypeState`. -/
def TypeState : String := "state"
/-- Constant `TypePeerJoined`. -/
def TypePeerJoined : String := "peer_joined"
/-- Constant `TypePeerLeft`. -/
def TypePeerLeft : String := "peer_left"
/-- Constant `TypeChat`. -/
def TypeChat : String := "chat"
/-- Constant `TypeChatAck`. -/
def TypeChatAck : String := "chat_ack"

/-- A live session (`*wsConn` behind the interface `Conn`): its address, which
is its identity as a key of the hub, its room and its user. -/
structure Conn where
  addr : Nat
  roomID : String
  userID : Int
  deriving DecidableEq, Repr

/-- Method `wsConn.RoomID`. -/
def Conn.RoomID (c : Conn) : String := c.roomID

/-- Method `wsConn.UserID`. -/
def Conn.UserID (c : Conn) : String := formatInt c.userID

/-- The hub (`ws.Hub`): the map from room id to the set of sessions of the room.
The map is the list of its entries, every key once; a set is the list of its
elements, every element once. The order in which Go ranges over a map is not
fixed; nothing below depends on the order of these lists. -/
structure Hub where
  rooms : List (String × List Conn)
  deriving DecidableEq, Repr

/-- Function `NewHub`. -/
def NewHub : Hub := { rooms := [] }

/-- The lookup `h.rooms[roomID]`. -/
def Hub.lookup (h : Hub) (roomID : String) : Option (List Conn) :=
  match h.rooms.find? (fun e => e.1 == roomID) with
  | some e => some e.2
  | none => none

/-- The assignment `rooms[roomID] = rs`. -/
def roomsSet (rooms : List (String × List Conn)) (roomID : String) (rs : List Conn) :
    List (String × List Conn) :=
  match rooms with
  | [] => [(roomID, rs)]
  | (k, v) :: rest => if k = roomID then (k, rs) :: rest else (k, v) :: roomsSet rest roomID rs

/-- The statement `delete(rooms, roomID)`. -/
def roomsDelete (rooms : List (String × List Conn)) (roomID : String) :
    List (String × List Conn) :=
  rooms.filter (fun e => !(e.1 == roomID))

/-- The assignment `rs[c] = struct{}{}` on a set. -/
def setInsert (rs : List Conn) (c : Conn) : List Conn := if c ∈ rs then rs else rs ++ [c]

/-- Method `Hub.Add`: put the session into the set of its room, which is made if the
room has none. -/
def Hub.Add (h : Hub) (c : Conn) : Hub :=
  match h.lookup c.RoomID with
  | none => { rooms := roomsSet h.rooms c.RoomID (setInsert [] c) }
  | some rs => { rooms := roomsSet h.rooms c.RoomID (setInsert rs c) }

/-- Method `Hub.Remove`: take the session out of the set of its room and drop the set
when it is empty. -/
def Hub.Remove (h : Hub) (c : Conn) : Hub :=
  match h.lookup c.RoomID with
  | some rs =>
    if (rs.erase c).length = 0 then { rooms := roomsDelete h.rooms c.RoomID }
    else { rooms := roomsSet h.rooms c.RoomID (rs.erase c) }
  | none => h

/-- Method `Hub.Broadcast`: call `Send(msg)` on every session in the set of the room;
the outcome of a send is dropped. The result is the hub afterwards and the
sends made, in order. -/
def Hub.Broadcast (h : Hub) (roomID : String) (msg : Message) : Hub × List (Conn × Message) :=
  match h.lookup roomID with
  | some rs => (h, rs.map (fun c => (c, msg)))
  | none => (h, [])

/-- The sessions registered in a room. -/
def Hub.sessions (h : Hub) (roomID : String) : List Conn := (h.lookup roomID).getD []

/-- A change of the membership of the hub. -/
inductive HubOp where
  | add (c : Conn)
  | remove (c : Conn)
  deriving DecidableEq, Repr

/-- The hub after one change. -/
def Hub.step (h : Hub) : HubOp → Hub
  | .add c => h.Add c
  | .remove c => h.Remove c

/-- The hub that a sequence of changes makes of a new hub. -/
def runHub (ops : List HubOp) : Hub := ops.foldl Hub.step NewHub

/-- What keeps the hub's bookkeeping sound: every set holds each session once,
and only sessions of its own room. -/
def Hub.WellFormed (h : Hub) : Prop :=
  ∀ e ∈ h.rooms, e.2.Nodup ∧ ∀ c ∈ e.2, c.roomID = e.1

/-! ### The session handler (`server.go`) -/

/-- Method `Time.IsZero`: the instant is that of the zero time. -/
def Time.IsZero (t : Time) : Bool := decide (t.unixNano = Time.zero.unixNano)

/-- Method `Time.Unix` on the calendar reading of a time. -/
def Time.Unix (t : Time) : Int := unixSeconds t.unixNano

/-- A call that `HandleWS` or `readLoop` makes on one of its collaborators (the
response writer, the hub, the session, the member service, the chat service). -/
inductive WsCall where
  | httpError (text : String) (code : Int)
  | hubAdd (c : Conn)
  | hubRemove (c : Conn)
  | hubBroadcast (roomID : String) (msg : Message)
  | connSend (c : Conn) (msg : Message)
  | connClose (c : Conn)
  | listParticipants (roomID : String)
  | touchHeartbeat (roomID : String) (userID : Int)
  | leaveRoom (roomID : String) (userID : Int)
  | chatSave (roomID : String) (userID : Int) (text : String)
  | goWriteLoop (c : Conn)
  deriving DecidableEq, Repr

/-- What the outside gives while one chat message is handled: the outcome of
`chatSvc.Save` and the reading of the clock. -/
structure ChatEnv where
  save : Except GoError (String × Time)
  now : Time
  deriving DecidableEq, Repr

/-- What `ReadMessage` delivers before it fails, as `readLoop` sees it after
`json.Unmarshal` and `decode`: a pong (which runs the pong handler), a frame
that is no JSON message, a message of another type, a chat message whose
payload does not decode, and a chat message with its decoded payload. -/
inductive Frame where
  | pong
  | malformed
  | other (type : String)
  | chatUndecoded
  | chat (p : ChatPayload) (env : ChatEnv)
  deriving DecidableEq, Repr

/-- The parts of a `ws.Server` the handler looks at: whether there is a chat
service. -/
structure Server where
  hasChatSvc : Bool
  deriving DecidableEq, Repr

/-- The body of the loop in `readLoop` for one frame: the calls it makes. A chat
message with a text that is blank after trimming is dropped. Otherwise the
text is saved if there is a chat service; the broadcast carries the id and the
time of the saved message, or no id and the clock's time when the save failed
or there is no chat service; an id that is not empty is acknowledged to the
sender. -/
def Server.onFrame (s : Server) (c : Conn) : Frame → List WsCall
  | .pong => [.touchHeartbeat c.roomID c.userID]
  | .malformed => []
  | .other _ => []
  | .chatUndecoded => []
  | .chat p env =>
    let idStr := formatInt c.userID
    let text := TrimSpace p.Message
    if text = "" then []
    else
      let saved : List WsCall × String × Time :=
        if s.hasChatSvc then
          match env.save with
          | .ok (id, createdAt) => ([.chatSave c.roomID c.userID text], id, createdAt)
          | .error _ => ([.chatSave c.roomID c.userID text], "", env.now)
        else ([], "", env.now)
      let msgID := saved.2.1
      let ts := saved.2.2
      let out : ChatPayload :=
        { RoomID := c.roomID, UserID := idStr, Message := text,
          MsgID := if msgID ≠ "" then msgID else "",
          TSUnix := if !ts.IsZero then ts.Unix else 0 }
      saved.1 ++ [.hubBroadcast c.roomID { Typ := TypeChat, Payload := .chat out }] ++
        (if msgID ≠ "" then
          [.connSend c { Typ := TypeChatAck, Payload := .chatAck { MsgID := msgID } }]
        else [])

/-- Method `Server.readLoop`: touch the heartbeat, handle the frames until `ReadMessage`
fails, and close the session on the way out (the deferred call). -/
def Server.readLoop (s : Server) (c : Conn) (frames : List Frame) : List WsCall :=
  [.touchHeartbeat c.roomID c.userID] ++ (frames.map (s.onFrame c)).flatten ++ [.connClose c]

/-- Method `Server.sendState`: list the participants and send the roster to the
session. -/
def Server.sendState (c : Conn) (parts : Except GoError (List Participant)) : List WsCall :=
  match parts with
  | .error _ => [.listParticipants c.roomID]
  | .ok ps =>
    [.listParticipants c.roomID,
     .connSend c
       { Typ := TypeState,
         Payload := .state c.roomID
           (ps.map (fun p =>
             { UserID := formatInt p.UserID, JoinedAt := p.JoinedAt.Unix,
               LastSeen := p.LastSeen.Unix })) }]

/-- An upgrade request and what the outside gives while it is handled: the query
parameters, the room id of the path, the outcome of the upgrade (the address
of the new session), the outcome of `ListParticipants`, and the frames read
until `ReadMessage` fails. -/
structure UpgradeRequest where
  accessToken : String
  userID : String
  roomID : String
  upgrade : Except GoError Nat
  participants : Except GoError (List Participant)
  frames : List Frame
  deriving DecidableEq, Repr

/-- Method `Server.HandleWS`: the calls it makes, in order. Refuse a request without
access token, user id or room id; upgrade; add the session to the hub, send
the roster, broadcast `peer_joined`, start the write loop, run the read loop;
then remove the session from the hub, leave the room, broadcast `peer_left`
and close the session. -/
def Server.HandleWS (s : Server) (r : UpgradeRequest) : List WsCall :=
  let accessToken := TrimSpace r.accessToken
  let userIDStr := TrimSpace r.userID
  if accessToken = "" then [.httpError "missing access_token" 401]
  else
    match ParseInt (runes userIDStr) 10 with
    | none => [.httpError "invalid user_id" 401]
    | some uid =>
      if uid ≤ 0 then [.httpError "invalid user_id" 401]
      else if r.roomID = "" then [.httpError "missing room id" 400]
      else
        match r.upgrade with
        | .error _ => [.httpError "upgrade failed" 400]
        | .ok addr =>
          let c : Conn := { addr := addr, roomID := r.roomID, userID := uid }
          [.hubAdd c] ++ Server.sendState c r.participants ++
            [.hubBroadcast r.roomID
               { Typ := TypePeerJoined,
                 Payload := .peerEvent { RoomID := r.roomID, UserID := userIDStr } },
             .goWriteLoop c] ++
            s.readLoop c r.frames ++
            [.hubRemove c, .leaveRoom r.roomID uid,
             .hubBroadcast r.roomID
               { Typ := TypePeerLeft,
                 Payload := .peerEvent { RoomID := r.roomID, UserID := userIDStr } },
             .connClose c]

/-- The position of the first call in a trace that satisfies a test. -/
def firstIndex (p : WsCall → Bool) : List WsCall → Option Nat
  | [] => none
  | x :: xs => if p x then some 0 else (firstIndex p xs).map (· + 1)

/-! ### Sample data -/

/-- Two sessions of room `r1` and one of room `r2`. -/
def connA : Conn := { addr := 1, roomID := "r1", userID := 1 }
/-- The second session of room `r1`. -/
def connB : Conn := { addr := 2, roomID := "r1", userID := 2 }
/-- The session of room `r2`. -/
def connC : Conn := { addr := 3, roomID := "r2", userID := 3 }

/-- A chat message of user 1 in room `r1`. -/
def helloMessage : Message :=
  { Typ := TypeChat,
    Payload := .chat { RoomID := "r1", UserID := "1", Message := "hello", MsgID := "m1",
                       TSUnix := 1700000000 } }

/-- An upgrade request of user 1 for room `r1` that succeeds; the session reads
no frame before `ReadMessage` fails. -/
def sampleUpgrade : UpgradeRequest :=
  { accessToken := "tok", userID := "1", roomID := "r1", upgrade := .ok 1,
    participants := .ok [], frames := [] }

/-- A server with a chat service. -/
def sampleServer : Server := { hasChatSvc := true }

/-- The payload of a chat message as it arrives: the text with blanks around it. -/
def incomingChat : ChatPayload :=
  { RoomID := "", UserID := "", Message := "  hello ", MsgID := "", TSUnix := 0 }
/-! ### From the bytes of a frame to the loop body (`readLoop`, `decode`)

What `readLoop` does with the data `ReadMessage` returns: `json.Unmarshal` into
a `Message`, the switch on its type, and `decode` of the payload, which is
`json.Marshal` followed by `json.Unmarshal` into a `ChatPayload`. -/

/-- Case folding of `encoding/json` for a rune of an ASCII field name: ASCII
letters fold by case, and the long s (U+017F) and the Kelvin sign (U+212A)
fold with `s` and `k`. -/
def foldRune (c : Nat) : Nat :=
  if c = 0x17F then 115 else if c = 0x212A then 107 else asciiLower c

/-- A `ws.Message` as `json.Unmarshal` fills it: the type and the payload, an
`any` (nil is `GoVal.null`). -/
structure RawMessage where
  Typ : String
  Payload : GoVal

/-- Store the members of an object into a `Message`, in order: `type` takes a
string (`null` leaves the field alone, another kind is a type error),
`payload` takes any value (a number `strconv.ParseFloat` refuses is an error);
a key names a field by its JSON name or, failing that, under case folding;
other keys are skipped. `none` stands for a returned error. -/
def storeMessageMembers (fl : Float64Text) :
    List (List Nat × JVal) → RawMessage → Option RawMessage
  | [], m => some m
  | (key, v) :: ms, m =>
    if key.map foldRune = runes "type" then
      match v with
      | .null => storeMessageMembers fl ms m
      | .str _ val => storeMessageMembers fl ms { m with Typ := ofRunes val }
      | _ => none
    else if key.map foldRune = runes "payload" then
      match decodeAny fl v with
      | some g => storeMessageMembers fl ms { m with Payload := g }
      | none => none
    else storeMessageMembers fl ms m

/-- The call `json.Unmarshal(data, &msg)` for a zero `Message`: `null` leaves the
message zero, an object is stored member by member, any other value is a type
error; `none` stands for a returned error. -/
def jsonUnmarshalMessage (fl : Float64Text) (data : List Nat) : Option RawMessage :=
  match parseJSON (utf8DecodeLossy data) with
  | none => none
  | some .null => some { Typ := "", Payload := .null }
  | some (.obj ms) => storeMessageMembers fl ms { Typ := "", Payload := .null }
  | some _ => none

/-- The field of `ChatPayload` a key names, by the JSON name or, failing that,
under case folding: 0 for `room_id`, 1 for `user_id`, 2 for `message`, 3 for
`msg_id`, 4 for `ts_unix`. -/
def chatField (key : List Nat) : Option Nat :=
  if key.map foldRune = runes "room_id" then some 0
  else if key.map foldRune = runes "user_id" then some 1
  else if key.map foldRune = runes "message" then some 2
  else if key.map foldRune = runes "msg_id" then some 3
  else if key.map foldRune = runes "ts_unix" then some 4
  else none

/-- Store a string into the field of that number. -/
def ChatPayload.setString (p : ChatPayload) (field : Nat) (s : String) : ChatPayload :=
  if field = 0 then { p with RoomID := s }
  else if field = 1 then { p with UserID := s }
  else if field = 2 then { p with Message := s }
  else { p with MsgID := s }

/-- Store the members of an object into a `ChatPayload`, in order. A string field
takes a string, `ts_unix` takes a number that `strconv.ParseInt` reads as an
`int64`; `null` leaves a field alone; a value of another kind is a type
error; other keys are skipped. `none` stands for a returned error. -/
def storeChatMembers : List (List Nat × JVal) → ChatPayload → Option ChatPayload
  | [], p => some p
  | (key, v) :: ms, p =>
    match chatField key with
    | none => storeChatMembers ms p
    | some field =>
      if field = 4 then
        match v with
        | .null => storeChatMembers ms p
        | .num raw =>
          match ParseInt raw 10 with
          | some n => storeChatMembers ms { p with TSUnix := n }
          | none => none
        | _ => none
      else
        match v with
        | .null => storeChatMembers ms p
        | .str _ val => storeChatMembers ms (p.setString field (ofRunes val))
        | _ => none

/-- The zero `ChatPayload`. -/
def ChatPayload.zero : ChatPayload :=
  { RoomID := "", UserID := "", Message := "", MsgID := "", TSUnix := 0 }

/-- The call `json.Unmarshal(b, &p)` for a zero `ChatPayload`: `null` leaves the
payload zero, an object is stored member by member, any other value is a type
error; `none` stands for a returned error. -/
def jsonUnmarshalChatPayload (b : List Nat) : Option ChatPayload :=
  match parseJSON (utf8DecodeLossy b) with
  | none => none
  | some .null => some ChatPayload.zero
  | some (.obj ms) => storeChatMembers ms ChatPayload.zero
  | some _ => none

/-- Function `decode` for a payload that came out of `json.Unmarshal` and a zero
`ChatPayload`: marshal the payload (which cannot fail for such a value) and
unmarshal the text into the struct; `none` stands for a returned error. -/
def decode (fl : Float64Text) (payload : GoVal) : Option ChatPayload :=
  jsonUnmarshalChatPayload (utf8Encode (jsonMarshalAny fl payload))

/-- What `readLoop` makes of the data of a frame before it acts: a frame that
`json.Unmarshal` refuses is skipped, a message of another type is ignored, a
chat message is decoded. -/
def readFrame (fl : Float64Text) (data : List Nat) (env : ChatEnv) : Frame :=
  match jsonUnmarshalMessage fl data with
  | none => .malformed
  | some msg =>
    if msg.Typ = TypeChat then
      match decode fl msg.Payload with
      | some p => .chat p env
      | none => .chatUndecoded
    else .other msg.Typ

/-- The body of the loop in `readLoop` for the data of one frame: the calls it
makes. -/
def Server.onData (s : Server) (c : Conn) (fl : Float64Text) (data : List Nat) (env : ChatEnv) :
    List WsCall :=
  s.onFrame c (readFrame fl data env)

/-! ### Sample frames -/

/-- A chat frame of a client that names room `r2` and user 2. -/
def stringRoomFrame : List Nat :=
  utf8Encode (runes
    "\x7b\"type\":\"chat\",\"payload\":\x7b\"room_id\":\"r2\",\"user_id\":\"2\",\"message\":\"hi\"\x7d\x7d")

/-- The same frame with the room id `r1`. -/
def otherRoomFrame : List Nat :=
  utf8Encode (runes
    "\x7b\"type\":\"chat\",\"payload\":\x7b\"room_id\":\"r1\",\"user_id\":\"2\",\"message\":\"hi\"\x7d\x7d")

/-- The same frame with a room id that is the number 7. -/
def numberRoomFrame : List Nat :=
  utf8Encode (runes
    "\x7b\"type\":\"chat\",\"payload\":\x7b\"room_id\":7,\"user_id\":\"2\",\"message\":\"hi\"\x7d\x7d")

/-- An outside in which the save gives the id `m1` and the time of 1 January 2024. -/
def savedEnv : ChatEnv := { save := .ok ("m1", sampleTime), now := sampleTime }
/-! ## Rooms engine: leaving, roster, chat persistence, room creation

The methods of this section are asked about their handling of a failed
statement, so a failure of the statement (`fault`) is an input of each. -/

/-- The statement of `ParticipantRepository.Leave`,
`DELETE FROM room_participants WHERE room_id=$1 AND user_id=$2`: the database
afterwards and the number of rows deleted. -/
def deleteParticipant (db : DB) (roomID : String) (userID : Int) : DB × Nat :=
  ({ db with
      participants :=
        db.participants.filter (fun p => !(p.RoomID == roomID && p.UserID == userID)) },
   (db.participants.filter (fun p => p.RoomID == roomID && p.UserID == userID)).length)

/-- The call `r.db.Exec` of `ParticipantRepository.Leave`: the database afterwards,
`RowsAffected` of the command tag, and the error. When the statement fails
nothing is deleted and the command tag is the zero tag, which counts no row. -/
def execDeleteParticipant (fault : Option GoError) (db : DB) (roomID : String) (userID : Int) :
    DB × Nat × Option GoError :=
  match fault with
  | some e => (db, 0, some e)
  | none => ((deleteParticipant db roomID userID).1, (deleteParticipant db roomID userID).2, none)

/-- Function `ParticipantRepository.Leave`: run the statement, return `ErrNotInRoom`
when the command tag counts no row, and only after that look at the error of
`Exec`. -/
def ParticipantRepository.Leave (fault : Option GoError) (db : DB) (roomID : String)
    (userID : Int) : DB × Except GoError Unit :=
  let r := execDeleteParticipant fault db roomID userID
  if r.2.1 = 0 then (r.1, .error ErrNotInRoom)
  else
    match r.2.2 with
    | some err => (r.1, .error err)
    | none => (r.1, .ok ())

/-- Function `MemberService.LeaveRoom` hands the call to the repository. -/
def MemberService.LeaveRoom (fault : Option GoError) (db : DB) (roomID : String) (userID : Int) :
    DB × Except GoError Unit :=
  ParticipantRepository.Leave fault db roomID userID

/-- The order `ORDER BY joined_at ASC` on participants. -/
def joinedAsc (a b : Participant) : Prop := a.JoinedAt.unixNano ≤ b.JoinedAt.unixNano

instance : DecidableRel joinedAsc := fun a b => by unfold joinedAsc; infer_instance

/-- Function `ParticipantRepository.ListByRoom`: the participants of the room by the
time they joined; rows of the same time stay in insertion order. -/
def ParticipantRepository.ListByRoom (fault : Option GoError) (db : DB) (roomID : String) :
    Except GoError (List Participant) :=
  match fault with
  | some e => .error e
  | none => .ok ((db.roster roomID).insertionSort joinedAsc)

/-- Function `MemberService.ListParticipants` hands the call to the repository. -/
def MemberService.ListParticipants (fault : Option GoError) (db : DB) (roomID : String) :
    Except GoError (List Participant) :=
  ParticipantRepository.ListByRoom fault db roomID

/-- What the database assigns to a row it inserts: the id and the creation time. -/
structure Assigned where
  id : String
  createdAt : Time
  deriving DecidableEq, Repr

/-- Function `ChatRepository.Save`: insert the message and scan the row that the
statement returns. The declaration of `room_messages`, and with it the
constraints a row may break, is not among the sources: a refusal of the
database is a `fault`, and nothing is inserted then. -/
def ChatRepository.Save (fault : Option GoError) (db : DB) (roomID : String) (userID : Int)
    (text : String) (replyTo : Option String) (row : Assigned) :
    DB × Except GoError ChatMessage :=
  match fault with
  | some e => (db, .error e)
  | none =>
    let m : ChatMessage :=
      { ID := row.id, RoomID := roomID, UserID := userID, Text := text, ReplyTo := replyTo,
        CreatedAt := row.createdAt }
    ({ db with messages := db.messages ++ [m] }, .ok m)

/-- The function `len` on a Go string that holds text: the number of bytes of its
UTF-8 encoding. -/
def byteLen (s : String) : Nat := (utf8Encode (runes s)).length

/-- Function `ChatService.Save`: trim the text, refuse an empty text and a text of more
than 4000 bytes, each with an error made on the spot by `errors.New` (which is
no sentinel), and otherwise save the trimmed text without a reply-to. -/
def ChatService.Save (fault : Option GoError) (db : DB) (roomID : String) (userID : Int)
    (text : String) (row : Assigned) : DB × Except GoError (String × Time) :=
  let text := TrimSpace text
  if text = "" then (db, .error (.lib "empty message"))
  else if byteLen text > 4000 then (db, .error (.lib "message too long"))
  else
    match ChatRepository.Save fault db roomID userID text none row with
    | (db1, .error err) => (db1, .error err)
    | (db1, .ok msg) => (db1, .ok (msg.ID, msg.CreatedAt))

/-- Function `RoomRepository.Create`: insert the room and scan the id and the creation
time the database assigned into it. -/
def RoomRepository.Create (fault : Option GoError) (db : DB) (room : Room) (row : Assigned) :
    DB × Except GoError Room :=
  match fault with
  | some e => (db, .error e)
  | none =>
    let room := { room with ID := row.id, CreatedAt := row.createdAt }
    ({ db with rooms := db.rooms ++ [room] }, .ok room)

/-- Function `RoomService.CreateRoom`: a limit of zero or less, or above 10, becomes 10;
the room is inserted with the name as given; an error of the repository is
wrapped. -/
def RoomService.CreateRoom (fault : Option GoError) (db : DB) (name : String) (max : Int)
    (row : Assigned) : DB × Except GoError Room :=
  let max := if max ≤ 0 ∨ max > 10 then 10 else max
  let room : Room := { ID := "", Name := name, MaxParticipants := max, CreatedAt := Time.zero }
  match RoomRepository.Create fault db room row with
  | (db1, .error err) => (db1, .error (.wrap "roomRepo.Create: %w" err))
  | (db1, .ok room) => (db1, .ok room)

/-- Function `RoomService.GetRoom`: the room, `ErrRoomNotFound` itself for an error that
is `ErrRoomNotFound`, any other error as it is. -/
def RoomService.GetRoom (db : DB) (id : String) : Except GoError Room :=
  match RoomRepository.Get db id with
  | .error err => if err.is ErrRoomNotFound then .error ErrRoomNotFound else .error err
  | .ok room => .ok room

/-! ### Sample data -/

/-- The participant row of user 1 in room `r`. -/
def sampleParticipant : Participant :=
  { RoomID := "r", UserID := 1, JoinedAt := sampleTime, LastSeen := sampleTime }

/-- The participant row of user 2 in room `r`. -/
def otherParticipant : Participant :=
  { RoomID := "r", UserID := 2, JoinedAt := sampleTime, LastSeen := sampleTime }

/-- A database in which users 1 and 2 are in room `r`. -/
def rosterDB : DB :=
  { rooms := [sampleRoom], participants := [sampleParticipant, otherParticipant], messages := [] }

/-- The database `rosterDB` after user 1 left. -/
def rosterDBWithout1 : DB :=
  { rooms := [sampleRoom], participants := [otherParticipant], messages := [] }

/-- A failure of a statement that does not come from the data. -/
def connLost : GoError := .lib "conn closed"

/-- The id and time the database gives the next row in the examples. -/
def sampleAssigned : Assigned := { id := "n1", createdAt := sampleTime }

/-- A text of 2001 Cyrillic letters (U+044F), each of two bytes. -/
def wideText : String := ofRunes (List.replicate 2001 1103)
/-! ## Rooms RPC surface (`room-service/internal/transport/grpc/server.go`) -/

/-- The incoming metadata of a call (`metadata.MD`): the values of every key. -/
structure MD where
  entries : List (String × List String)
  deriving DecidableEq, Repr

/-- Method `MD.Get`: the values of a key. The keys the code asks for are written in
lower case, so the lower-casing `Get` applies to its argument changes nothing. -/
def MD.Get (md : MD) (k : String) : List String :=
  match md.entries.find? (fun e => e.1 == k) with
  | some e => e.2
  | none => []

/-- Constant `mdAuthorization`. -/
def mdAuthorization : String := "authorization"
/-- Constant `mdUserID`. -/
def mdUserID : String := "x-user-id"

/-- Function `first`: the first of the values, the empty string when there is none. -/
def first (ss : List String) : String :=
  match ss with
  | [] => ""
  | s :: _ => s

/-- The function `strings.HasPrefix`. -/
def HasPrefix (s p : String) : Bool := (runes p).isPrefixOf (runes s)

/-- The slice `s[n:]` of a Go string, which cuts bytes, read as text again. -/
def sliceFrom (s : String) (n : Nat) : String :=
  ofRunes (utf8DecodeLossy ((utf8Encode (runes s)).drop n))

/-- Function `userFromMD`: the token and the user id of the metadata, or the status
code of the refusal. The metadata must be there; `authorization` must not be
empty, must begin with `bearer ` in any case of the letters and must be
longer than 7 bytes; `x-user-id` must not be empty. -/
def userFromMD (tbl : Nat → Nat) (ctx : Option MD) : Except Code (String × String) :=
  match ctx with
  | none => .error .Unauthenticated
  | some md =>
    let auth := first (md.Get mdAuthorization)
    if auth = "" then .error .Unauthenticated
    else if !(HasPrefix (ToLower tbl auth) "bearer ") || decide (byteLen auth ≤ 7) then
      .error .Unauthenticated
    else
      let token := TrimSpace (sliceFrom auth 7)
      let userID := first (md.Get mdUserID)
      if userID = "" then .error .Unauthenticated
      else .ok (token, userID)

/-- Function `mapErr`: nil for nil, and otherwise the status code for the error, by
the first of the tests `errors.Is` that holds. -/
def mapErr : Option GoError → Option Code
  | none => none
  | some err =>
    if err.is ErrRoomNotFound then some .NotFound
    else if err.is ErrRoomFull then some .FailedPrecondition
    else if err.is ErrAlreadyJoined then some .FailedPrecondition
    else if err.is ErrNotInRoom then some .FailedPrecondition
    else some .Internal

/-- What a method of the server returns: the response, if there is one, and the
status code of the error, if there is one. A call without error answers OK. -/
structure Reply (α : Type) where
  resp : Option α
  err : Option Code
  deriving DecidableEq, Repr

/-- The parts of a `grpcx.Server` the methods look at: whether there is a chat
service. -/
structure RoomsServer where
  hasChatSvc : Bool
  deriving DecidableEq, Repr

/-- Method `Server.CreateRoom` of the RPC surface. The response is stood for by the
room it is built from. -/
def RoomsServer.CreateRoom (tbl : Nat → Nat) (fault : Option GoError) (db : DB)
    (ctx : Option MD) (name : String) (max : Int) (row : Assigned) : DB × Reply Room :=
  match userFromMD tbl ctx with
  | .error c => (db, { resp := none, err := some c })
  | .ok _ =>
    match RoomService.CreateRoom fault db name max row with
    | (db1, .error err) => (db1, { resp := none, err := mapErr (some err) })
    | (db1, .ok room) => (db1, { resp := some room, err := none })

/-- Method `Server.ListRooms` of the RPC surface. -/
def RoomsServer.ListRooms (tbl : Nat → Nat) (db : DB) (ctx : Option MD) (limit : Int)
    (cursor : String) : DB × Reply (List Room × String) :=
  match userFromMD tbl ctx with
  | .error c => (db, { resp := none, err := some c })
  | .ok _ =>
    let limit := if limit ≤ 0 then 20 else limit
    let limit := if limit > 50 then 50 else limit
    match RoomService.ListRooms db limit cursor with
    | .error err => (db, { resp := none, err := mapErr (some err) })
    | .ok page => (db, { resp := some page, err := none })

/-- Method `Server.GetRoom` of the RPC surface. -/
def RoomsServer.GetRoom (tbl : Nat → Nat) (db : DB) (ctx : Option MD) (id : String) :
    DB × Reply Room :=
  match userFromMD tbl ctx with
  | .error c => (db, { resp := none, err := some c })
  | .ok _ =>
    match RoomService.GetRoom db id with
    | .error err => (db, { resp := none, err := mapErr (some err) })
    | .ok room => (db, { resp := some room, err := none })

/-- Method `Server.JoinRoom` of the RPC surface: the user id must parse as an `int64`;
an `ErrAlreadyJoined` of the service is no error of the call. The response
holds the room id of the request and the user id of the metadata. -/
def RoomsServer.JoinRoom (tbl : Nat → Nat) (db : DB) (ctx : Option MD) (id : String)
    (clk : JoinClock) : DB × Reply (String × String) :=
  match userFromMD tbl ctx with
  | .error c => (db, { resp := none, err := some c })
  | .ok (_, userID) =>
    match ParseInt (runes userID) 10 with
    | none => (db, { resp := none, err := some .Unauthenticated })
    | some uid =>
      let o := MemberService.JoinRoom db id uid clk
      match o.result with
      | .error err =>
        if !(err.is ErrAlreadyJoined) then (o.db, { resp := none, err := mapErr (some err) })
        else (o.db, { resp := some (id, userID), err := none })
      | .ok _ => (o.db, { resp := some (id, userID), err := none })

/-- Method `Server.LeaveRoom` of the RPC surface: the user id must parse as an `int64`;
an `ErrNotInRoom` of the service is no error of the call. -/
def RoomsServer.LeaveRoom (tbl : Nat → Nat) (fault : Option GoError) (db : DB)
    (ctx : Option MD) (id : String) : DB × Reply Unit :=
  match userFromMD tbl ctx with
  | .error c => (db, { resp := none, err := some c })
  | .ok (_, userID) =>
    match ParseInt (runes userID) 10 with
    | none => (db, { resp := none, err := some .Unauthenticated })
    | some uid =>
      match MemberService.LeaveRoom fault db id uid with
      | (db1, .error err) =>
        if !(err.is ErrNotInRoom) then (db1, { resp := none, err := mapErr (some err) })
        else (db1, { resp := some (), err := none })
      | (db1, .ok ()) => (db1, { resp := some (), err := none })

/-- Method `Server.ListParticipants` of the RPC surface. -/
def RoomsServer.ListParticipants (tbl : Nat → Nat) (fault : Option GoError) (db : DB)
    (ctx : Option MD) (id : String) : DB × Reply (List Participant) :=
  match userFromMD tbl ctx with
  | .error c => (db, { resp := none, err := some c })
  | .ok _ =>
    match MemberService.ListParticipants fault db id with
    | .error err => (db, { resp := none, err := mapErr (some err) })
    | .ok parts => (db, { resp := some parts, err := none })

/-- Method `Server.GetChatHistory` of the RPC surface: `Unimplemented` without a chat
service. -/
def RoomsServer.GetChatHistory (s : RoomsServer) (tbl : Nat → Nat) (db : DB) (ctx : Option MD)
    (id after : String) (limit : Int) : DB × Reply (List ChatMessage × String) :=
  match userFromMD tbl ctx with
  | .error c => (db, { resp := none, err := some c })
  | .ok _ =>
    if !s.hasChatSvc then (db, { resp := none, err := some .Unimplemented })
    else
      let limit := if limit ≤ 0 then 50 else limit
      let limit := if limit > 100 then 100 else limit
      match ChatService.History db id after limit with
      | .error err => (db, { resp := none, err := mapErr (some err) })
      | .ok page => (db, { resp := some page, err := none })

/-! ## Rooms HTTP surface (`room-service/internal/transport/http/handler.go`) -/

/-- The body `writeJSON` is given: an `ErrorResponse` with a fixed text, an
`ErrorResponse` with the text of an error, or the items of a page with the
next-cursor. -/
inductive Body (α : Type) where
  | errorText (text : String)
  | errorOf (err : GoError)
  | page (items : List α) (next : String)
  deriving DecidableEq, Repr

/-- What a handler writes: the status and the body. -/
structure HttpResponse (α : Type) where
  status : Nat
  body : Body α
  deriving DecidableEq, Repr

/-- The limit a handler reads from the query: the parameter `limit` when
`strconv.Atoi` accepts it, the default otherwise. -/
def queryLimit (s : String) (dflt : Int) : Int :=
  if s ≠ "" then
    match ParseInt (runes s) 10 with
    | some n => n
    | none => dflt
  else dflt

/-- Method `Handler.ListRooms`: an error of the service that is `ErrInvalidCursor`
answers 400, any other error 500. The items of the page are stood for by the
rooms they are built from. -/
def Handler.ListRooms (db : DB) (limit cursor : String) : HttpResponse Room :=
  let limit := queryLimit limit 20
  match RoomService.ListRooms db limit cursor with
  | .error err =>
    if err.is ErrInvalidCursor then { status := 400, body := .errorText "invalid_cursor" }
    else { status := 500, body := .errorOf err }
  | .ok (rooms, next) => { status := 200, body := .page rooms next }

/-- Method `Handler.GetChatHistory`: 501 without a chat service; any error of the
service answers 500. The items of the page are stood for by the messages they
are built from. -/
def Handler.GetChatHistory (hasChatSvc : Bool) (db : DB) (roomID after limit : String) :
    HttpResponse ChatMessage :=
  if !hasChatSvc then { status := 501, body := .errorText "chat service disabled" }
  else
    let limit := queryLimit limit 50
    match ChatService.History db roomID after limit with
    | .error err => { status := 500, body := .errorOf err }
    | .ok (items, next) => { status := 200, body := .page items next }

/-! ### Sample data -/

/-- Metadata with a bearer token and the user id 1. -/
def sampleMD : MD :=
  { entries := [("authorization", ["Bearer tok"]), ("x-user-id", ["1"])] }

/-- Metadata with a bearer token and a user id that is no number. -/
def badUserMD : MD :=
  { entries := [("authorization", ["Bearer tok"]), ("x-user-id", ["abc"])] }

/-- Metadata whose bearer credential is a blank, and the user id 1. -/
def blankBearerMD : MD :=
  { entries := [("authorization", ["Bearer  "]), ("x-user-id", ["1"])] }

/-- Metadata without `authorization`. -/
def noAuthMD : MD := { entries := [("x-user-id", ["1"])] }

/-- A server of the RPC surface with a chat service. -/
def sampleRoomsServer : RoomsServer := { hasChatSvc := true }
/-! ## Credential core: the profile of a user (`AuthService.Me`, `AuthHandler.Me`) -/

/-- Function `UserRepo.GetByID`: the row with that id, `ErrNotFound` when there is
none, the storage error when the query fails. -/
def UserRepo.GetByID (fault : Option GoError) (db : CredentialDB) (id : Int) :
    Except GoError User :=
  match fault with
  | some e => .error e
  | none =>
    match db.users.find? (fun x => x.ID == id) with
    | some u => .ok u
    | none => .error ErrNotFound

/-- Function `AuthService.Me`: look the user up by id; an error of the lookup is logged
and nil is returned in its place. The result is the pair the function
returns: the user, who is nil after a failed lookup, and the error. -/
def AuthService.Me (fault : Option GoError) (db : CredentialDB) (userID : Int) :
    Option User × Option GoError :=
  match UserRepo.GetByID fault db userID with
  | .error _ => (none, none)
  | .ok u => (some u, none)

/-- The loop of `userIDFromMD` over the keys: the first key with a value that,
trimmed, parses as a positive `int64`. -/
def userIDFromKeys (md : MD) : List String → Option Int
  | [] => none
  | key :: keys =>
    match md.Get key with
    | [] => userIDFromKeys md keys
    | v :: _ =>
      match ParseInt (runes (TrimSpace v)) 10 with
      | some id => if id > 0 then some id else userIDFromKeys md keys
      | none => userIDFromKeys md keys

/-- Function `userIDFromMD` of the handlers of auth-service. -/
def userIDFromMD (ctx : Option MD) : Option Int :=
  match ctx with
  | none => none
  | some md => userIDFromKeys md ["x-user-id", "x-userid", "x-user_id"]

/-- Function `firstNonEmpty`: the first value of the key, trimmed, or the empty string. -/
def firstNonEmpty (md : MD) (key : String) : String :=
  match md.Get key with
  | [] => ""
  | v :: _ => if TrimSpace v ≠ "" then TrimSpace v else ""

/-- Function `AuthHandler.Me`: take the user id of the metadata, or failing that the
user id of the bearer token, and answer with the profile `AuthService.Me`
returns. `fromToken` is the method `UserIDFromAccessToken` of the service. The
response is stood for by its field `User`, which `toUserPB` leaves nil for
nil. -/
def AuthHandler.Me (tbl : Nat → Nat) (fromToken : String → Except GoError Int)
    (fault : Option GoError) (db : CredentialDB) (ctx : Option MD) :
    Except Code (Option User) :=
  match userIDFromMD ctx with
  | some uid =>
    match AuthService.Me fault db uid with
    | (_, some err) => .error (mapError err)
    | (u, none) => .ok u
  | none =>
    let viaToken : Option (Except Code (Option User)) :=
      match ctx with
      | none => none
      | some md =>
        let authz := firstNonEmpty md "authorization"
        if HasPrefix (ToLower tbl authz) "bearer " then
          let token := TrimSpace (sliceFrom authz 7)
          if token ≠ "" then
            match fromToken token with
            | .ok uid =>
              match AuthService.Me fault db uid with
              | (_, some err) => some (.error (mapError err))
              | (u, none) => some (.ok u)
            | .error _ => some (.error .Unauthenticated)
          else none
        else none
    match viaToken with
    | some r => r
    | none => .error .Unauthenticated

/-! ### Sample data -/

/-- Metadata of a call that the gateway made for user 99. -/
def user99MD : MD := { entries := [("x-user-id", ["99"])] }

/-- Metadata of a call that the gateway made for user 1. -/
def user1MD : MD := { entries := [("x-user-id", ["1"])] }

/-- A service whose `UserIDFromAccessToken` refuses every token. -/
def noToken : String → Except GoError Int := fun _ => .error ErrInvalidToken
/-! ## The environment of the logger (`logger/pkg/logger/env.go`) -/

/-- Constant `EnvDev` (an `Env` is a string). -/
def EnvDev : String := "dev"
/-- Constant `EnvStage`. -/
def EnvStage : String := "stage"
/-- Constant `EnvProd`. -/
def EnvProd : String := "prod"

/-- Function `DetectEnv`, as a function of the value of `APP_ENV` (`os.Getenv` gives the
empty string for a variable that is not set): trim, lower-case, and switch on
the result. The third case of the second branch is written with a blank in
front, as in the source. -/
def DetectEnv (tbl : Nat → Nat) (appEnv : String) : String :=
  let raw := ToLower tbl (TrimSpace appEnv)
  if raw = "prod" ∨ raw = "production" then EnvProd
  else if raw = "stage" ∨ raw = "staging" ∨ raw = " preprod" ∨ raw = "pre-production" then
    EnvStage
  else EnvDev

/-! # Theorems -/

/-! ## Admission: capacity and the idempotent pre-check -/

theorem Get_eq_ok {db : DB} {r : String} {rm : Room} (h : RoomRepository.Get db r = .ok rm) :
    db.rooms.find? (fun x => x.ID == r) = some rm := by
  unfold RoomRepository.Get at h
  split at h
  · rename_i rm' heq
    cases h
    exact heq
  · cases h

theorem roster_append (db : DB) (r : String) (p : Participant) :
    DB.roster { db with participants := db.participants ++ [p] } r =
      db.roster r ++ (if p.RoomID == r then [p] else []) := by
  simp only [DB.roster, List.filter_append]
  congr 1
  by_cases h : (p.RoomID == r) = true <;> simp [List.filter, h]

theorem Exists_append (db : DB) (r : String) (u : Int) (p : Participant) :
    ParticipantRepository.Exists { db with participants := db.participants ++ [p] } r u =
      (ParticipantRepository.Exists db r u || (p.RoomID == r && p.UserID == u)) := by
  simp [ParticipantRepository.Exists, List.any_append]

/-- One join of a user who is not in the room, below the limit: the call
succeeds and appends exactly that user's row. -/
theorem JoinRoom_admit {db : DB} {r : String} {rm : Room} {u : Int} (clk : JoinClock)
    (hroom : RoomRepository.Get db r = .ok rm)
    (hnew : ParticipantRepository.Exists db r u = false)
    (hlt : ((db.roster r).length : Int) < rm.MaxParticipants) :
    MemberService.JoinRoom db r u clk =
      { db := { db with participants := db.participants ++
                  [{ RoomID := r, UserID := u, JoinedAt := clk.dbNow, LastSeen := clk.dbNow }] },
        result := .ok { RoomID := r, UserID := u, JoinedAt := clk.joinedAt,
                        LastSeen := clk.lastSeen },
        calls := [.roomGet, .participantExists, .participantJoin] } := by
  have hfind := Get_eq_ok hroom
  have hnot : ¬ (ParticipantRepository.CountInRoom db r ≥
      if rm.MaxParticipants > 0 then rm.MaxParticipants else rm.MaxParticipants) := by
    simp only [ParticipantRepository.CountInRoom, ite_self]
    omega
  simp only [MemberService.JoinRoom, hroom, hnew, ParticipantRepository.Join, hfind,
    insertParticipantOnConflictDoNothing, if_neg hnot]
  simp

/-- One join of a user who is not in the room, at or above the limit: the call
fails with `ErrRoomFull` and the database is the old one. -/
theorem JoinRoom_full {db : DB} {r : String} {rm : Room} {u : Int} (clk : JoinClock)
    (hroom : RoomRepository.Get db r = .ok rm)
    (hnew : ParticipantRepository.Exists db r u = false)
    (hge : rm.MaxParticipants ≤ ((db.roster r).length : Int)) :
    MemberService.JoinRoom db r u clk =
      { db := db, result := .error ErrRoomFull,
        calls := [.roomGet, .participantExists, .participantJoin] } := by
  have hfind := Get_eq_ok hroom
  have hyes : (ParticipantRepository.CountInRoom db r ≥
      if rm.MaxParticipants > 0 then rm.MaxParticipants else rm.MaxParticipants) := by
    simp only [ParticipantRepository.CountInRoom, ite_self]
    omega
  simp only [MemberService.JoinRoom, hroom, hnew, ParticipantRepository.Join, hfind,
    if_pos hyes]
  simp

/-- One join of a user who is already in the room: `ErrAlreadyJoined`, the
database is the old one and the join transaction is not reached. -/
theorem JoinRoom_already {db : DB} {r : String} {rm : Room} {u : Int} (clk : JoinClock)
    (hroom : RoomRepository.Get db r = .ok rm)
    (hin : ParticipantRepository.Exists db r u = true) :
    MemberService.JoinRoom db r u clk =
      { db := db, result := .error ErrAlreadyJoined,
        calls := [.roomGet, .participantExists] } := by
  simp [MemberService.JoinRoom, hroom, hin]

theorem succeeded_cons_ok (o : JoinOutcome) (os : List JoinOutcome) (p : Participant)
    (h : o.result = .ok p) : succeeded (o :: os) = o :: succeeded os := by
  simp [succeeded, List.filter, h]

theorem succeeded_cons_error (o : JoinOutcome) (os : List JoinOutcome) (e : GoError)
    (h : o.result = .error e) : succeeded (o :: os) = succeeded os := by
  simp [succeeded, List.filter, h]

theorem failedWith_cons_ok (t : GoError) (o : JoinOutcome) (os : List JoinOutcome)
    (p : Participant) (h : o.result = .ok p) : failedWith t (o :: os) = failedWith t os := by
  simp [failedWith, List.filter, h]

theorem failedWith_cons_error (t : GoError) (o : JoinOutcome) (os : List JoinOutcome)
    (h : o.result = .error t) : failedWith t (o :: os) = o :: failedWith t os := by
  simp [failedWith, List.filter, h]

/-- The general form of the capacity property, for a room that already holds
some participants: the joins succeed until the room is full. -/
theorem runJoins_capacity (r : String) (rm : Room) (m : Nat) (hmax : rm.MaxParticipants = m) :
    ∀ (reqs : List (Int × JoinClock)) (db : DB),
      RoomRepository.Get db r = .ok rm →
      (reqs.map Prod.fst).Nodup →
      (∀ q ∈ reqs, ParticipantRepository.Exists db r q.1 = false) →
      (db.roster r).length ≤ m →
      (succeeded (runJoins db r reqs)).length = min reqs.length (m - (db.roster r).length) ∧
      (failedWith ErrRoomFull (runJoins db r reqs)).length =
        reqs.length - (m - (db.roster r).length) ∧
      ∀ o ∈ runJoins db r reqs, (o.db.roster r).length ≤ m := by
  intro reqs
  induction reqs with
  | nil => intro db _ _ _ _; simp [runJoins, succeeded, failedWith]
  | cons q rest ih =>
    intro db hroom hnd hnew hk
    obtain ⟨u, clk⟩ := q
    have hu : ParticipantRepository.Exists db r u = false := hnew (u, clk) (by simp)
    simp only [List.map_cons, List.nodup_cons] at hnd
    by_cases hlt : (db.roster r).length < m
    · -- admitted
      have hstep := JoinRoom_admit clk hroom hu (by rw [hmax]; exact_mod_cast hlt)
      set db' : DB := { db with participants := db.participants ++
                  [{ RoomID := r, UserID := u, JoinedAt := clk.dbNow, LastSeen := clk.dbNow }] }
        with hdb'
      have hroster : (db'.roster r).length = (db.roster r).length + 1 := by
        rw [hdb', roster_append]; simp
      have hroom' : RoomRepository.Get db' r = .ok rm := hroom
      have hnew' : ∀ q ∈ rest, ParticipantRepository.Exists db' r q.1 = false := by
        intro q hq
        rw [hdb', Exists_append, hnew q (List.mem_cons_of_mem _ hq)]
        have hne : u ≠ q.1 := by
          intro h
          exact hnd.1 (h ▸ List.mem_map_of_mem Prod.fst hq)
        simp [hne]
      obtain ⟨h1, h2, h3⟩ := ih db' hroom' hnd.2 hnew' (by omega)
      simp only [runJoins, hstep]
      rw [succeeded_cons_ok _ _ _ rfl, failedWith_cons_ok _ _ _ _ rfl]
      refine ⟨?_, ?_, ?_⟩
      · simp only [List.length_cons, h1, hroster]; omega
      · simp only [List.length_cons, h2, hroster]; omega
      · intro o ho
        rcases List.mem_cons.1 ho with rfl | ho
        · show (db'.roster r).length ≤ m
          omega
        · exact h3 o ho
    · -- full
      have hstep := JoinRoom_full clk hroom hu (by rw [hmax]; exact_mod_cast (by omega))
      have hnew' : ∀ q ∈ rest, ParticipantRepository.Exists db r q.1 = false :=
        fun q hq => hnew q (List.mem_cons_of_mem _ hq)
      obtain ⟨h1, h2, h3⟩ := ih db hroom hnd.2 hnew' hk
      simp only [runJoins, hstep]
      rw [succeeded_cons_error _ _ _ rfl, failedWith_cons_error _ _ _ rfl]
      refine ⟨?_, ?_, ?_⟩
      · simp only [List.length_cons, h1]; omega
      · simp only [List.length_cons, h2]; omega
      · intro o ho
        rcases List.mem_cons.1 ho with rfl | ho
        · exact hk
        · exact h3 o ho

/-- C1. Capacity under serialized joins: in a room of capacity `m` that holds
`k ≤ m` participants, `N > m` join attempts by `N` distinct users who are not in
the room, run one after the other in any order, succeed exactly `m - k` times
(exactly `m` times for a room that is empty beforehand), all the other attempts
fail with `ErrRoomFull`, and after every attempt the room holds at most `m`
participants. -/
theorem C1_capacity_under_serialized_joins (db : DB) (r : String) (rm : Room) (m : Nat)
    (reqs : List (Int × JoinClock))
    (hroom : RoomRepository.Get db r = .ok rm)
    (hmax : rm.MaxParticipants = m)
    (hdistinct : (reqs.map Prod.fst).Nodup)
    (hnew : ∀ q ∈ reqs, ParticipantRepository.Exists db r q.1 = false)
    (hk : (db.roster r).length ≤ m)
    (hN : m < reqs.length) :
    (succeeded (runJoins db r reqs)).length = m - (db.roster r).length ∧
    (failedWith ErrRoomFull (runJoins db r reqs)).length =
      reqs.length - (m - (db.roster r).length) ∧
    (succeeded (runJoins db r reqs)).length + (failedWith ErrRoomFull (runJoins db r reqs)).length
      = reqs.length ∧
    (db.roster r = [] → (succeeded (runJoins db r reqs)).length = m ∧
      (failedWith ErrRoomFull (runJoins db r reqs)).length = reqs.length - m) ∧
    ∀ o ∈ runJoins db r reqs, (o.db.roster r).length ≤ m := by
  obtain ⟨h1, h2, h3⟩ := runJoins_capacity r rm m hmax reqs db hroom hdistinct hnew hk
  refine ⟨by omega, h2, by omega, ?_, h3⟩
  intro hempty
  rw [hempty] at h1 h2
  simp only [List.length_nil] at h1 h2
  constructor <;> omega

/-- Three users join the empty two-seat room: two get in, one is refused. -/
theorem C1_capacity_witness :
    (succeeded (runJoins sampleDB "r" [(1, sampleClock), (2, sampleClock), (3, sampleClock)])).length
        = 2 ∧
    (failedWith ErrRoomFull
        (runJoins sampleDB "r" [(1, sampleClock), (2, sampleClock), (3, sampleClock)])).length
        = 1 := by
  have h := C1_capacity_under_serialized_joins sampleDB "r" sampleRoom 2
    [(1, sampleClock), (2, sampleClock), (3, sampleClock)]
    (by decide) (by decide) (by decide) (by decide) (by decide) (by decide)
  exact ⟨h.1, h.2.1⟩

theorem runJoins_length (r : String) :
    ∀ (reqs : List (Int × JoinClock)) (db : DB), (runJoins db r reqs).length = reqs.length := by
  intro reqs
  induction reqs with
  | nil => intro db; rfl
  | cons q rest ih => intro db; obtain ⟨u, clk⟩ := q; simp [runJoins, ih]

theorem runJoins_already (r : String) (rm : Room) (u : Int) :
    ∀ (clks : List JoinClock) (db : DB),
      RoomRepository.Get db r = .ok rm →
      ParticipantRepository.Exists db r u = true →
      ∀ o ∈ runJoins db r (clks.map (fun clk => (u, clk))),
        o = { db := db, result := .error ErrAlreadyJoined,
              calls := [.roomGet, .participantExists] } := by
  intro clks
  induction clks with
  | nil => intro db _ _ o ho; simp [runJoins] at ho
  | cons clk rest ih =>
    intro db hroom hin o ho
    simp only [List.map_cons, runJoins, JoinRoom_already clk hroom hin, List.mem_cons] at ho
    rcases ho with rfl | ho
    · rfl
    · exact ih db hroom hin o ho

/-- C2. Idempotent join pre-check: for an existing room below its capacity, a
user who is not in it and `k ≥ 1` successive `JoinRoom` calls of that user, the
first call succeeds and every later one returns `ErrAlreadyJoined` (so there is
one success and there are `k - 1` `ErrAlreadyJoined`), the roster of the room
is the old one with exactly one entry, the user's, appended, and no call that
returns `ErrAlreadyJoined` reaches the join transaction. -/
theorem C2_idempotent_join (db : DB) (r : String) (rm : Room) (u : Int)
    (clk : JoinClock) (clks : List JoinClock)
    (hroom : RoomRepository.Get db r = .ok rm)
    (hbelow : ((db.roster r).length : Int) < rm.MaxParticipants)
    (hnew : ParticipantRepository.Exists db r u = false) :
    ∃ first rest, repeatJoin db r u (clk :: clks) = first :: rest ∧
      (∃ p, first.result = .ok p ∧ p.RoomID = r ∧ p.UserID = u) ∧
      (∀ o ∈ rest, o.result = .error ErrAlreadyJoined ∧ RepoCall.participantJoin ∉ o.calls) ∧
      (succeeded (repeatJoin db r u (clk :: clks))).length = 1 ∧
      (failedWith ErrAlreadyJoined (repeatJoin db r u (clk :: clks))).length = clks.length ∧
      (∃ row, row.UserID = u ∧
        (finalDB db (repeatJoin db r u (clk :: clks))).roster r = db.roster r ++ [row]) ∧
      (∀ o ∈ repeatJoin db r u (clk :: clks),
        RepoCall.participantJoin ∉ o.calls ↔ o.result = .error ErrAlreadyJoined) := by
  have hstep := JoinRoom_admit clk hroom hnew hbelow
  set row : Participant :=
    { RoomID := r, UserID := u, JoinedAt := clk.dbNow, LastSeen := clk.dbNow } with hrow
  set db' : DB := { db with participants := db.participants ++ [row] } with hdb'
  have hroom' : RoomRepository.Get db' r = .ok rm := hroom
  have hin' : ParticipantRepository.Exists db' r u = true := by
    rw [hdb', Exists_append]; simp [hrow]
  have hrest := runJoins_already r rm u clks db' hroom' hin'
  set first : JoinOutcome :=
    { db := db', result := .ok { RoomID := r, UserID := u, JoinedAt := clk.joinedAt,
                                  LastSeen := clk.lastSeen },
      calls := [.roomGet, .participantExists, .participantJoin] } with hfirst
  have hrun : repeatJoin db r u (clk :: clks) =
      first :: runJoins db' r (clks.map (fun c => (u, c))) := by
    simp only [repeatJoin, List.map_cons, runJoins, hstep]
  set dup : JoinOutcome :=
    { db := db', result := .error ErrAlreadyJoined, calls := [.roomGet, .participantExists] }
    with hdup
  have hall : ∀ os : List JoinOutcome, (∀ o ∈ os, o = dup) →
      succeeded os = [] ∧ (failedWith ErrAlreadyJoined os).length = os.length ∧
      (∀ o, os.getLast? = some o → o.db = db') := by
    intro os hos
    refine ⟨?_, ?_, ?_⟩
    · simp only [succeeded, List.filter_eq_nil_iff]
      intro o ho; rw [hos o ho]; simp
    · congr 1
      simp only [failedWith, List.filter_eq_self]
      intro o ho; rw [hos o ho]; simp [ErrAlreadyJoined]
    · intro o ho
      rw [hos o (List.mem_of_getLast?_eq_some ho)]
  obtain ⟨hs, hf, hl⟩ := hall _ hrest
  refine ⟨_, _, hrun, ⟨_, rfl, rfl, rfl⟩, ?_, ?_, ?_, ⟨row, rfl, ?_⟩, ?_⟩
  · intro o ho; rw [hrest o ho]; simp
  · rw [hrun, succeeded_cons_ok _ _ _ rfl, hs]; rfl
  · rw [hrun, failedWith_cons_ok _ _ _ _ rfl, hf]
    simp [runJoins_length]
  · rw [hrun]
    have hfin : finalDB db (first :: runJoins db' r (clks.map (fun c => (u, c)))) = db' := by
      unfold finalDB
      rw [List.getLast?_cons]
      cases hlast : (runJoins db' r (clks.map (fun c => (u, c)))).getLast? with
      | none => simp
      | some o => simpa using hl o hlast
    rw [hfin, hdb', roster_append]
    simp [hrow]
  · intro o ho
    rw [hrun] at ho
    rcases List.mem_cons.1 ho with rfl | ho
    · simp
    · rw [hrest o ho]; simp

/-- Three successive joins of user 7 into the empty two-seat room. -/
theorem C2_idempotent_join_witness :
    (succeeded (repeatJoin sampleDB "r" 7 [sampleClock, sampleClock, sampleClock])).length = 1 ∧
    (failedWith ErrAlreadyJoined
      (repeatJoin sampleDB "r" 7 [sampleClock, sampleClock, sampleClock])).length = 2 := by
  obtain ⟨_, _, _, _, _, h1, h2, _⟩ := C2_idempotent_join sampleDB "r" sampleRoom 7 sampleClock
    [sampleClock, sampleClock] (by decide) (by decide) (by decide)
  exact ⟨h1, h2⟩
/-! ## The cursor codec: base64 and UTF-8 round trips -/

theorem ofRunes_runes (s : String) : ofRunes (runes s) = s := by
  simp only [ofRunes, runes, List.map_map]
  have : (Char.ofNat ∘ Char.toNat) = id := by funext c; simp
  rw [this, List.map_id]
  rfl

theorem toNat_ofNat_small (n : Nat) (h : n < 0xD800) : (Char.ofNat n).toNat = n := by
  have hv : n.isValidChar := Or.inl h
  simp only [Char.ofNat, hv, dite_true]
  simp [Char.ofNatAux, Char.toNat, UInt32.toNat]

theorem runes_ofRunes_small (rs : List Nat) (h : ∀ r ∈ rs, r < 0xD800) :
    runes (ofRunes rs) = rs := by
  simp only [ofRunes, runes, String.toList, List.map_map]
  induction rs with
  | nil => rfl
  | cons r rs ih =>
    simp only [List.map_cons, Function.comp_apply]
    rw [toNat_ofNat_small r (h r (by simp)), ih (fun x hx => h x (by simp [hx]))]

theorem b64Char_lt (n : Nat) : b64Char n < 128 := by
  unfold b64Char; split_ifs <;> omega

theorem b64Val_b64Char (n : Nat) (h : n < 64) : b64Val (b64Char n) = some n := by
  unfold b64Char b64Val
  split_ifs <;> first | omega | (simp; omega) | simp

theorem b64Char_not_newline (n : Nat) : (b64Char n != 10 && b64Char n != 13) = true := by
  unfold b64Char; split_ifs <;> simp <;> omega

theorem b64EncodeRunes_small (bs : List Nat) : ∀ c ∈ b64EncodeRunes bs, c < 0xD800 := by
  induction bs using b64EncodeRunes.induct with
  | case1 a b c rest ih =>
    intro x hx
    simp only [b64EncodeRunes, List.mem_cons] at hx
    rcases hx with rfl | rfl | rfl | rfl | hx
    · have := b64Char_lt (a / 4); omega
    · have := b64Char_lt (a % 4 * 16 + b / 16); omega
    · have := b64Char_lt (b % 16 * 4 + c / 64); omega
    · have := b64Char_lt (c % 64); omega
    · exact ih x hx
  | case2 a b =>
    intro x hx
    simp only [b64EncodeRunes, List.mem_cons, List.mem_singleton, List.not_mem_nil, or_false] at hx
    rcases hx with rfl | rfl | rfl
    · have := b64Char_lt (a / 4); omega
    · have := b64Char_lt (a % 4 * 16 + b / 16); omega
    · have := b64Char_lt (b % 16 * 4); omega
  | case3 a =>
    intro x hx
    simp only [b64EncodeRunes, List.mem_cons, List.mem_singleton, List.not_mem_nil, or_false] at hx
    rcases hx with rfl | rfl
    · have := b64Char_lt (a / 4); omega
    · have := b64Char_lt (a % 4 * 16); omega
  | case4 => intro x hx; simp [b64EncodeRunes] at hx

theorem b64Encode_filter (bs : List Nat) :
    (b64EncodeRunes bs).filter (fun c => c != 10 && c != 13) = b64EncodeRunes bs := by
  induction bs using b64EncodeRunes.induct with
  | case1 a b c rest ih =>
    simp only [b64EncodeRunes, List.filter_cons, b64Char_not_newline, if_true, ih]
  | case2 a b => simp only [b64EncodeRunes, List.filter_cons, b64Char_not_newline, if_true, List.filter_nil]
  | case3 a => simp only [b64EncodeRunes, List.filter_cons, b64Char_not_newline, if_true, List.filter_nil]
  | case4 => rfl

/-- Decoding the values of an encoding gives the bytes back. -/
theorem b64_decode_encode (bs : List Nat) (hb : ∀ b ∈ bs, b < 256) :
    (b64Vals (b64EncodeRunes bs)).bind b64DecodeVals = some bs := by
  induction bs using b64EncodeRunes.induct with
  | case1 a b c rest ih =>
    have ha : a < 256 := hb a (by simp)
    have hb' : b < 256 := hb b (by simp)
    have hc : c < 256 := hb c (by simp)
    have ih' := ih (fun x hx => hb x (by simp [hx]))
    simp only [b64EncodeRunes, b64Vals]
    rw [b64Val_b64Char _ (by omega), b64Val_b64Char _ (by omega), b64Val_b64Char _ (by omega),
      b64Val_b64Char _ (by omega)]
    cases hv : b64Vals (b64EncodeRunes rest) with
    | none => rw [hv] at ih'; simp at ih'
    | some vs =>
      rw [hv] at ih'
      simp only [Option.some_bind] at ih'
      simp only [Option.map_some', Option.some_bind, b64DecodeVals, ih', Option.some.injEq,
        List.cons.injEq, and_true]
      refine ⟨by omega, by omega, by omega⟩
  | case2 a b =>
    have ha : a < 256 := hb a (by simp)
    have hb' : b < 256 := hb b (by simp)
    simp only [b64EncodeRunes, b64Vals]
    rw [b64Val_b64Char _ (by omega), b64Val_b64Char _ (by omega), b64Val_b64Char _ (by omega)]
    simp only [Option.map_some', Option.some_bind, b64DecodeVals, Option.some.injEq,
      List.cons.injEq, and_true]
    refine ⟨by omega, by omega⟩
  | case3 a =>
    have ha : a < 256 := hb a (by simp)
    simp only [b64EncodeRunes, b64Vals]
    rw [b64Val_b64Char _ (by omega), b64Val_b64Char _ (by omega)]
    simp only [Option.map_some', Option.some_bind, b64DecodeVals, Option.some.injEq,
      List.cons.injEq, and_true]
    omega
  | case4 => rfl

/-- Round trip of base64: `DecodeString(EncodeToString(bs)) = bs`. -/
theorem b64DecodeString_encode (bs : List Nat) (hb : ∀ b ∈ bs, b < 256) :
    b64DecodeString (b64EncodeToString bs) = some bs := by
  have h := b64_decode_encode bs hb
  unfold b64DecodeString b64EncodeToString
  rw [runes_ofRunes_small _ (b64EncodeRunes_small bs), b64Encode_filter]
  cases hv : b64Vals (b64EncodeRunes bs) with
  | none => rw [hv] at h; simp at h
  | some vs => rw [hv] at h; simpa using h

theorem validRune_toNat (c : Char) : validRune c.toNat := by
  have h := c.valid
  simp only [UInt32.isValidChar, Nat.isValidChar] at h
  simp only [validRune, Char.toNat]
  rcases h with h | ⟨h1, h2⟩
  · left; exact h
  · right; exact ⟨by omega, h2⟩

theorem validRune_runes (s : String) : ∀ r ∈ runes s, validRune r := by
  intro r hr
  simp only [runes, List.mem_map] at hr
  obtain ⟨c, _, rfl⟩ := hr
  exact validRune_toNat c

theorem utf8EncodeRune_lt (r : Nat) (h : validRune r) : ∀ b ∈ utf8EncodeRune r, b < 256 := by
  unfold validRune at h
  intro b hb
  unfold utf8EncodeRune at hb
  split_ifs at hb <;> simp only [List.mem_cons, List.mem_singleton, List.not_mem_nil, or_false] at hb
  · omega
  · rcases hb with rfl | rfl <;> omega
  · rcases hb with rfl | rfl | rfl <;> omega
  · rcases hb with rfl | rfl | rfl | rfl <;> omega

theorem utf8Encode_lt (rs : List Nat) (h : ∀ r ∈ rs, validRune r) :
    ∀ b ∈ utf8Encode rs, b < 256 := by
  induction rs with
  | nil => intro b hb; simp [utf8Encode] at hb
  | cons r rs ih =>
    intro b hb
    simp only [utf8Encode, List.mem_append] at hb
    rcases hb with hb | hb
    · exact utf8EncodeRune_lt r (h r (by simp)) b hb
    · exact ih (fun x hx => h x (by simp [hx])) b hb

theorem utf8EncodeRune_pos (r : Nat) : 1 ≤ (utf8EncodeRune r).length := by
  unfold utf8EncodeRune; split_ifs <;> simp

/-- Function `utf8.DecodeRune` reads back what `utf8.EncodeRune` wrote. -/
theorem utf8DecodeRune_encode (r : Nat) (h : validRune r) (rest : List Nat) :
    utf8DecodeRune (utf8EncodeRune r ++ rest) = (r, (utf8EncodeRune r).length) := by
  unfold validRune at h
  unfold utf8EncodeRune
  split_ifs with h1 h2 h3
  · simp [utf8DecodeRune, h1]
  · have e1 : ¬ (0xC0 + r / 64 < 0x80) := by omega
    have e2 : 0xC2 ≤ 0xC0 + r / 64 ∧ 0xC0 + r / 64 ≤ 0xDF := by omega
    have e3 : isCont (0x80 + r % 64) = true := by simp [isCont]; omega
    simp only [List.cons_append, List.nil_append, utf8DecodeRune, if_neg e1, if_pos e2, e3,
      if_true, List.length_cons, List.length_nil, Prod.mk.injEq, and_true]
    omega
  · have e1 : ¬ (0xE0 + r / 4096 < 0x80) := by omega
    have e2 : ¬ (0xC2 ≤ 0xE0 + r / 4096 ∧ 0xE0 + r / 4096 ≤ 0xDF) := by omega
    have e3 : 0xE0 ≤ 0xE0 + r / 4096 ∧ 0xE0 + r / 4096 ≤ 0xEF := by omega
    have e4 : isCont (0x80 + r % 64) = true := by simp [isCont]; omega
    have e5 : (if 0xE0 + r / 4096 = 0xE0 then 0xA0 else 0x80) ≤ 0x80 + r / 64 % 64 ∧
        0x80 + r / 64 % 64 ≤ (if 0xE0 + r / 4096 = 0xED then 0x9F else 0xBF) ∧
        isCont (0x80 + r % 64) = true := by
      refine ⟨?_, ?_, e4⟩ <;> split_ifs <;> omega
    simp only [List.cons_append, List.nil_append, utf8DecodeRune, if_neg e1, if_neg e2, if_pos e3,
      if_pos e5, List.length_cons, List.length_nil, Prod.mk.injEq, and_true]
    omega
  · have e1 : ¬ (0xF0 + r / 262144 < 0x80) := by omega
    have e2 : ¬ (0xC2 ≤ 0xF0 + r / 262144 ∧ 0xF0 + r / 262144 ≤ 0xDF) := by omega
    have e3 : ¬ (0xE0 ≤ 0xF0 + r / 262144 ∧ 0xF0 + r / 262144 ≤ 0xEF) := by omega
    have e4 : 0xF0 ≤ 0xF0 + r / 262144 ∧ 0xF0 + r / 262144 ≤ 0xF4 := by omega
    have e5 : (if 0xF0 + r / 262144 = 0xF0 then 0x90 else 0x80) ≤ 0x80 + r / 4096 % 64 ∧
        0x80 + r / 4096 % 64 ≤ (if 0xF0 + r / 262144 = 0xF4 then 0x8F else 0xBF) ∧
        isCont (0x80 + r / 64 % 64) = true ∧ isCont (0x80 + r % 64) = true := by
      refine ⟨?_, ?_, ?_, ?_⟩
      · split_ifs <;> omega
      · split_ifs <;> omega
      · simp [isCont]; omega
      · simp [isCont]; omega
    simp only [List.cons_append, List.nil_append, utf8DecodeRune, if_neg e1, if_neg e2, if_neg e3,
      if_pos e4, if_pos e5, List.length_cons, List.length_nil, Prod.mk.injEq, and_true]
    omega

theorem utf8DecodeLossyAux_encode (rs : List Nat) (h : ∀ r ∈ rs, validRune r) :
    ∀ fuel, rs.length ≤ fuel → utf8DecodeLossyAux fuel (utf8Encode rs) = rs := by
  induction rs with
  | nil => intro fuel _; cases fuel <;> simp [utf8Encode, utf8DecodeLossyAux]
  | cons r rs ih =>
    intro fuel hf
    obtain ⟨fuel, rfl⟩ : ∃ k, fuel = k + 1 := ⟨fuel - 1, by simp at hf; omega⟩
    have hr := h r (by simp)
    have hdec := utf8DecodeRune_encode r hr (utf8Encode rs)
    have hpos := utf8EncodeRune_pos r
    simp only [utf8Encode]
    cases hbytes : utf8EncodeRune r ++ utf8Encode rs with
    | nil =>
      have : (utf8EncodeRune r ++ utf8Encode rs).length = 0 := by rw [hbytes]; rfl
      rw [List.length_append] at this; omega
    | cons b bs =>
      simp only [utf8DecodeLossyAux]
      rw [← hbytes, hdec]
      simp only [List.drop_left, List.cons.injEq, true_and]
      exact ih (fun x hx => h x (by simp [hx])) fuel (by simp at hf; omega)

theorem utf8Encode_length (rs : List Nat) : rs.length ≤ (utf8Encode rs).length := by
  induction rs with
  | nil => simp [utf8Encode]
  | cons r rs ih =>
    have := utf8EncodeRune_pos r
    simp only [utf8Encode, List.length_cons, List.length_append]; omega

/-- Reading the UTF-8 of a text gives the text back. -/
theorem utf8DecodeLossy_encode (rs : List Nat) (h : ∀ r ∈ rs, validRune r) :
    utf8DecodeLossy (utf8Encode rs) = rs :=
  utf8DecodeLossyAux_encode rs h _ (utf8Encode_length rs)
/-! ## The cursor codec: RFC 3339 round trip -/

theorem digitVal_digitChar (d : Nat) (h : d < 10) : digitVal (digitChar d) = some d := by
  unfold digitVal digitChar
  rw [if_pos (by omega)]
  congr 1
  omega

theorem digitVal_none_of (c : Nat) (h : c < 48 ∨ 57 < c) : digitVal c = none := by
  unfold digitVal
  rw [if_neg (by omega)]

theorem parseUint2_pad (n lo hi : Nat) (h1 : lo ≤ n) (h2 : n ≤ hi) (h3 : n < 100) :
    parseUint2 (digitChar (n / 10 % 10)) (digitChar (n % 10)) lo hi = some n := by
  unfold parseUint2
  rw [digitVal_digitChar _ (by omega), digitVal_digitChar _ (by omega)]
  have e : n / 10 % 10 * 10 + n % 10 = n := by omega
  simp only [e, h1, h2, and_self, if_true]

theorem parseUint4_pad (n : Nat) (h : n < 10000) :
    parseUint4 (digitChar (n / 1000 % 10)) (digitChar (n / 100 % 10)) (digitChar (n / 10 % 10))
      (digitChar (n % 10)) = some n := by
  unfold parseUint4
  rw [digitVal_digitChar _ (by omega), digitVal_digitChar _ (by omega),
    digitVal_digitChar _ (by omega), digitVal_digitChar _ (by omega)]
  simp only [Option.some.injEq]
  omega

theorem digitsValue_foldl (ds : List Nat) (acc : Nat) :
    ds.foldl (fun a d => a * 10 + d) acc = acc * 10 ^ ds.length + digitsValue ds := by
  induction ds generalizing acc with
  | nil => simp [digitsValue]
  | cons d ds ih =>
    simp only [List.foldl_cons, digitsValue, List.length_cons]
    rw [ih, ih (0 * 10 + d)]
    ring

theorem digitsValue_append_zeros (ds : List Nat) (k : Nat) :
    digitsValue (ds ++ List.replicate k 0) = digitsValue ds * 10 ^ k := by
  induction k with
  | zero => simp
  | succ k ih =>
    rw [List.replicate_succ', ← List.append_assoc]
    unfold digitsValue at ih ⊢
    rw [List.foldl_append, ih]
    simp only [List.foldl_cons, List.foldl_nil]
    ring

theorem trimZeros_append (ds : List Nat) :
    ∃ k, ds = trimZeros ds ++ List.replicate k 0 := by
  refine ⟨(ds.reverse.takeWhile (fun d => d == 0)).length, ?_⟩
  have h := List.takeWhile_append_dropWhile (fun d => d == 0) ds.reverse
  have hz : (ds.reverse.takeWhile (fun d => d == 0)).reverse =
      List.replicate (ds.reverse.takeWhile (fun d => d == 0)).length 0 := by
    rw [List.eq_replicate_iff]
    refine ⟨by simp, ?_⟩
    intro b hb
    have := List.mem_takeWhile_imp (List.mem_reverse.1 hb)
    simpa using this
  have h2 := congrArg List.reverse h
  rw [List.reverse_append, List.reverse_reverse] at h2
  calc ds = (ds.reverse.dropWhile (fun d => d == 0)).reverse ++
        (ds.reverse.takeWhile (fun d => d == 0)).reverse := h2.symm
    _ = trimZeros ds ++ List.replicate (ds.reverse.takeWhile (fun d => d == 0)).length 0 := by
        rw [hz]; rfl

theorem digitsValue_digits9 (n : Nat) (h : n < 1000000000) : digitsValue (digits9 n) = n := by
  simp only [digitsValue, digits9, List.foldl_cons, List.foldl_nil]
  omega

theorem digits9_lt (n : Nat) : ∀ d ∈ digits9 n, d < 10 := by
  intro d hd
  simp only [digits9, List.mem_cons, List.mem_singleton, List.not_mem_nil, or_false] at hd
  rcases hd with rfl | rfl | rfl | rfl | rfl | rfl | rfl | rfl | rfl <;> omega

theorem trimZeros_mem (ds : List Nat) : ∀ d ∈ trimZeros ds, d ∈ ds := by
  intro d hd
  simp only [trimZeros, List.mem_reverse] at hd
  have := (List.dropWhile_sublist (fun d => d == 0) (l := ds.reverse)).subset hd
  simpa using this

theorem spanDigits_digits (ds rest : List Nat) (hd : ∀ d ∈ ds, d < 10)
    (hrest : ∀ c cs, rest = c :: cs → digitVal c = none) :
    spanDigits (ds.map digitChar ++ rest) = (ds, rest) := by
  induction ds with
  | nil =>
    cases rest with
    | nil => rfl
    | cons c cs => simp [spanDigits, hrest c cs rfl]
  | cons d ds ih =>
    rw [List.map_cons, List.cons_append, spanDigits, digitVal_digitChar d (hd d (by simp)),
      ih (fun x hx => hd x (by simp [hx]))]

theorem appendZone_eq (off : Int) :
    appendZone off = if off = 0 then [90]
      else (if off < 0 ∧ off.natAbs / 60 ≠ 0 then 45 else 43) ::
        (pad2 (off.natAbs / 60 / 60) ++ 58 :: pad2 (off.natAbs / 60 % 60)) := rfl

/-- The zone that `appendZone` writes starts with no digit and no period. -/
theorem appendZone_head (off : Int) :
    ∃ c cs, appendZone off = c :: cs ∧ (c = 90 ∨ c = 43 ∨ c = 45) := by
  rw [appendZone_eq]
  split_ifs
  · exact ⟨90, [], rfl, Or.inl rfl⟩
  · exact ⟨45, _, rfl, Or.inr (Or.inr rfl)⟩
  · exact ⟨43, _, rfl, Or.inr (Or.inl rfl)⟩

theorem parseFraction_appendNano (nsec : Nat) (off : Int) (h : nsec < 1000000000) :
    parseFraction (appendNano nsec ++ appendZone off) = (nsec, appendZone off) := by
  obtain ⟨c, cs, hz, hc⟩ := appendZone_head off
  unfold appendNano
  split_ifs with h0
  · rw [List.nil_append, hz, h0]
    unfold parseFraction
    rcases hc with rfl | rfl | rfl <;> rfl
  · obtain ⟨k, hk⟩ := trimZeros_append (digits9 nsec)
    have hlt : ∀ d ∈ trimZeros (digits9 nsec), d < 10 :=
      fun d hd => digits9_lt nsec d (trimZeros_mem _ d hd)
    have hspan := spanDigits_digits (trimZeros (digits9 nsec)) (appendZone off) hlt (by
      intro c' cs' h'
      rw [hz] at h'
      cases h'
      rcases hc with rfl | rfl | rfl <;> rfl)
    have hval := digitsValue_digits9 nsec h
    have hlen : (digits9 nsec).length = 9 := rfl
    rw [hk, digitsValue_append_zeros] at hval
    have hlen' : (trimZeros (digits9 nsec)).length + k = 9 := by
      have := congrArg List.length hk
      rw [hlen, List.length_append, List.length_replicate] at this
      omega
    have hne : trimZeros (digits9 nsec) ≠ [] := by
      intro hnil
      rw [hnil] at hval
      simp [digitsValue] at hval
      omega
    simp only [List.cons_append, parseFraction, hspan]
    cases htz : trimZeros (digits9 nsec) with
    | nil => exact absurd htz hne
    | cons d ds =>
      rw [htz] at hlen' hval
      have htake : (d :: ds).take 9 = d :: ds := List.take_of_length_le (by omega)
      simp only [htake]
      have hk' : 9 - (d :: ds).length = k := by omega
      rw [hk', hval]

theorem parseZone_appendZone (off : Int) (h1 : off % 60 = 0) (h2 : off.natAbs < 86400) :
    parseZone (appendZone off) = some off := by
  rw [appendZone_eq]
  split_ifs with h0 hneg
  · rw [h0]; rfl
  · simp only [pad2, List.cons_append, List.nil_append, parseZone]
    rw [parseUint2_pad _ 0 23 (by omega) (by omega) (by omega),
      parseUint2_pad _ 0 59 (by omega) (by omega) (by omega)]
    simp only [true_or, and_self, if_true, Option.some.injEq]
    omega
  · simp only [pad2, List.cons_append, List.nil_append, parseZone]
    rw [parseUint2_pad _ 0 23 (by omega) (by omega) (by omega),
      parseUint2_pad _ 0 59 (by omega) (by omega) (by omega)]
    have : (43 : Nat) ≠ 45 := by decide
    simp only [or_true, and_self, if_true, this, if_false, Option.some.injEq]
    omega

theorem pad2_plain (n : Nat) : ∀ c ∈ pad2 n, 43 ≤ c ∧ c ≤ 90 := by
  intro c hc
  simp only [pad2, digitChar, List.mem_cons, List.mem_singleton, List.not_mem_nil, or_false] at hc
  rcases hc with rfl | rfl <;> omega

theorem pad4_plain (n : Nat) : ∀ c ∈ pad4 n, 43 ≤ c ∧ c ≤ 90 := by
  intro c hc
  simp only [pad4, digitChar, List.mem_cons, List.mem_singleton, List.not_mem_nil, or_false] at hc
  rcases hc with rfl | rfl | rfl | rfl <;> omega

theorem appendNano_plain (n : Nat) : ∀ c ∈ appendNano n, 43 ≤ c ∧ c ≤ 90 := by
  intro c hc
  unfold appendNano at hc
  split_ifs at hc
  · simp at hc
  · simp only [List.mem_cons, List.mem_map] at hc
    rcases hc with rfl | ⟨d, hd, rfl⟩
    · omega
    · have := digits9_lt n d (trimZeros_mem _ d hd)
      unfold digitChar; omega

theorem appendZone_plain (off : Int) : ∀ c ∈ appendZone off, 43 ≤ c ∧ c ≤ 90 := by
  intro c hc
  rw [appendZone_eq] at hc
  split_ifs at hc
  · simp only [List.mem_singleton] at hc; omega
  · simp only [List.mem_cons, List.mem_append] at hc
    rcases hc with rfl | hc | rfl | hc
    · omega
    · exact pad2_plain _ c hc
    · omega
    · exact pad2_plain _ c hc
  · simp only [List.mem_cons, List.mem_append] at hc
    rcases hc with rfl | hc | rfl | hc
    · omega
    · exact pad2_plain _ c hc
    · omega
    · exact pad2_plain _ c hc

theorem appendStrictRFC3339_ok (t : Time) (he : t.Encodable) :
    t.appendStrictRFC3339 = .ok t.appendFormatRFC3339 := by
  obtain ⟨hy1, hy2, ho1, ho2⟩ := he
  have hyear : ¬ (t.year < 0 ∨ t.year ≥ 10000) := by omega
  have hzone : ¬ (t.offset ≠ 0 ∧ t.offset.natAbs / 60 / 60 ≥ 24) := by omega
  simp only [Time.appendStrictRFC3339, if_neg hyear, if_neg hzone]

/-- Function `Time.UnmarshalJSON` reads back what `Time.MarshalJSON` wrote, for a
valid time whose year and zone offset RFC 3339 can express. -/
theorem parseRFC3339_format (t : Time) (hv : t.Valid) (he : t.Encodable) :
    parseRFC3339 t.appendFormatRFC3339 = some t := by
  obtain ⟨hm1, hm2, hd1, hd2, hh, hmi, hs, hn⟩ := hv
  obtain ⟨hy1, hy2, ho1, ho2⟩ := he
  have hdays : daysIn t.month t.year ≤ 31 := by
    unfold daysIn; split_ifs <;> omega
  simp only [Time.appendFormatRFC3339, pad4, pad2, List.cons_append, List.nil_append,
    parseRFC3339]
  rw [parseUint4_pad _ (by omega), parseUint2_pad _ 1 12 hm1 hm2 (by omega)]
  have hyy : ((t.year.toNat : Nat) : Int) = t.year := by omega
  simp only [hyy]
  rw [parseUint2_pad _ 1 _ hd1 hd2 (by omega), parseUint2_pad _ 0 23 (by omega) hh (by omega),
    parseUint2_pad _ 0 59 (by omega) hmi (by omega),
    parseUint2_pad _ 0 59 (by omega) hs (by omega)]
  simp only [and_self, if_true, parseFraction_appendNano t.nsec t.offset hn,
    parseZone_appendZone t.offset ho1 ho2]

/-- The RFC 3339 text of a time is made of digits, signs, `.`, `:`, `T`, `Z`. -/
theorem appendFormatRFC3339_plain (t : Time) : ∀ c ∈ t.appendFormatRFC3339, 43 ≤ c ∧ c ≤ 90 := by
  intro c hc
  have h4 := pad4_plain t.year.toNat c
  have hmo := pad2_plain t.month c
  have hd := pad2_plain t.day c
  have hh := pad2_plain t.hour c
  have hmi := pad2_plain t.minute c
  have hs := pad2_plain t.second c
  have hn := appendNano_plain t.nsec c
  have hz := appendZone_plain t.offset c
  simp only [Time.appendFormatRFC3339, List.mem_append, List.mem_cons, or_assoc] at hc
  rcases hc with hc | hc | hc | hc | hc | hc | hc | hc | hc | hc | hc | hc | hc <;>
    first | omega | exact h4 hc | exact hmo hc | exact hd hc | exact hh hc | exact hmi hc |
            exact hs hc | exact hn hc | exact hz hc
/-! ## The cursor codec: JSON round trip -/

theorem hexVal_hexChar (n : Nat) (h : n < 16) : hexVal (hexChar n) = some n := by
  unfold hexChar hexVal
  split_ifs <;> first | omega | (simp; omega) | simp

theorem unquoteStep_plain (c : Nat) (cs : List Nat) (h1 : 32 ≤ c) (h2 : c ≠ 92) :
    unquoteStep (c :: cs) = some ([c], c, cs) := by
  have e1 : ¬ c < 32 := by omega
  simp only [unquoteStep, if_neg e1, if_neg h2]

/-- One step of `unquote` reads back what the encoder wrote for one rune. -/
theorem unquoteStep_escape (r : Nat) (rest : List Nat) :
    ∃ c cs, jsonEscapeRune r ++ rest = c :: cs ∧ c ≠ 34 ∧
      unquoteStep (c :: cs) = some (jsonEscapeRune r, r, rest) := by
  unfold jsonEscapeRune
  split_ifs with h1 h2 h3 h4 h5 h6 h7 h8
  · refine ⟨92, r :: rest, rfl, by decide, ?_⟩
    have : ¬ r = 117 := by omega
    have h1' : r = 34 ∨ r = 92 ∨ r = 47 := by omega
    simp [unquoteStep, this, h1']
  · subst h2; exact ⟨92, 98 :: rest, rfl, by decide, by simp [unquoteStep]⟩
  · subst h3; exact ⟨92, 102 :: rest, rfl, by decide, by simp [unquoteStep]⟩
  · subst h4; exact ⟨92, 110 :: rest, rfl, by decide, by simp [unquoteStep]⟩
  · subst h5; exact ⟨92, 114 :: rest, rfl, by decide, by simp [unquoteStep]⟩
  · subst h6; exact ⟨92, 116 :: rest, rfl, by decide, by simp [unquoteStep]⟩
  · refine ⟨92, _, rfl, by decide, ?_⟩
    have hh : hex4 48 48 (hexChar (r / 16)) (hexChar (r % 16)) = some r := by
      unfold hex4
      rw [hexVal_hexChar _ (by omega), hexVal_hexChar _ (by omega)]
      simp [hexVal]
      omega
    have hs : ¬ (0xD800 ≤ r ∧ r < 0xE000) := by omega
    simp [unquoteStep, hh, hs]
  · refine ⟨92, _, rfl, by decide, ?_⟩
    have hh : hex4 50 48 50 (hexChar (r % 16)) = some r := by
      unfold hex4
      rw [hexVal_hexChar _ (by omega)]
      simp [hexVal]
      omega
    have hs : ¬ (0xD800 ≤ r ∧ r < 0xE000) := by omega
    simp [unquoteStep, hh, hs]
  · refine ⟨r, rest, rfl, by omega, ?_⟩
    exact unquoteStep_plain r rest (by omega) (by omega)

theorem parseStringBodyAux_escape (rs rest : List Nat) :
    ∀ fuel, rs.length + 1 ≤ fuel →
      parseStringBodyAux fuel (jsonEscape rs ++ 34 :: rest) = some (jsonEscape rs, rs, rest) := by
  induction rs with
  | nil =>
    intro fuel hf
    obtain ⟨fuel, rfl⟩ : ∃ k, fuel = k + 1 := ⟨fuel - 1, by omega⟩
    simp [jsonEscape, parseStringBodyAux]
  | cons r rs ih =>
    intro fuel hf
    obtain ⟨fuel, rfl⟩ : ∃ k, fuel = k + 1 := ⟨fuel - 1, by omega⟩
    obtain ⟨c, cs, hcs, hc, hstep⟩ := unquoteStep_escape r (jsonEscape rs ++ 34 :: rest)
    simp only [jsonEscape, List.append_assoc]
    rw [hcs]
    simp only [parseStringBodyAux, if_neg hc, hstep]
    rw [ih fuel (by simp at hf; omega)]
    rfl

theorem jsonEscapeRune_pos (r : Nat) : 1 ≤ (jsonEscapeRune r).length := by
  unfold jsonEscapeRune; split_ifs <;> simp

theorem jsonEscape_length (rs : List Nat) : rs.length ≤ (jsonEscape rs).length := by
  induction rs with
  | nil => simp [jsonEscape]
  | cons r rs ih =>
    have := jsonEscapeRune_pos r
    simp only [jsonEscape, List.length_cons, List.length_append]; omega

/-- The string parser reads back what the encoder wrote for a text. -/
theorem parseStringBody_escape (rs rest : List Nat) :
    parseStringBody (jsonEscape rs ++ 34 :: rest) = some (jsonEscape rs, rs, rest) := by
  unfold parseStringBody
  apply parseStringBodyAux_escape
  have := jsonEscape_length rs
  simp only [List.length_append, List.length_cons]; omega

theorem parseStringBodyAux_plain (p rest : List Nat) (hp : ∀ c ∈ p, 32 ≤ c ∧ c ≠ 34 ∧ c ≠ 92) :
    ∀ fuel, p.length + 1 ≤ fuel →
      parseStringBodyAux fuel (p ++ 34 :: rest) = some (p, p, rest) := by
  induction p with
  | nil =>
    intro fuel hf
    obtain ⟨fuel, rfl⟩ : ∃ k, fuel = k + 1 := ⟨fuel - 1, by omega⟩
    simp [parseStringBodyAux]
  | cons c p ih =>
    intro fuel hf
    obtain ⟨fuel, rfl⟩ : ∃ k, fuel = k + 1 := ⟨fuel - 1, by omega⟩
    obtain ⟨h1, h2, h3⟩ := hp c (by simp)
    simp only [List.cons_append, parseStringBodyAux, if_neg h2, unquoteStep_plain c _ h1 h3,
      List.append_eq]
    rw [ih (fun x hx => hp x (by simp [hx])) fuel (by simp at hf; omega)]
    rfl

/-- The string parser on a text that needs no escape. -/
theorem parseStringBody_plain (p rest : List Nat) (hp : ∀ c ∈ p, 32 ≤ c ∧ c ≠ 34 ∧ c ≠ 92) :
    parseStringBody (p ++ 34 :: rest) = some (p, p, rest) := by
  unfold parseStringBody
  apply parseStringBodyAux_plain p rest hp
  simp only [List.length_append, List.length_cons]; omega

theorem jsonEscapeRune_valid (r : Nat) (h : validRune r) : ∀ c ∈ jsonEscapeRune r, validRune c := by
  intro c hc
  unfold validRune at h ⊢
  unfold jsonEscapeRune at hc
  have hx : ∀ n, n < 16 → hexChar n < 128 := by intro n hn; unfold hexChar; split_ifs <;> omega
  split_ifs at hc <;>
    simp only [List.mem_cons, List.mem_singleton, List.not_mem_nil, or_false] at hc
  · rcases hc with rfl | rfl <;> omega
  · rcases hc with rfl | rfl <;> omega
  · rcases hc with rfl | rfl <;> omega
  · rcases hc with rfl | rfl <;> omega
  · rcases hc with rfl | rfl <;> omega
  · rcases hc with rfl | rfl <;> omega
  · have := hx (r / 16) (by omega); have := hx (r % 16) (by omega)
    rcases hc with rfl | rfl | rfl | rfl | rfl | rfl <;> omega
  · have := hx (r % 16) (by omega)
    rcases hc with rfl | rfl | rfl | rfl | rfl | rfl <;> omega
  · subst hc; exact h

theorem jsonEscape_valid (rs : List Nat) (h : ∀ r ∈ rs, validRune r) :
    ∀ c ∈ jsonEscape rs, validRune c := by
  induction rs with
  | nil => intro c hc; simp [jsonEscape] at hc
  | cons r rs ih =>
    intro c hc
    simp only [jsonEscape, List.mem_append] at hc
    rcases hc with hc | hc
    · exact jsonEscapeRune_valid r (h r (by simp)) c hc
    · exact ih (fun x hx => h x (by simp [hx])) c hc
theorem skipWs_cons (c : Nat) (cs : List Nat) (h : ¬ (c = 32 ∨ c = 9 ∨ c = 10 ∨ c = 13)) :
    skipWs (c :: cs) = c :: cs := by
  simp only [skipWs, if_neg h]

theorem runes_open : runes "\x7b\"created_at\":\"" =
    [123, 34, 99, 114, 101, 97, 116, 101, 100, 95, 97, 116, 34, 58, 34] := by decide

theorem runes_mid : runes "\",\"id\":\"" = [34, 44, 34, 105, 100, 34, 58, 34] := by decide

theorem runes_close : runes "\"\x7d" = [34, 125] := by decide

theorem runes_created_at : runes "created_at" = [99, 114, 101, 97, 116, 101, 100, 95, 97, 116] := by
  decide

theorem runes_id : runes "id" = [105, 100] := by decide

/-- The value parser on a string literal. -/
theorem parseValue_string (d : Nat) (raw val rest cs : List Nat)
    (h : parseStringBody cs = some (raw, val, rest)) :
    parseValue d (34 :: cs) = some (JVal.str raw val, rest) := by
  unfold parseValue
  simp [skipWs, h]

/-- The parser on the text `json.Marshal` writes for a cursor. -/
theorem parseJSON_cursor (ts idr : List Nat) (hts : ∀ c ∈ ts, 32 ≤ c ∧ c ≠ 34 ∧ c ≠ 92) :
    parseJSON (runes "\x7b\"created_at\":\"" ++ ts ++ runes "\",\"id\":\"" ++ jsonEscape idr
        ++ runes "\"\x7d") =
      some (JVal.obj [(runes "created_at", JVal.str ts ts),
                      (runes "id", JVal.str (jsonEscape idr) idr)]) := by
  rw [runes_open, runes_mid, runes_close, runes_created_at, runes_id]
  have hk1 : ∀ rest, parseStringBody ([99, 114, 101, 97, 116, 101, 100, 95, 97, 116] ++ 34 :: rest)
      = some ([99, 114, 101, 97, 116, 101, 100, 95, 97, 116],
              [99, 114, 101, 97, 116, 101, 100, 95, 97, 116], rest) :=
    fun rest => parseStringBody_plain _ rest (by decide)
  have hk2 : ∀ rest, parseStringBody ([105, 100] ++ 34 :: rest) = some ([105, 100], [105, 100], rest) :=
    fun rest => parseStringBody_plain _ rest (by decide)
  have hv1 : ∀ rest, parseValue 9999 (34 :: (ts ++ 34 :: rest)) = some (JVal.str ts ts, rest) :=
    fun rest => parseValue_string _ _ _ _ _ (parseStringBody_plain ts rest hts)
  have hv2 : ∀ rest, parseValue 9999 (34 :: (jsonEscape idr ++ 34 :: rest)) =
      some (JVal.str (jsonEscape idr) idr, rest) :=
    fun rest => parseValue_string _ _ _ _ _ (parseStringBody_escape idr rest)
  simp only [List.cons_append, List.nil_append, List.append_assoc] at hk1 hk2 ⊢
  unfold parseJSON
  have h10 : (10000 : Nat) = 9999 + 1 := rfl
  rw [h10]
  unfold parseValue
  simp only [skipWs_cons 123 _ (by decide), skipWs_cons 34 _ (by decide)]
  simp only [List.length_cons, parseMembers, skipWs_cons 34 _ (by decide),
    skipWs_cons 58 _ (by decide), skipWs_cons 44 _ (by decide), hk1, hk2, hv1, hv2]
  simp [skipWs]
/-! ## The cursor codec: claims -/

theorem jsonMarshalCursor_ok (c : Cursor) (he : c.CreatedAt.Encodable) :
    jsonMarshalCursor c = .ok (runes "\x7b\"created_at\":\"" ++ c.CreatedAt.appendFormatRFC3339 ++
      runes "\",\"id\":\"" ++ jsonEscape (runes c.ID) ++ runes "\"\x7d") := by
  simp only [jsonMarshalCursor, appendStrictRFC3339_ok _ he, cursorText]

theorem marshal_text_valid (c : Cursor) :
    ∀ r ∈ runes "\x7b\"created_at\":\"" ++ c.CreatedAt.appendFormatRFC3339 ++
      runes "\",\"id\":\"" ++ jsonEscape (runes c.ID) ++ runes "\"\x7d", validRune r := by
  intro r hr
  simp only [List.mem_append] at hr
  have hlit : ∀ s : String, ∀ x ∈ runes s, validRune x := validRune_runes
  rcases hr with (((hr | hr) | hr) | hr) | hr
  · exact hlit _ r hr
  · have := appendFormatRFC3339_plain c.CreatedAt r hr
    left; omega
  · exact hlit _ r hr
  · exact jsonEscape_valid _ (validRune_runes c.ID) r hr
  · exact hlit _ r hr

/-- Function `json.Unmarshal` reads back what `json.Marshal` wrote for a cursor. -/
theorem jsonUnmarshalCursor_marshal (c : Cursor) (hv : c.CreatedAt.Valid)
    (he : c.CreatedAt.Encodable) :
    jsonUnmarshalCursor (utf8Encode (runes "\x7b\"created_at\":\"" ++
      c.CreatedAt.appendFormatRFC3339 ++ runes "\",\"id\":\"" ++ jsonEscape (runes c.ID) ++
      runes "\"\x7d")) = some c := by
  unfold jsonUnmarshalCursor
  rw [utf8DecodeLossy_encode _ (marshal_text_valid c)]
  rw [parseJSON_cursor _ _ (fun x hx => by
    have := appendFormatRFC3339_plain c.CreatedAt x hx
    omega)]
  have h1 : cursorField (runes "created_at") = some true := by decide
  have h2 : cursorField (runes "id") = some false := by decide
  simp only [storeMembers, h1, h2, parseRFC3339_format _ hv he, ofRunes_runes]

theorem b64EncodeToString_ne_empty (b : Nat) (bs : List Nat) :
    b64EncodeToString (b :: bs) ≠ "" := by
  unfold b64EncodeToString ofRunes
  intro h
  have h' := congrArg String.data h
  rcases bs with _ | ⟨b1, _ | ⟨b2, rest⟩⟩ <;> simp [b64EncodeRunes] at h'

/-- Function `DecodeCursor` reads back what `EncodeCursor` wrote, for a valid time whose
year and zone offset RFC 3339 can express. -/
theorem DecodeCursor_EncodeCursor (c : Cursor) (hv : c.CreatedAt.Valid)
    (he : c.CreatedAt.Encodable) :
    ∃ s, EncodeCursor c = .ok s ∧ DecodeCursor s = .ok (some c) ∧
      encodeThenDecode c = .ok (some c) := by
  have hm := jsonMarshalCursor_ok c he
  have henc : EncodeCursor c = .ok (b64EncodeToString (utf8Encode
      (runes "\x7b\"created_at\":\"" ++ c.CreatedAt.appendFormatRFC3339 ++
        runes "\",\"id\":\"" ++ jsonEscape (runes c.ID) ++ runes "\"\x7d"))) := by
    simp only [EncodeCursor, hm]
  have hdec : DecodeCursor (b64EncodeToString (utf8Encode
      (runes "\x7b\"created_at\":\"" ++ c.CreatedAt.appendFormatRFC3339 ++
        runes "\",\"id\":\"" ++ jsonEscape (runes c.ID) ++ runes "\"\x7d"))) = .ok (some c) := by
    have hne : b64EncodeToString (utf8Encode
      (runes "\x7b\"created_at\":\"" ++ c.CreatedAt.appendFormatRFC3339 ++
        runes "\",\"id\":\"" ++ jsonEscape (runes c.ID) ++ runes "\"\x7d")) ≠ "" := by
      rw [runes_open]
      simp only [List.cons_append, utf8Encode]
      have : utf8EncodeRune 123 = [123] := by decide
      rw [this]
      exact b64EncodeToString_ne_empty _ _
    unfold DecodeCursor
    rw [if_neg hne, b64DecodeString_encode _ (utf8Encode_lt _ (marshal_text_valid c))]
    simp only [jsonUnmarshalCursor_marshal c hv he]
  refine ⟨_, henc, hdec, ?_⟩
  simp only [encodeThenDecode, henc, hdec]

/-- C4 (as amended). Cursor round trip: for every cursor whose created-at has a
year in `[0, 9999]` and a zone offset that is a whole number of minutes, below
24 hours, `EncodeCursor` succeeds and `DecodeCursor` of the result succeeds and
returns a cursor equal to the original: the same reading and zone, hence the
same instant to the nanosecond, and the same id. -/
theorem C4_cursor_round_trip (c : Cursor) (hv : c.CreatedAt.Valid)
    (he : c.CreatedAt.Encodable) :
    ∃ s, EncodeCursor c = .ok s ∧ DecodeCursor s = .ok (some c) ∧
      encodeThenDecode c = .ok (some c) ∧
      (∀ c', DecodeCursor s = .ok (some c') →
        c'.CreatedAt.unixNano = c.CreatedAt.unixNano ∧ c'.ID = c.ID) := by
  obtain ⟨s, h1, h2, h3⟩ := DecodeCursor_EncodeCursor c hv he
  refine ⟨s, h1, h2, h3, ?_⟩
  intro c' hc'
  rw [h2] at hc'
  cases hc'
  exact ⟨rfl, rfl⟩

/-- The sample cursor goes through the codec unchanged. -/
theorem C4_cursor_round_trip_witness :
    sampleCursor.CreatedAt.Valid ∧ sampleCursor.CreatedAt.Encodable ∧
      encodeThenDecode sampleCursor = .ok (some sampleCursor) :=
  ⟨by decide, by decide,
    (C4_cursor_round_trip sampleCursor (by decide) (by decide)).elim (fun _ h => h.2.2.1)⟩

set_option maxRecDepth 100000 in
/-- C4 (as stated) fails: a cursor of the year 10000 is not encoded at all
(`EncodeCursor` returns an error, so there is no round trip), and a cursor read
in a zone thirty seconds off UTC comes back 30 seconds later, because RFC 3339
writes the zone in whole minutes. -/
theorem C4_cursor_round_trip_counterexample :
    farCursor.CreatedAt.Valid ∧
    (¬ ∃ s, EncodeCursor farCursor = .ok s ∧ DecodeCursor s = .ok (some farCursor)) ∧
    oddZoneCursor.CreatedAt.Valid ∧
    (∃ s c', EncodeCursor oddZoneCursor = .ok s ∧ DecodeCursor s = .ok (some c') ∧
      c'.CreatedAt.unixNano = oddZoneCursor.CreatedAt.unixNano + 30000000000) := by
  refine ⟨by decide, ?_, by decide, ?_⟩
  · rintro ⟨s, hs, _⟩
    have : EncodeCursor farCursor = .error (.wrap "encode cursor: %w"
        (.wrap "json: error calling MarshalJSON for type time.Time: %w"
          (.lib "Time.MarshalJSON: year outside of range [0,9999]"))) := by decide
    rw [this] at hs
    cases hs
  · refine ⟨"eyJjcmVhdGVkX2F0IjoiMjAyNC0wMS0wMVQwMDowMDowMCswMDowMCIsImlkIjoiYSJ9",
      { CreatedAt := sampleTime, ID := "a" }, by decide, by decide, by decide⟩
/-- Every error `DecodeCursor` returns is `ErrInvalidCursor`. -/
theorem DecodeCursor_error_is (s : String) (e : GoError) (h : DecodeCursor s = .error e) :
    e.is ErrInvalidCursor = true := by
  unfold DecodeCursor at h
  split_ifs at h
  split at h
  · cases h; decide
  · split at h
    · cases h; decide
    · cases h

/-- C5. `DecodeCursor("")` is "no cursor" without an error; for a non-empty
string whose base64 decoding fails, or whose decoded bytes `json.Unmarshal`
does not decode into a cursor, `DecodeCursor` returns no cursor and an error
that is `ErrInvalidCursor`, and `History` (of the repository and of the
service) returns an error that is still `ErrInvalidCursor`. -/
theorem C5_invalid_cursor (s : String) (hs : s ≠ "")
    (hbad : b64DecodeString s = none ∨
      ∃ data, b64DecodeString s = some data ∧ jsonUnmarshalCursor data = none) :
    DecodeCursor "" = .ok none ∧
    (∃ e, DecodeCursor s = .error e ∧ e.is ErrInvalidCursor = true) ∧
    (∀ (db : DB) (roomID : String) (limit : Int),
      ∃ e, ChatRepository.History db roomID s limit = .error e ∧
        ChatService.History db roomID s limit = .error e ∧ e.is ErrInvalidCursor = true) := by
  have hdec : ∃ e, DecodeCursor s = .error e ∧ e.is ErrInvalidCursor = true := by
    rcases hbad with h | ⟨data, h1, h2⟩
    · exact ⟨.wrapWith "%w: decode base64: %v" ErrInvalidCursor (.lib "illegal base64 data"),
        by simp only [DecodeCursor, if_neg hs, h], by decide⟩
    · exact ⟨.wrapWith "%w: decode json: %v" ErrInvalidCursor (.lib "json error"),
        by simp only [DecodeCursor, if_neg hs, h1, h2], by decide⟩
  refine ⟨by decide, hdec, ?_⟩
  intro db roomID limit
  obtain ⟨e, he, his⟩ := hdec
  refine ⟨.wrap "decode cursor: %w" e, ?_, ?_, ?_⟩
  · simp only [ChatRepository.History, he]
  · simp only [ChatService.History, ChatRepository.History, he]
  · simp only [GoError.is, his, Bool.or_true]

/-- The string `!!not-b64!!` is refused as an invalid cursor. -/
theorem C5_invalid_cursor_witness :
    ∃ e, DecodeCursor "!!not-b64!!" = .error e ∧ e.is ErrInvalidCursor = true :=
  (C5_invalid_cursor "!!not-b64!!" (by decide) (Or.inl (by decide))).2.1

theorem b64Vals_none_of_mem (cs : List Nat) (ch : Nat) (hmem : ch ∈ cs) (hv : b64Val ch = none) :
    b64Vals cs = none := by
  induction cs with
  | nil => simp at hmem
  | cons c cs ih =>
    rcases List.mem_cons.1 hmem with rfl | h
    · simp only [b64Vals, hv]
    · simp only [b64Vals, ih h]
      cases b64Val c <;> rfl

set_option maxRecDepth 100000 in
/-- C6 (as stated) fails: changing the last character of the encoding of the
sample cursor from `Q` to `R` gives a different string that `DecodeCursor`
accepts (it decodes to the very same cursor: the changed bits are the unused
low bits of the last base64 character), and replacing the encoding by that of
another cursor is accepted as well. -/
theorem C6_modified_cursor_counterexample :
    EncodeCursor sampleCursor =
      .ok "eyJjcmVhdGVkX2F0IjoiMjAyNC0wMS0wMVQwMDowMDowMFoiLCJpZCI6ImEifQ" ∧
    "eyJjcmVhdGVkX2F0IjoiMjAyNC0wMS0wMVQwMDowMDowMFoiLCJpZCI6ImEifR" ≠
      "eyJjcmVhdGVkX2F0IjoiMjAyNC0wMS0wMVQwMDowMDowMFoiLCJpZCI6ImEifQ" ∧
    DecodeCursor "eyJjcmVhdGVkX2F0IjoiMjAyNC0wMS0wMVQwMDowMDowMFoiLCJpZCI6ImEifR" =
      .ok (some sampleCursor) ∧
    DecodeCursor "eyJjcmVhdGVkX2F0IjoiMjAyNC0wMS0wMVQwMDowMDowMFoiLCJpZCI6ImIifQ" =
      .ok (some { CreatedAt := sampleTime, ID := "b" }) := by
  refine ⟨by decide, by decide, by decide, by decide⟩

/-- C6 (as amended). A string that holds a character outside the URL-safe
base64 alphabet, line feed and carriage return apart (so any modification of an
encoding that brings in such a character), makes `DecodeCursor` fail with an
error that is `ErrInvalidCursor`; and whatever the string, an error of
`DecodeCursor` is `ErrInvalidCursor`. A modification that leaves the string
well-formed is accepted: the encoding carries no integrity check. -/
theorem C6_modified_cursor (s : String)
    (hbad : ∃ ch ∈ runes s, ch ≠ 10 ∧ ch ≠ 13 ∧ b64Val ch = none) :
    (∃ e, DecodeCursor s = .error e ∧ e.is ErrInvalidCursor = true) ∧
    (∀ (s' : String) (e : GoError), DecodeCursor s' = .error e → e.is ErrInvalidCursor = true) := by
  refine ⟨?_, DecodeCursor_error_is⟩
  obtain ⟨ch, hmem, h10, h13, hv⟩ := hbad
  have hs : s ≠ "" := by
    rintro rfl
    simp [runes] at hmem
  have hnone : b64DecodeString s = none := by
    unfold b64DecodeString
    rw [b64Vals_none_of_mem _ ch (by
      simp only [List.mem_filter, hmem, true_and, Bool.and_eq_true, bne_iff_ne, ne_eq]
      exact ⟨h10, h13⟩) hv]
  exact ⟨.wrapWith "%w: decode base64: %v" ErrInvalidCursor (.lib "illegal base64 data"),
    by simp only [DecodeCursor, if_neg hs, hnone], by decide⟩

set_option maxRecDepth 100000 in
/-- The encoding of the sample cursor with its last character replaced by `!`. -/
theorem C6_modified_cursor_witness :
    ∃ e, DecodeCursor "eyJjcmVhdGVkX2F0IjoiMjAyNC0wMS0wMVQwMDowMDowMFoiLCJpZCI6ImEif!" = .error e ∧
      e.is ErrInvalidCursor = true :=
  (C6_modified_cursor "eyJjcmVhdGVkX2F0IjoiMjAyNC0wMS0wMVQwMDowMDowMFoiLCJpZCI6ImEif!"
    ⟨33, by decide, by decide, by decide, by decide⟩).1
/-! ## Pagination: the order of rows -/

theorem rowBelow_iff (t : Int) (id : String) (t' : Int) (id' : String) :
    rowBelow t id t' id' ↔ rowKey t id < rowKey t' id' := by
  unfold rowBelow rowKey
  rw [Prod.Lex.lt_iff]

theorem msgDesc_iff (a b : ChatMessage) : msgDesc a b ↔ b.key ≤ a.key := by
  unfold msgDesc ChatMessage.key
  rw [rowBelow_iff, not_lt]

theorem roomDesc_iff (a b : Room) : roomDesc a b ↔ b.key ≤ a.key := by
  unfold roomDesc Room.key
  rw [rowBelow_iff, not_lt]

instance : IsTotal ChatMessage msgDesc :=
  ⟨fun a b => by rw [msgDesc_iff, msgDesc_iff]; exact le_total _ _⟩

instance : IsTrans ChatMessage msgDesc :=
  ⟨fun a b c h1 h2 => by rw [msgDesc_iff] at *; exact le_trans h2 h1⟩

instance : IsTotal Room roomDesc :=
  ⟨fun a b => by rw [roomDesc_iff, roomDesc_iff]; exact le_total _ _⟩

instance : IsTrans Room roomDesc :=
  ⟨fun a b c h1 h2 => by rw [roomDesc_iff] at *; exact le_trans h2 h1⟩

theorem historyQuery_subset (db : DB) (roomID : String) (cur : Option Cursor) (limit : Nat) :
    ∀ m ∈ historyQuery db roomID cur limit, m ∈ db.messages ∧ m.RoomID = roomID := by
  intro m hm
  unfold historyQuery at hm
  have h1 := List.mem_of_mem_take hm
  rw [List.mem_insertionSort] at h1
  simp only [List.mem_filter, Bool.and_eq_true, beq_iff_eq] at h1
  exact ⟨h1.1, h1.2.1⟩

theorem listQuery_subset (db : DB) (cur : Option Cursor) (limit : Nat) :
    ∀ rm ∈ listQuery db cur limit, rm ∈ db.rooms := by
  intro m hm
  unfold listQuery at hm
  have h1 := List.mem_of_mem_take hm
  rw [List.mem_insertionSort] at h1
  exact (List.mem_filter.1 h1).1

theorem historyLimit_pos (limit : Int) : 1 ≤ historyLimit limit ∧ historyLimit limit ≤ 100 := by
  unfold historyLimit; split_ifs <;> omega

theorem listLimit_pos (limit : Int) : 1 ≤ listLimit limit ∧ listLimit limit ≤ 50 := by
  unfold listLimit; split_ifs <;> omega

/-- The encoding of a cursor is not the empty string. -/
theorem EncodeCursor_ne_empty (c : Cursor) (s : String) (h : EncodeCursor c = .ok s) : s ≠ "" := by
  unfold EncodeCursor at h
  split at h
  · cases h
  · rename_i data hdata
    cases h
    unfold jsonMarshalCursor at hdata
    split at hdata
    · cases hdata
    · cases hdata
      rw [cursorText, runes_open]
      simp only [List.cons_append, utf8Encode]
      have : utf8EncodeRune 123 = [123] := by decide
      rw [this]
      exact b64EncodeToString_ne_empty _ _

/-- The next-cursor of a page of `History` whose rows can be encoded. -/
theorem historyNext_spec (out : List ChatMessage) (limit : Nat) (hpos : 1 ≤ limit)
    (henc : ∀ m ∈ out, m.CreatedAt.Valid ∧ m.CreatedAt.Encodable) :
    (historyNext out limit ≠ "" ↔ out.length = limit) ∧
    (out.length = limit → ∃ last, out.getLast? = some last ∧
      DecodeCursor (historyNext out limit) =
        .ok (some { CreatedAt := last.CreatedAt, ID := last.ID })) ∧
    (out.length ≠ limit → historyNext out limit = "") := by
  by_cases hlen : out.length = limit
  · have hne : out ≠ [] := by
      intro h; rw [h] at hlen; simp at hlen; omega
    obtain ⟨last, hlast⟩ : ∃ last, out.getLast? = some last :=
      ⟨out.getLast hne, List.getLast?_eq_getLast _ hne⟩
    have hmem : last ∈ out := List.mem_of_getLast?_eq_some hlast
    obtain ⟨s, hs, hd, _⟩ := DecodeCursor_EncodeCursor
      { CreatedAt := last.CreatedAt, ID := last.ID } (henc last hmem).1 (henc last hmem).2
    have hnext : historyNext out limit = s := by
      simp only [historyNext, if_pos hlen, hlast, hs]
    refine ⟨?_, ?_, fun h => absurd hlen h⟩
    · rw [hnext]
      exact ⟨fun _ => hlen, fun _ => EncodeCursor_ne_empty _ _ hs⟩
    · intro _
      exact ⟨last, hlast, by rw [hnext]; exact hd⟩
  · have hnext : historyNext out limit = "" := by simp only [historyNext, if_neg hlen]
    refine ⟨?_, fun h => absurd h hlen, fun _ => hnext⟩
    rw [hnext]
    exact ⟨fun h => absurd rfl h, fun h => absurd h hlen⟩

/-- The next-cursor of a page of `List` whose rows can be encoded. -/
theorem listNext_spec (rooms : List Room) (limit : Nat) (hpos : 1 ≤ limit)
    (henc : ∀ rm ∈ rooms, rm.CreatedAt.Valid ∧ rm.CreatedAt.Encodable) :
    (listNext rooms limit ≠ "" ↔ rooms.length = limit) ∧
    (rooms.length = limit → ∃ last, rooms.getLast? = some last ∧
      DecodeCursor (listNext rooms limit) =
        .ok (some { CreatedAt := last.CreatedAt, ID := last.ID })) ∧
    (rooms.length ≠ limit → listNext rooms limit = "") := by
  by_cases hlen : rooms.length = limit
  · have hne : rooms ≠ [] := by
      intro h; rw [h] at hlen; simp at hlen; omega
    obtain ⟨last, hlast⟩ : ∃ last, rooms.getLast? = some last :=
      ⟨rooms.getLast hne, List.getLast?_eq_getLast _ hne⟩
    have hmem : last ∈ rooms := List.mem_of_getLast?_eq_some hlast
    obtain ⟨s, hs, hd, _⟩ := DecodeCursor_EncodeCursor
      { CreatedAt := last.CreatedAt, ID := last.ID } (henc last hmem).1 (henc last hmem).2
    have hnext : listNext rooms limit = s := by
      simp only [listNext, if_pos hlen, hlast, hs]
    refine ⟨?_, ?_, fun h => absurd hlen h⟩
    · rw [hnext]
      exact ⟨fun _ => hlen, fun _ => EncodeCursor_ne_empty _ _ hs⟩
    · intro _
      exact ⟨last, hlast, by rw [hnext]; exact hd⟩
  · have hnext : listNext rooms limit = "" := by simp only [listNext, if_neg hlen]
    refine ⟨?_, fun h => absurd h hlen, fun _ => hnext⟩
    rw [hnext]
    exact ⟨fun h => absurd rfl h, fun h => absurd h hlen⟩

/-- C7 (as amended). Next-cursor of `History` and `ListRooms`, for a database
whose row timestamps can be encoded (year in `[0, 9999]`, zone offset of whole
minutes): a call that succeeds returns a non-empty next-cursor if and only if
the page holds exactly the effective limit of rows, in that case the
next-cursor decodes to the `(createdAt, id)` of the last row of the page, and
otherwise the next-cursor is the empty string. -/
theorem C7_next_cursor (db : DB)
    (hm : ∀ m ∈ db.messages, m.CreatedAt.Valid ∧ m.CreatedAt.Encodable)
    (hr : ∀ rm ∈ db.rooms, rm.CreatedAt.Valid ∧ rm.CreatedAt.Encodable) :
    (∀ (roomID after : String) (limit : Int) (out : List ChatMessage) (next : String),
      ChatService.History db roomID after limit = .ok (out, next) →
        (next ≠ "" ↔ out.length = historyLimit limit) ∧
        (out.length = historyLimit limit → ∃ last, out.getLast? = some last ∧
          DecodeCursor next = .ok (some { CreatedAt := last.CreatedAt, ID := last.ID })) ∧
        (out.length ≠ historyLimit limit → next = "")) ∧
    (∀ (limit : Int) (cursor : String) (rooms : List Room) (next : String),
      RoomService.ListRooms db limit cursor = .ok (rooms, next) →
        (next ≠ "" ↔ rooms.length = listLimit limit) ∧
        (rooms.length = listLimit limit → ∃ last, rooms.getLast? = some last ∧
          DecodeCursor next = .ok (some { CreatedAt := last.CreatedAt, ID := last.ID })) ∧
        (rooms.length ≠ listLimit limit → next = "")) := by
  constructor
  · intro roomID after limit out next h
    simp only [ChatService.History, ChatRepository.History] at h
    split at h
    · cases h
    · rename_i cur hcur
      cases h
      exact historyNext_spec _ _ (historyLimit_pos limit).1
        (fun m hmem => hm m (historyQuery_subset db roomID cur _ m hmem).1)
  · intro limit cursor rooms next h
    simp only [RoomService.ListRooms, RoomRepository.List] at h
    split at h
    · cases h
    · rename_i cur hcur
      cases h
      exact listNext_spec _ _ (listLimit_pos limit).1
        (fun rm hmem => hr rm (listQuery_subset db cur _ rm hmem))

set_option maxRecDepth 100000 in
/-- A full page of one message comes with a next-cursor that is not empty and
decodes to the row. -/
theorem C7_next_cursor_witness :
    ChatService.History oneMessageDB "r" "" 1 = .ok ([sampleMessage], "eyJjcmVhdGVkX2F0IjoiMjAyNC0wMS0wMVQwMDowMDowMFoiLCJpZCI6Im0xIn0") ∧
    ("eyJjcmVhdGVkX2F0IjoiMjAyNC0wMS0wMVQwMDowMDowMFoiLCJpZCI6Im0xIn0" ≠ "" ↔ [sampleMessage].length = historyLimit 1) :=
  ⟨by decide,
   ((C7_next_cursor oneMessageDB (by decide) (by decide)).1 "r" "" 1 [sampleMessage]
      "eyJjcmVhdGVkX2F0IjoiMjAyNC0wMS0wMVQwMDowMDowMFoiLCJpZCI6Im0xIn0" (by decide)).1⟩

set_option maxRecDepth 100000 in
/-- C7 (as stated) fails: with limit 1 the first page of room `r` of `farDB`
holds exactly one row, the message of the year 10000, and yet the next-cursor
is empty, because `EncodeCursor` fails on that row and the error is dropped;
the same happens to `ListRooms` on a room created in the year 10000. -/
theorem C7_next_cursor_counterexample :
    ChatService.History farDB "r" "" 1 = .ok ([farMessage], "") ∧
    [farMessage].length = historyLimit 1 ∧
    RoomService.ListRooms
      { rooms := [{ sampleRoom with CreatedAt := { sampleTime with year := 10000 } }],
        participants := [], messages := [] } 1 "" =
      .ok ([{ sampleRoom with CreatedAt := { sampleTime with year := 10000 } }], "") := by
  refine ⟨by decide, by decide, by decide⟩
/-! ## Pagination: completeness of the history walk -/

theorem key_eq_iff (a b : ChatMessage) :
    a.key = b.key ↔ a.CreatedAt.unixNano = b.CreatedAt.unixNano ∧ a.ID = b.ID := by
  unfold ChatMessage.key rowKey
  constructor
  · intro h
    have := congrArg ofLex h
    simpa using this
  · rintro ⟨h1, h2⟩; rw [h1, h2]

/-- Two sorted lists of messages with the same rows are the same list, when
ids identify rows. -/
theorem sorted_perm_unique :
    ∀ (l1 l2 : List ChatMessage), l1.Perm l2 → l1.Sorted msgDesc → l2.Sorted msgDesc →
      (∀ a ∈ l1, ∀ b ∈ l1, a.ID = b.ID → a = b) → l1 = l2 := by
  intro l1
  induction l1 with
  | nil => intro l2 hp _ _ _; exact (List.Perm.nil_eq hp)
  | cons a l1 ih =>
    intro l2 hp hs1 hs2 hinj
    cases l2 with
    | nil => exact absurd hp.symm (List.Perm.nil_eq · |> fun h => by simp at h)
    | cons b l2 =>
      have hb : b ∈ a :: l1 := hp.symm.subset (by simp)
      have ha : a ∈ b :: l2 := hp.subset (by simp)
      have h1 : b.key ≤ a.key := by
        rcases List.mem_cons.1 hb with rfl | hb'
        · exact le_refl _
        · exact (msgDesc_iff a b).1 (List.rel_of_sorted_cons hs1 b hb')
      have h2 : a.key ≤ b.key := by
        rcases List.mem_cons.1 ha with rfl | ha'
        · exact le_refl _
        · exact (msgDesc_iff b a).1 (List.rel_of_sorted_cons hs2 a ha')
      have hab : a = b :=
        hinj a (by simp) b hb ((key_eq_iff a b).1 (le_antisymm h2 h1)).2
      subst hab
      have hp' : l1.Perm l2 := List.Perm.cons_inv hp
      rw [ih l2 hp' hs1.of_cons hs2.of_cons
        (fun x hx y hy => hinj x (List.mem_cons_of_mem _ hx) y (List.mem_cons_of_mem _ hy))]

/-- The messages of a room, newest first: what the walk has to produce. -/
theorem roomSorted_facts (db : DB) (roomID : String)
    (hids : (db.messages.map (fun m => m.ID)).Nodup) :
    let S := (db.messages.filter (fun m => m.RoomID == roomID)).insertionSort msgDesc
    S.Sorted msgDesc ∧ S.Perm (db.messages.filter (fun m => m.RoomID == roomID)) ∧ S.Nodup ∧
      (∀ a ∈ S, ∀ b ∈ S, a.ID = b.ID → a = b) ∧ (∀ m ∈ S, m ∈ db.messages ∧ m.RoomID = roomID) := by
  intro S
  have hperm : S.Perm (db.messages.filter (fun m => m.RoomID == roomID)) :=
    List.perm_insertionSort _ _
  have hnd : db.messages.Nodup := List.Nodup.of_map _ hids
  have hmem : ∀ m ∈ S, m ∈ db.messages ∧ m.RoomID = roomID := by
    intro m hm
    have := hperm.subset hm
    simp only [List.mem_filter, beq_iff_eq] at this
    exact this
  refine ⟨List.sorted_insertionSort _ _, hperm, hperm.nodup_iff.2 (hnd.filter _), ?_, hmem⟩
  intro a ha b hb hab
  exact List.inj_on_of_nodup_map hids (hmem a ha).1 (hmem b hb).1 hab

/-- In a sorted list without repeated ids the rows below a row are exactly the
rows after it. -/
theorem filter_below_split (pre suf : List ChatMessage) (x : ChatMessage)
    (hs : (pre ++ x :: suf).Sorted msgDesc) (hnd : (pre ++ x :: suf).Nodup)
    (hinj : ∀ a ∈ pre ++ x :: suf, ∀ b ∈ pre ++ x :: suf, a.ID = b.ID → a = b) :
    (pre ++ x :: suf).filter
      (fun m => afterCursor (some { CreatedAt := x.CreatedAt, ID := x.ID }) m.CreatedAt m.ID)
      = suf := by
  have hpw : (pre ++ x :: suf).Pairwise msgDesc := hs
  rw [List.pairwise_append] at hpw
  obtain ⟨_, hxs, hpre⟩ := hpw
  rw [List.pairwise_cons] at hxs
  have hbelow : ∀ m : ChatMessage,
      afterCursor (some { CreatedAt := x.CreatedAt, ID := x.ID }) m.CreatedAt m.ID = true ↔
        m.key < x.key := by
    intro m
    simp only [afterCursor, decide_eq_true_eq, rowBelow_iff, ChatMessage.key]
  rw [List.filter_append, List.filter_cons]
  have h1 : pre.filter
      (fun m => afterCursor (some { CreatedAt := x.CreatedAt, ID := x.ID }) m.CreatedAt m.ID)
      = [] := by
    rw [List.filter_eq_nil_iff]
    intro m hm
    rw [hbelow]
    have := (msgDesc_iff m x).1 (hpre m hm x (by simp))
    exact not_lt.2 this
  have h2 : ¬ (afterCursor (some { CreatedAt := x.CreatedAt, ID := x.ID }) x.CreatedAt x.ID
      = true) := by
    rw [hbelow]; exact lt_irrefl _
  have h3 : suf.filter
      (fun m => afterCursor (some { CreatedAt := x.CreatedAt, ID := x.ID }) m.CreatedAt m.ID)
      = suf := by
    rw [List.filter_eq_self]
    intro m hm
    rw [hbelow]
    have hle := (msgDesc_iff x m).1 (hxs.1 m hm)
    refine lt_of_le_of_ne hle ?_
    intro hk
    have hid := ((key_eq_iff m x).1 hk).2
    have hmx : m = x := hinj m (by simp [hm]) x (by simp) hid
    subst hmx
    have : (pre ++ m :: suf).Nodup := hnd
    rw [List.nodup_append] at this
    have := (List.nodup_cons.1 this.2.1).1
    exact this hm
  rw [h1, if_neg h2, h3, List.nil_append]

/-- The query of `History` at the cursor of a row returns the rows after it. -/
theorem historyQuery_at_cursor (db : DB) (roomID : String)
    (hids : (db.messages.map (fun m => m.ID)).Nodup) (pre suf : List ChatMessage)
    (x : ChatMessage) (limit : Nat)
    (hS : (db.messages.filter (fun m => m.RoomID == roomID)).insertionSort msgDesc
      = pre ++ x :: suf) :
    historyQuery db roomID (some { CreatedAt := x.CreatedAt, ID := x.ID }) limit
      = suf.take limit := by
  obtain ⟨hsorted, hperm, hnd, hinj, _⟩ := roomSorted_facts db roomID hids
  rw [hS] at hsorted hperm hnd hinj
  unfold historyQuery
  congr 1
  have hff : db.messages.filter (fun m => m.RoomID == roomID &&
        afterCursor (some { CreatedAt := x.CreatedAt, ID := x.ID }) m.CreatedAt m.ID) =
      (db.messages.filter (fun m => m.RoomID == roomID)).filter
        (fun m => afterCursor (some { CreatedAt := x.CreatedAt, ID := x.ID })
          m.CreatedAt m.ID) := by
    rw [List.filter_filter]
    congr 1
    funext m
    exact Bool.and_comm _ _
  rw [hff]
  have hp2 : ((db.messages.filter (fun m => m.RoomID == roomID)).filter
        (fun m => afterCursor (some { CreatedAt := x.CreatedAt, ID := x.ID })
          m.CreatedAt m.ID)).Perm suf := by
    have := (hperm.symm.filter (fun m =>
      afterCursor (some { CreatedAt := x.CreatedAt, ID := x.ID }) m.CreatedAt m.ID))
    rw [filter_below_split pre suf x hsorted hnd hinj] at this
    exact this
  have hsuf_sorted : suf.Sorted msgDesc := by
    have : (pre ++ x :: suf).Pairwise msgDesc := hsorted
    rw [List.pairwise_append] at this
    exact (List.pairwise_cons.1 this.2.1).2
  apply sorted_perm_unique _ _ ((List.perm_insertionSort _ _).trans hp2)
    (List.sorted_insertionSort _ _) hsuf_sorted
  intro a ha b hb
  have ha' : a ∈ suf := hp2.subset ((List.mem_insertionSort _).1 ha)
  have hb' : b ∈ suf := hp2.subset ((List.mem_insertionSort _).1 hb)
  exact hinj a (by simp [ha']) b (by simp [hb'])

theorem historyQuery_none (db : DB) (roomID : String) (limit : Nat) :
    historyQuery db roomID none limit =
      ((db.messages.filter (fun m => m.RoomID == roomID)).insertionSort msgDesc).take limit := by
  unfold historyQuery
  simp [afterCursor]

/-- The walk from a cursor behind which the rows `rem` are left: it ends, and
its pages are `rem` cut into pieces. -/
theorem historyPages_walk (db : DB) (roomID : String) (limit : Int)
    (hids : (db.messages.map (fun m => m.ID)).Nodup)
    (hm : ∀ m ∈ db.messages, m.CreatedAt.Valid ∧ m.CreatedAt.Encodable) :
    ∀ (n : Nat) (pre rem : List ChatMessage) (after : String) (cur : Option Cursor),
      rem.length ≤ n →
      (db.messages.filter (fun m => m.RoomID == roomID)).insertionSort msgDesc = pre ++ rem →
      DecodeCursor after = .ok cur →
      historyQuery db roomID cur (historyLimit limit) = rem.take (historyLimit limit) →
      ∃ pages, pages.flatten = rem ∧ pages.length ≤ rem.length + 1 ∧
        (∀ page ∈ pages, page.length ≤ historyLimit limit) ∧
        ∀ fuel, rem.length + 1 ≤ fuel → historyPages db roomID limit fuel after = some pages := by
  intro n
  induction n with
  | zero =>
    intro pre rem after cur hlen hS hcur hq
    have hrem : rem = [] := List.length_eq_zero.1 (by omega)
    subst hrem
    have hL := (historyLimit_pos limit).1
    refine ⟨[[]], rfl, by simp, by simp, ?_⟩
    intro fuel hf
    obtain ⟨fuel, rfl⟩ : ∃ k, fuel = k + 1 := ⟨fuel - 1, by omega⟩
    have hnext : historyNext ([] : List ChatMessage) (historyLimit limit) = "" := by
      unfold historyNext
      rw [if_neg (by simp; omega)]
    simp only [historyPages, ChatService.History, ChatRepository.History, hcur, hq,
      List.take_nil, hnext, if_true]
  | succ n ih =>
    intro pre rem after cur hlen hS hcur hq
    have hL := (historyLimit_pos limit).1
    obtain ⟨_, _, _, _, hmemS⟩ := roomSorted_facts db roomID hids
    have hremsub : ∀ m ∈ rem, m ∈ db.messages := by
      intro m hmr
      exact (hmemS m (by rw [hS]; simp [hmr])).1
    have hspec := historyNext_spec (rem.take (historyLimit limit)) (historyLimit limit) hL
      (fun m hmt => hm m (hremsub m (List.mem_of_mem_take hmt)))
    have hcall : ChatService.History db roomID after limit =
        .ok (rem.take (historyLimit limit),
          historyNext (rem.take (historyLimit limit)) (historyLimit limit)) := by
      simp only [ChatService.History, ChatRepository.History, hcur, hq]
    by_cases hfull : (rem.take (historyLimit limit)).length = historyLimit limit
    · -- a full page: the walk goes on behind its last row
      obtain ⟨last, hlast, hdec⟩ := hspec.2.1 hfull
      have hne : historyNext (rem.take (historyLimit limit)) (historyLimit limit) ≠ "" :=
        hspec.1.2 hfull
      obtain ⟨init, hinit⟩ := List.getLast?_eq_some_iff.1 hlast
      have hsplit : rem = init ++ last :: rem.drop (historyLimit limit) := by
        conv_lhs => rw [← List.take_append_drop (historyLimit limit) rem, hinit]
        simp
      have hq' := historyQuery_at_cursor db roomID hids (pre ++ init) (rem.drop (historyLimit limit))
        last (historyLimit limit) (by rw [hS, List.append_assoc]; exact congrArg _ hsplit)
      have hlen' : (rem.drop (historyLimit limit)).length ≤ n := by
        rw [List.length_take] at hfull
        rw [List.length_drop]; omega
      obtain ⟨pages, hflat, hcount, hsize, hrun⟩ := ih (pre ++ rem.take (historyLimit limit))
        (rem.drop (historyLimit limit)) _ _ hlen'
        (by rw [hS, List.append_assoc, List.take_append_drop]) hdec hq'
      refine ⟨rem.take (historyLimit limit) :: pages, ?_, ?_, ?_, ?_⟩
      · rw [List.flatten_cons, hflat, List.take_append_drop]
      · rw [List.length_take] at hfull
        rw [List.length_drop] at hcount
        simp only [List.length_cons]; omega
      · intro page hp
        rcases List.mem_cons.1 hp with rfl | hp
        · exact le_of_eq hfull
        · exact hsize page hp
      · intro fuel hf
        obtain ⟨fuel, rfl⟩ : ∃ k, fuel = k + 1 := ⟨fuel - 1, by omega⟩
        have hf' : (rem.drop (historyLimit limit)).length + 1 ≤ fuel := by
          rw [List.length_take] at hfull
          rw [List.length_drop]; omega
        simp only [historyPages, hcall, if_neg hne, hrun fuel hf', Option.map_some']
    · -- a short page: the walk ends
      have hnext := hspec.2.2 hfull
      have hshort : rem.take (historyLimit limit) = rem := by
        apply List.take_of_length_le
        rw [List.length_take] at hfull
        omega
      refine ⟨[rem], by simp, by simp, ?_, ?_⟩
      · intro page hp
        rw [List.mem_singleton] at hp
        subst hp
        rw [← hshort, List.length_take]; omega
      · intro fuel hf
        obtain ⟨fuel, rfl⟩ : ∃ k, fuel = k + 1 := ⟨fuel - 1, by omega⟩
        rw [hshort] at hnext hcall
        simp only [historyPages, hcall, hnext, if_true]

/-- C3 (as amended). Chat history completeness, for a database whose message
ids are unique (the primary key) and whose message timestamps can be encoded
(year in `[0, 9999]`, zone offset of whole minutes): for any requested limit,
calling `History` with the empty cursor and then with each returned
next-cursor until it is empty ends after at most `N + 1` calls, `N` the number
of messages of the room, and the concatenation of the pages is the list of the
room's messages sorted by `(createdAt, id)` descending: every message of the
room exactly once, in strictly descending order, and no message of another
room; no page is longer than the effective limit. -/
theorem C3_history_complete (db : DB) (roomID : String) (limit : Int)
    (hids : (db.messages.map (fun m => m.ID)).Nodup)
    (hm : ∀ m ∈ db.messages, m.CreatedAt.Valid ∧ m.CreatedAt.Encodable) :
    ∃ pages : List (List ChatMessage),
      (∀ fuel, (db.messages.filter (fun m => m.RoomID == roomID)).length + 1 ≤ fuel →
        historyPages db roomID limit fuel "" = some pages) ∧
      pages.length ≤ (db.messages.filter (fun m => m.RoomID == roomID)).length + 1 ∧
      (∀ page ∈ pages, page.length ≤ historyLimit limit) ∧
      pages.flatten = (db.messages.filter (fun m => m.RoomID == roomID)).insertionSort msgDesc ∧
      pages.flatten.Perm (db.messages.filter (fun m => m.RoomID == roomID)) ∧
      pages.flatten.Nodup ∧
      pages.flatten.Pairwise
        (fun a b => rowBelow b.CreatedAt.unixNano b.ID a.CreatedAt.unixNano a.ID) ∧
      (∀ m ∈ pages.flatten, m.RoomID = roomID) ∧
      (∀ m ∈ db.messages, m.RoomID = roomID → m ∈ pages.flatten) := by
  obtain ⟨hsorted, hperm, hnd, hinj, hmem⟩ := roomSorted_facts db roomID hids
  obtain ⟨pages, hflat, hcount, hsize, hrun⟩ := historyPages_walk db roomID limit hids hm
    ((db.messages.filter (fun m : ChatMessage => m.RoomID == roomID)).insertionSort msgDesc).length
    [] ((db.messages.filter (fun m : ChatMessage => m.RoomID == roomID)).insertionSort msgDesc)
    "" none (le_refl _) (List.nil_append _).symm (by decide) (by rw [historyQuery_none])
  rw [List.length_insertionSort] at hcount hrun
  refine ⟨pages, hrun, hcount, hsize, hflat, ?_, ?_, ?_, ?_, ?_⟩
  · rw [hflat]; exact hperm
  · rw [hflat]; exact hnd
  · rw [hflat]
    have hpw : ((db.messages.filter (fun m => m.RoomID == roomID)).insertionSort
        msgDesc).Pairwise msgDesc := hsorted
    have hboth := hpw.and hnd
    refine hboth.imp_of_mem ?_
    intro a b ha hb ⟨hd, hne⟩
    rw [rowBelow_iff]
    have hle := (msgDesc_iff a b).1 hd
    refine lt_of_le_of_ne hle ?_
    intro hk
    exact hne (hinj a ha b hb ((key_eq_iff b a).1 hk).2.symm)
  · intro m hmf
    rw [hflat] at hmf
    exact (hmem m hmf).2
  · intro m hmd hroom
    rw [hflat]
    exact hperm.symm.subset (by simp [List.mem_filter, hmd, hroom])

set_option maxRecDepth 100000 in
/-- The walk over the two messages of `twoMessageDB` with limit 1 ends and
visits both. -/
theorem C3_history_complete_witness :
    ∃ pages, historyPages twoMessageDB "r" 1 3 "" = some pages ∧
      sampleMessage ∈ pages.flatten ∧ laterMessage ∈ pages.flatten :=
  (C3_history_complete twoMessageDB "r" 1 (by decide) (by decide)).elim
    (fun pages h => ⟨pages, h.1 3 (by decide),
      h.2.2.2.2.2.2.2.2 sampleMessage (by decide) rfl,
      h.2.2.2.2.2.2.2.2 laterMessage (by decide) rfl⟩)

set_option maxRecDepth 100000 in
/-- C3 (as stated) fails: in `farDB` room `r` holds two messages; with limit 1
the first page is the message of the year 10000, its next-cursor is empty
because the row cannot be encoded, so the walk ends there and the message of
2024 is never returned. -/
theorem C3_history_complete_counterexample :
    historyPages farDB "r" 1 3 "" = some [[farMessage]] ∧
    sampleMessage ∈ farDB.messages ∧ sampleMessage.RoomID = "r" ∧
    sampleMessage ∉ [[farMessage]].flatten := by
  refine ⟨by decide, by decide, by decide, by decide⟩
/-! ## Credential core: refresh rotation -/

theorem GetByTokenHash_ok {fault : Option GoError} {db : AuthDB} {h : String} {sess : Session}
    (hg : SessionRepo.GetByTokenHash fault db h = .ok sess) :
    fault = none ∧ sess ∈ db.sessions ∧ sess.TokenHash = TrimSpace h ∧
      db.sessions.find? (fun x => x.TokenHash == TrimSpace h) = some sess := by
  unfold SessionRepo.GetByTokenHash at hg
  cases fault with
  | some e => cases hg
  | none =>
    simp only at hg
    split at hg
    · rename_i s hs
      cases hg
      refine ⟨rfl, List.mem_of_find?_eq_some hs, ?_, hs⟩
      have := List.find?_some hs
      simpa using this
    · cases hg

theorem GetByTokenHash_none_of_absent (db : AuthDB) (h : String)
    (habs : ∀ x ∈ db.sessions, x.TokenHash ≠ TrimSpace h) :
    SessionRepo.GetByTokenHash none db h = .error ErrNotFound := by
  unfold SessionRepo.GetByTokenHash
  have : db.sessions.find? (fun x => x.TokenHash == TrimSpace h) = none := by
    rw [List.find?_eq_none]
    intro x hx
    simpa using habs x hx
  simp only [this]

theorem DeleteByID_none (db : AuthDB) (id : Int) :
    (SessionRepo.DeleteByID none db id).1 =
      { db with sessions := db.sessions.filter (fun x => !(x.ID == id)) } := by
  unfold SessionRepo.DeleteByID
  simp only
  split_ifs with h
  · rfl
  · have : db.sessions.filter (fun x => !(x.ID == id)) = db.sessions := by
      rw [List.filter_eq_self]
      intro x hx
      simp only [List.any_eq_true, not_exists, not_and, Bool.not_eq_true] at h
      simp [h x hx]
    rw [this]

theorem DeleteByID_sessions_subset (fault : Option GoError) (db : AuthDB) (id : Int) :
    (∀ x ∈ (SessionRepo.DeleteByID fault db id).1.sessions, x ∈ db.sessions) ∧
    (SessionRepo.DeleteByID fault db id).1.lastSessionID = db.lastSessionID := by
  cases fault with
  | some e => exact ⟨fun x hx => hx, rfl⟩
  | none =>
    rw [DeleteByID_none]
    exact ⟨fun x hx => (List.mem_filter.1 hx).1, rfl⟩

theorem Create_error_db (fault : Option GoError) (db db' : AuthDB) (s : Session) (e : GoError)
    (h : SessionRepo.Create fault db s = (db', .error e)) : db' = db := by
  unfold SessionRepo.Create at h
  cases fault with
  | some e' => simp only at h; cases h; rfl
  | none =>
    simp only at h
    split_ifs at h
    · cases h; rfl
    · cases h

/-- What `Refresh` does once it has found a session that is not expired. -/
theorem Refresh_live (svc : AuthService) (env : RefreshEnv) (db : AuthDB) (token : String)
    (loginMeta : Option LoginMeta) (sess : Session)
    (hfind : SessionRepo.GetByTokenHash env.getFault db (svc.SHA256HexOfString token) = .ok sess)
    (hlive : sess.IsExpired env.now = false) :
    (∀ db' err, svc.issueTokens env db sess.UserID loginMeta (some sess.ID) = (db', .error err) →
      svc.Refresh env db token loginMeta = (db', .error err)) ∧
    (∀ db' access newRefresh,
      svc.issueTokens env db sess.UserID loginMeta (some sess.ID) = (db', .ok (access, newRefresh)) →
      svc.Refresh env db token loginMeta =
        (db', .ok { UserID := sess.UserID, AccessToken := access, RefreshToken := newRefresh })) := by
  constructor
  · intro db' err h
    simp only [AuthService.Refresh, hfind, hlive, Bool.false_eq_true, if_false, h]
  · intro db' a r h
    simp only [AuthService.Refresh, hfind, hlive, Bool.false_eq_true, if_false, h]

theorem issuedSession_fields (ns : Session) (loginMeta : Option LoginMeta) (now : Int) :
    (issuedSession ns loginMeta now).TokenHash = ns.TokenHash ∧
    (issuedSession ns loginMeta now).ExpiresAt = ns.ExpiresAt ∧
    (issuedSession ns loginMeta now).UserID = ns.UserID := by
  unfold issuedSession
  cases loginMeta with
  | none => exact ⟨rfl, rfl, rfl⟩
  | some m =>
    simp only [Session.SetUserAgent, Session.SetIP]
    split_ifs <;> exact ⟨rfl, rfl, rfl⟩

/-- The four ways through `issueTokens`. -/
theorem issueTokens_cases (svc : AuthService) (env : RefreshEnv) (db : AuthDB) (userID : Int)
    (loginMeta : Option LoginMeta) (old : Int) :
    (∃ e, env.signed = .error e ∧
      svc.issueTokens env db userID loginMeta (some old) = (db, .error e)) ∨
    (∃ a e, env.signed = .ok a ∧ env.random = .error e ∧
      svc.issueTokens env db userID loginMeta (some old) = (db, .error e)) ∨
    (∃ a r e, env.signed = .ok a ∧ env.random = .ok r ∧
      NewSession userID (svc.SHA256HexOfString r) (env.issueNow + svc.refreshTTL) env.issueNow
        = .error e ∧
      svc.issueTokens env db userID loginMeta (some old) = (db, .error e)) ∨
    (∃ a r ns, env.signed = .ok a ∧ env.random = .ok r ∧
      NewSession userID (svc.SHA256HexOfString r) (env.issueNow + svc.refreshTTL) env.issueNow
        = .ok ns ∧
      svc.issueTokens env db userID loginMeta (some old) =
        match SessionRepo.Create env.createFault (SessionRepo.DeleteByID env.deleteFault db old).1
            (issuedSession ns loginMeta env.issueNow) with
        | (db2, .error err) => (db2, .error err)
        | (db2, .ok _) => (db2, .ok (a, r))) := by
  cases hsig : env.signed with
  | error e1 =>
    left
    exact ⟨e1, rfl, by simp only [AuthService.issueTokens, hsig]⟩
  | ok access =>
    cases hrand : env.random with
    | error e2 =>
      right; left
      exact ⟨access, e2, rfl, rfl, by simp only [AuthService.issueTokens, hsig, hrand]⟩
    | ok refresh =>
      cases hnew : NewSession userID (svc.SHA256HexOfString refresh)
          (env.issueNow + svc.refreshTTL) env.issueNow with
      | error e3 =>
        right; right; left
        exact ⟨access, refresh, e3, rfl, rfl, hnew,
          by simp only [AuthService.issueTokens, hsig, hrand, hnew]⟩
      | ok ns =>
        right; right; right
        refine ⟨access, refresh, ns, rfl, rfl, hnew, ?_⟩
        unfold AuthService.issueTokens
        rw [hsig, hrand]
        simp only [hnew]
        cases loginMeta <;> rfl

/-- C10 (as amended). Errors of a refresh and the session store: whenever
`Refresh` is called with the token of an existing, unexpired session and
returns an error, no new session exists and no other session is touched; the
store is unchanged when the error comes before the rotation (the signing, the
random source or `NewSession` fails); when the error is that of the insert of
the new session, the store is the one in which the old session has already
been deleted (the delete runs first and its outcome is dropped). -/
theorem C10_refresh_error_store (svc : AuthService) (env : RefreshEnv) (db : AuthDB)
    (token : String) (loginMeta : Option LoginMeta) (sess : Session) (e : GoError)
    (hfind : SessionRepo.GetByTokenHash env.getFault db (svc.SHA256HexOfString token) = .ok sess)
    (hlive : sess.IsExpired env.now = false)
    (herr : (svc.Refresh env db token loginMeta).2 = .error e) :
    (∀ x ∈ (svc.Refresh env db token loginMeta).1.sessions, x ∈ db.sessions) ∧
    (svc.Refresh env db token loginMeta).1.lastSessionID = db.lastSessionID ∧
    (svc.issueFailsEarly env sess.UserID → (svc.Refresh env db token loginMeta).1 = db) ∧
    (¬ svc.issueFailsEarly env sess.UserID →
      (svc.Refresh env db token loginMeta).1 =
        (SessionRepo.DeleteByID env.deleteFault db sess.ID).1) := by
  obtain ⟨hE, hO⟩ := Refresh_live svc env db token loginMeta sess hfind hlive
  rcases issueTokens_cases svc env db sess.UserID loginMeta sess.ID with
    ⟨e1, hsig, hiss⟩ | ⟨a, e2, hsig, hrand, hiss⟩ | ⟨a, r, e3, hsig, hrand, hnew, hiss⟩ |
    ⟨a, r, ns, hsig, hrand, hnew, hiss⟩
  · rw [hE _ _ hiss]
    exact ⟨fun x hx => hx, rfl, fun _ => rfl, fun h => absurd (Or.inl ⟨e1, hsig⟩) h⟩
  · rw [hE _ _ hiss]
    exact ⟨fun x hx => hx, rfl, fun _ => rfl, fun h => absurd (Or.inr (Or.inl ⟨e2, hrand⟩)) h⟩
  · rw [hE _ _ hiss]
    exact ⟨fun x hx => hx, rfl, fun _ => rfl,
      fun h => absurd (Or.inr (Or.inr ⟨r, e3, hrand, hnew⟩)) h⟩
  · have hnot : ¬ svc.issueFailsEarly env sess.UserID := by
      rintro (⟨_, h⟩ | ⟨_, h⟩ | ⟨r', e', h1, h2⟩)
      · rw [hsig] at h; cases h
      · rw [hrand] at h; cases h
      · rw [hrand] at h1; cases h1
        rw [hnew] at h2; cases h2
    cases hc : SessionRepo.Create env.createFault
        (SessionRepo.DeleteByID env.deleteFault db sess.ID).1
        (issuedSession ns loginMeta env.issueNow) with
    | mk db2 res =>
      rw [hc] at hiss
      cases res with
      | error e4 =>
        have hdb2 := Create_error_db _ _ _ _ _ hc
        subst hdb2
        rw [hE _ _ hiss]
        exact ⟨(DeleteByID_sessions_subset _ _ _).1, (DeleteByID_sessions_subset _ _ _).2,
          fun h => absurd h hnot, fun _ => rfl⟩
      | ok id =>
        rw [hO _ _ _ hiss] at herr
        cases herr

/-- The signer fails during the refresh of `R1`: the store is left as it was. -/
theorem C10_refresh_error_store_witness :
    (sampleService.Refresh { workingEnv 10 "A2" "R2" with signed := .error (.lib "rsa: key") }
      sampleAuthDB "R1" none).1 = sampleAuthDB :=
  (C10_refresh_error_store sampleService
    { workingEnv 10 "A2" "R2" with signed := .error (.lib "rsa: key") } sampleAuthDB "R1" none
    sampleSession (.lib "rsa: key") (by decide) (by decide) (by decide)).2.2.1
    (Or.inl ⟨.lib "rsa: key", rfl⟩)

/-- C10 (as stated) fails: the session of `R1` exists and is not expired; the
refresh deletes it and then the insert of the new session fails (once because
the statement fails, once because the new token hash is already that of
another session, a unique violation): `Refresh` returns the error and the old
session is gone, so the store has changed. -/
theorem C10_refresh_error_store_counterexample :
    sampleSession ∈ sampleAuthDB.sessions ∧ sampleSession.IsExpired 10 = false ∧
    sampleService.Refresh (insertFailsEnv 10 "A2" "R2") sampleAuthDB "R1" none =
      ({ sessions := [], lastSessionID := 1 }, .error (.lib "conn closed")) ∧
    sampleService.Refresh (workingEnv 10 "A2" "R3")
        { sessions := [sampleSession, otherSession], lastSessionID := 2 } "R1" none =
      ({ sessions := [otherSession], lastSessionID := 2 }, .error ErrAlreadyExists) := by
  refine ⟨by decide, by decide, by decide, by decide⟩
theorem NewSession_ok {userID : Int} {h : String} {expires now : Int} {ns : Session}
    (hn : NewSession userID h expires now = .ok ns) :
    TrimSpace h ≠ "" ∧ now < expires ∧ ns.TokenHash = h ∧ ns.ExpiresAt = expires ∧
      ns.UserID = userID := by
  unfold NewSession at hn
  split_ifs at hn with h1 h2
  cases hn
  exact ⟨h1, by omega, rfl, rfl, rfl⟩

theorem Create_ok {fault : Option GoError} {db db' : AuthDB} {s : Session} {id : Int}
    (h : SessionRepo.Create fault db s = (db', .ok id)) :
    fault = none ∧ (∀ x ∈ db.sessions, x.TokenHash ≠ TrimSpace s.TokenHash) ∧
    ∃ row, db'.sessions = db.sessions ++ [row] ∧ row.TokenHash = TrimSpace s.TokenHash ∧
      row.ExpiresAt = s.ExpiresAt ∧ row.UserID = s.UserID := by
  unfold SessionRepo.Create at h
  cases fault with
  | some e => cases h
  | none =>
    simp only at h
    split_ifs at h with hdup
    · cases h
    · simp only [Prod.mk.injEq, Except.ok.injEq] at h
      obtain ⟨hdb, _⟩ := h
      subst hdb
      refine ⟨rfl, ?_, _, rfl, rfl, rfl, rfl⟩
      intro x hx hxe
      apply hdup
      simp only [List.any_eq_true, beq_iff_eq]
      exact ⟨x, hx, hxe⟩

/-- What a successful refresh, whose delete was executed, did to the store. -/
theorem Refresh_ok_inv (svc : AuthService) (env : RefreshEnv) (db db1 : AuthDB) (token : String)
    (loginMeta : Option LoginMeta) (res : RefreshResult)
    (hok : svc.Refresh env db token loginMeta = (db1, .ok res))
    (hdel : env.deleteFault = none) :
    ∃ sess row, sess ∈ db.sessions ∧ sess.TokenHash = TrimSpace (svc.SHA256HexOfString token) ∧
      res.UserID = sess.UserID ∧
      db1.sessions = db.sessions.filter (fun x => !(x.ID == sess.ID)) ++ [row] ∧
      row.TokenHash = TrimSpace (svc.SHA256HexOfString res.RefreshToken) ∧
      row.ExpiresAt = env.issueNow + svc.refreshTTL ∧ row.UserID = sess.UserID ∧
      0 < svc.refreshTTL ∧
      (∀ x ∈ db.sessions.filter (fun x => !(x.ID == sess.ID)), x.TokenHash ≠ row.TokenHash) := by
  cases hg : SessionRepo.GetByTokenHash env.getFault db (svc.SHA256HexOfString token) with
  | error err =>
    simp only [AuthService.Refresh, hg] at hok
    split_ifs at hok <;> cases hok
  | ok sess =>
    obtain ⟨_, hmem, hhash, _⟩ := GetByTokenHash_ok hg
    cases hexp : sess.IsExpired env.now with
    | true =>
      simp only [AuthService.Refresh, hg, hexp, if_true] at hok
      cases hok
    | false =>
      obtain ⟨hE, hO⟩ := Refresh_live svc env db token loginMeta sess hg hexp
      rcases issueTokens_cases svc env db sess.UserID loginMeta sess.ID with
        ⟨e1, hsig, hiss⟩ | ⟨a, e2, hsig, hrand, hiss⟩ | ⟨a, r, e3, hsig, hrand, hnew, hiss⟩ |
        ⟨a, r, ns, hsig, hrand, hnew, hiss⟩
      · rw [hE _ _ hiss] at hok; cases hok
      · rw [hE _ _ hiss] at hok; cases hok
      · rw [hE _ _ hiss] at hok; cases hok
      · cases hc : SessionRepo.Create env.createFault
            (SessionRepo.DeleteByID env.deleteFault db sess.ID).1
            (issuedSession ns loginMeta env.issueNow) with
        | mk db2 cres =>
          rw [hc] at hiss
          cases cres with
          | error e4 => rw [hE _ _ hiss] at hok; cases hok
          | ok id =>
            rw [hO _ _ _ hiss] at hok
            cases hok
            obtain ⟨_, hnodup, row, hrows, hrh, hre, hru⟩ := Create_ok hc
            obtain ⟨_, hlt, hnh, hne, hnu⟩ := NewSession_ok hnew
            obtain ⟨hf1, hf2, hf3⟩ := issuedSession_fields ns loginMeta env.issueNow
            rw [hdel, DeleteByID_none] at hrows hnodup
            simp only at hrows hnodup
            refine ⟨sess, row, hmem, hhash, rfl, hrows, ?_, ?_, ?_, by omega, ?_⟩
            · rw [hrh, hf1, hnh]
            · rw [hre, hf2, hne]
            · rw [hru, hf3, hnu]
            · intro x hx
              rw [hrh]
              exact hnodup x hx

/-- After a successful refresh of `token` whose new token has another hash, the
store has one row per token hash again and none for `token`: refreshing
`token` again is refused. -/
theorem Refresh_single_use (svc : AuthService) (env : RefreshEnv) (db db1 : AuthDB)
    (token : String) (loginMeta : Option LoginMeta) (res : RefreshResult)
    (huniq : db.UniqueHashes)
    (hok : svc.Refresh env db token loginMeta = (db1, .ok res))
    (hdel : env.deleteFault = none)
    (hfresh : TrimSpace (svc.SHA256HexOfString res.RefreshToken) ≠
      TrimSpace (svc.SHA256HexOfString token)) :
    db1.UniqueHashes ∧
    (∀ x ∈ db1.sessions, x.TokenHash ≠ TrimSpace (svc.SHA256HexOfString token)) ∧
    ∀ (env' : RefreshEnv) (lm : Option LoginMeta), env'.getFault = none →
      svc.Refresh env' db1 token lm = (db1, .error ErrInvalidCredentials) := by
  obtain ⟨sess, row, hmem, hhash, _, hrows, hrh, _, _, _, hnodup⟩ :=
    Refresh_ok_inv svc env db db1 token loginMeta res hok hdel
  have habs : ∀ x ∈ db1.sessions, x.TokenHash ≠ TrimSpace (svc.SHA256HexOfString token) := by
    intro x hx
    rw [hrows, List.mem_append, List.mem_singleton] at hx
    rcases hx with hx | rfl
    · intro hxe
      have hx' := List.mem_filter.1 hx
      have : x = sess := List.inj_on_of_nodup_map huniq hx'.1 hmem (by rw [hxe, hhash])
      subst this
      simp at hx'
    · rw [hrh]; exact hfresh
  refine ⟨?_, habs, ?_⟩
  · unfold AuthDB.UniqueHashes at huniq ⊢
    rw [hrows, List.map_append, List.nodup_append]
    refine ⟨(huniq.sublist ((List.filter_sublist _).map _)), by simp, ?_⟩
    intro h hin1 hin2
    simp only [List.map_cons, List.map_nil, List.mem_singleton] at hin2
    obtain ⟨x, hx, rfl⟩ := List.mem_map.1 hin1
    exact hnodup x hx hin2
  · intro env' lm hget
    have := GetByTokenHash_none_of_absent db1 (svc.SHA256HexOfString token) habs
    simp only [AuthService.Refresh, hget, this]
    rfl
/-- A refresh of the token of a live session, in a healthy outside, succeeds
and hands out the token the random source drew. -/
theorem Refresh_succeeds (svc : AuthService) (env : RefreshEnv) (db : AuthDB) (token : String)
    (loginMeta : Option LoginMeta) (sess : Session)
    (hfound : db.sessions.find? (fun x => x.TokenHash == TrimSpace (svc.SHA256HexOfString token))
      = some sess)
    (hlive : env.now < sess.ExpiresAt) (httl : 0 < svc.refreshTTL)
    (hhealthy : env.Healthy svc db) :
    ∃ db2 access refresh, env.random = .ok refresh ∧
      svc.Refresh env db token loginMeta =
        (db2, .ok { UserID := sess.UserID, AccessToken := access, RefreshToken := refresh }) := by
  obtain ⟨hget, hdel, hcreate, ⟨access, hsig⟩, refresh, hrand, hblank, hfreshAll⟩ := hhealthy
  have hg : SessionRepo.GetByTokenHash env.getFault db (svc.SHA256HexOfString token) = .ok sess := by
    simp only [SessionRepo.GetByTokenHash, hget, hfound]
  have hexp : sess.IsExpired env.now = false := by
    simp only [Session.IsExpired, Bool.not_eq_false', decide_eq_true_eq]
    omega
  obtain ⟨hE, hO⟩ := Refresh_live svc env db token loginMeta sess hg hexp
  have hnew : ∃ ns, NewSession sess.UserID (svc.SHA256HexOfString refresh)
      (env.issueNow + svc.refreshTTL) env.issueNow = .ok ns := by
    unfold NewSession
    rw [if_neg hblank, if_neg (by omega)]
    exact ⟨_, rfl⟩
  obtain ⟨ns, hns⟩ := hnew
  rcases issueTokens_cases svc env db sess.UserID loginMeta sess.ID with
    ⟨e1, hsig', _⟩ | ⟨a, e2, _, hrand', _⟩ | ⟨a, r, e3, _, hrand', hnew', _⟩ |
    ⟨a, r, ns', hsig', hrand', hnew', hiss⟩
  · rw [hsig] at hsig'; cases hsig'
  · rw [hrand] at hrand'; cases hrand'
  · rw [hrand] at hrand'; cases hrand'
    rw [hns] at hnew'; cases hnew'
  · rw [hrand] at hrand'; cases hrand'
    rw [hsig] at hsig'; cases hsig'
    rw [hns] at hnew'; cases hnew'
    obtain ⟨hf1, _, _⟩ := issuedSession_fields ns loginMeta env.issueNow
    obtain ⟨_, _, hnh, _, _⟩ := NewSession_ok hns
    have hnodup : ¬ ((SessionRepo.DeleteByID env.deleteFault db sess.ID).1.sessions.any
        (fun x => x.TokenHash == TrimSpace (issuedSession ns loginMeta env.issueNow).TokenHash)
        = true) := by
      simp only [List.any_eq_true, beq_iff_eq, not_exists, not_and]
      intro x hx
      rw [hf1, hnh]
      exact hfreshAll x ((DeleteByID_sessions_subset _ _ _).1 x hx)
    have hc : ∃ db2 id, SessionRepo.Create env.createFault
        (SessionRepo.DeleteByID env.deleteFault db sess.ID).1
        (issuedSession ns loginMeta env.issueNow) = (db2, .ok id) := by
      simp only [SessionRepo.Create, hcreate, if_neg hnodup]
      exact ⟨_, _, rfl⟩
    obtain ⟨db2, id, hc⟩ := hc
    rw [hc] at hiss
    exact ⟨db2, access, refresh, hrand, hO _ _ _ hiss⟩

theorem find?_append_singleton {α : Type} (p : α → Bool) (l : List α) (a : α)
    (hl : ∀ x ∈ l, p x = false) (ha : p a = true) : (l ++ [a]).find? p = some a := by
  rw [List.find?_append]
  have : l.find? p = none := by
    rw [List.find?_eq_none]
    intro x hx
    simp [hl x hx]
  simp [this, ha]

/-- Function `Login` returns what the comparison of the password returns, without
touching the store, once the lookup has found the user. -/
theorem Login_compare_error (svc : AuthService) (deps : AuthDeps) (env : CredEnv)
    (db : CredentialDB) (email password : String) (loginMeta : Option LoginMeta) (u : User)
    (e : GoError) (hfind : UserRepo.GetByEmail env.lookupFault db email = .ok u)
    (hbad : deps.bcrypt.CompareHashAndPassword u.PasswordHash password = some e) :
    svc.Login deps env db email password loginMeta = (db, .error e) := by
  simp only [AuthService.Login, hfind, ComparePassword, hbad]

/-- Function `Login` answers `ErrInvalidCredentials`, without touching the store, when no
row of `users` has exactly the email it was given. -/
theorem Login_no_row (svc : AuthService) (deps : AuthDeps) (env : CredEnv)
    (db : CredentialDB) (email password : String) (loginMeta : Option LoginMeta)
    (hq : env.lookupFault = none) (hnone : ∀ u ∈ db.users, u.Email ≠ email) :
    svc.Login deps env db email password loginMeta = (db, .error ErrInvalidCredentials) := by
  have hfind : db.users.find? (fun x => x.Email == email) = none := by
    rw [List.find?_eq_none]
    intro x hx
    simpa using hnone x hx
  have hget : UserRepo.GetByEmail env.lookupFault db email = .error ErrNotFound := by
    simp only [UserRepo.GetByEmail, hq, hfind]
  have his : ErrNotFound.is ErrNotFound = true := by decide
  simp only [AuthService.Login, hget, his, if_true]

/-- Function `Register` refuses, without touching the store, an email whose trimmed form is
the stored email of a user. -/
theorem Register_duplicate_trimmed (svc : AuthService) (deps : AuthDeps) (env : CredEnv)
    (db : CredentialDB) (email password : String) (displayName : Option String)
    (hq : env.lookupFault = none) (hdup : ∃ u ∈ db.users, u.Email = TrimSpace email) :
    svc.Register deps env db email password displayName = (db, .error ErrAlreadyExists) := by
  obtain ⟨u, hu, he⟩ := hdup
  have hany : db.users.any (fun x => x.Email == TrimSpace email) = true := by
    rw [List.any_eq_true]
    exact ⟨u, hu, by simp [he]⟩
  simp only [AuthService.Register, UserRepo.ExistsByEmail, hq, hany]

/-- The user `NewUser` builds carries the normalized email, when the options
leave the email alone. -/
theorem NewUser_email (tbl : Nat → Nat) (email hash : String) (now : Int)
    (opts : List (User → User)) (u : User)
    (hopts : ∀ opt ∈ opts, ∀ x : User, (opt x).Email = x.Email)
    (h : NewUser tbl email hash now opts = .ok u) : u.Email = normalizeEmail tbl email := by
  unfold NewUser at h
  simp only at h
  split_ifs at h
  simp only [Except.ok.injEq] at h
  rw [← h]
  have : ∀ (l : List (User → User)) (x : User), (∀ opt ∈ l, ∀ y : User, (opt y).Email = y.Email) →
      (l.foldl (fun u opt => opt u) x).Email = x.Email := by
    intro l
    induction l with
    | nil => intro x _; rfl
    | cons o l ih =>
      intro x hl
      simp only [List.foldl_cons]
      rw [ih (o x) (fun opt ho => hl opt (List.mem_cons_of_mem _ ho)), hl o (List.mem_cons_self _ _)]
  rw [this opts _ hopts]

/-- The options that `Register` hands to `NewUser` leave the email alone. -/
theorem registerOptions_email (displayName : Option String) (opt : User → User)
    (hm : opt ∈ registerOptions displayName) (x : User) : (opt x).Email = x.Email := by
  cases displayName with
  | none => simp [registerOptions] at hm
  | some d =>
    simp only [registerOptions, List.mem_singleton] at hm
    subst hm
    rfl

/-- A registration that succeeds has stored the email in normalized form: the
user it returns and the row it added both carry `normalizeEmail email`. -/
theorem Register_stores_normalized (svc : AuthService) (deps : AuthDeps) (env : CredEnv)
    (db db' : CredentialDB) (email password : String) (displayName : Option String)
    (res : RegisterResult)
    (h : svc.Register deps env db email password displayName = (db', .ok res)) :
    res.User.Email = normalizeEmail deps.lower email ∧
    ∃ u ∈ db'.users, u.ID = res.User.ID ∧ u.Email = normalizeEmail deps.lower email := by
  unfold AuthService.Register at h
  cases hex : UserRepo.ExistsByEmail env.lookupFault db email with
  | error e => rw [hex] at h; simp at h
  | ok b =>
    cases b with
    | true => rw [hex] at h; simp at h
    | false =>
      rw [hex] at h
      simp only at h
      cases hh : HashPassword deps.bcrypt password (some deps.passPolicy) with
      | error e => rw [hh] at h; simp at h
      | ok hash =>
        rw [hh] at h
        simp only at h
        split at h
        · simp at h
        · rename_i u hn
          have hemail : u.Email = normalizeEmail deps.lower email := by
            refine NewUser_email _ _ _ _ _ _ ?_ hn
            exact registerOptions_email displayName
          unfold UserRepo.Create at h
          cases hf : env.createUserFault with
          | some e => rw [hf] at h; simp at h
          | none =>
            rw [hf] at h
            simp only at h
            split_ifs at h with hdup
            · simp at h
            · simp only at h
              cases hi : svc.issueTokens env.issue db.auth (db.lastUserID + 1) none none with
              | mk a r =>
                cases r with
                | error e => rw [hi] at h; simp at h
                | ok pr =>
                  obtain ⟨access, refresh⟩ := pr
                  rw [hi] at h
                  simp only [Prod.mk.injEq, Except.ok.injEq] at h
                  obtain ⟨hdb, hres⟩ := h
                  subst hres
                  subst hdb
                  refine ⟨hemail, ?_⟩
                  simp only [List.mem_append, List.mem_singleton]
                  exact ⟨_, Or.inr rfl, rfl, hemail⟩

set_option maxRecDepth 100000 in
/-- C11 (code bug), the code at the failing input: the store holds the user
`alice@x.com` with the hash of `passw0rd`. A login of that email with the
password `wrong` leaves the store as it is (no session is created), but the
error is the one bcrypt returned, which is not `ErrInvalidCredentials` and
which `mapError` turns into `Internal`; a login of an unknown email fails with
`ErrInvalidCredentials`, which `mapError` turns into `Unauthenticated`. -/
theorem C11_login_wrong_password :
    sampleService.Login sampleDeps (credEnv 5 "A2" "R2") aliceDB "alice@x.com" "wrong" none =
      (aliceDB, .error bcryptErrMismatchedHashAndPassword) ∧
    bcryptErrMismatchedHashAndPassword.is ErrInvalidCredentials = false ∧
    AuthHandler.Login sampleService sampleDeps (credEnv 5 "A2" "R2") aliceDB
        (some { Email := "alice@x.com", Password := "wrong" }) none =
      (aliceDB, .error .Internal) ∧
    sampleService.Login sampleDeps (credEnv 5 "A2" "R2") aliceDB "bob@x.com" "wrong" none =
      (aliceDB, .error ErrInvalidCredentials) ∧
    AuthHandler.Login sampleService sampleDeps (credEnv 5 "A2" "R2") aliceDB
        (some { Email := "bob@x.com", Password := "wrong" }) none =
      (aliceDB, .error .Unauthenticated) := by
  refine ⟨by decide, by decide, by decide, by decide, by decide⟩

set_option maxRecDepth 100000 in
/-- C12 (code bug), the code at the failing input: `Alice@X.com` registers with
the password `passw0rd`; the store then holds the email in normalized form,
`alice@x.com`. A login with the email as registered, `Alice@X.com`, and the
right password is looked up as given, finds no row and fails with
`ErrInvalidCredentials` (`Unauthenticated` at the handler), although the
normalization of that email is the stored one; only the lower-case spelling
logs in. -/
theorem C12_login_email_as_given :
    sampleService.Register sampleDeps (credEnv 0 "A1" "R1") emptyCredentialDB "Alice@X.com"
        "passw0rd" none =
      (aliceDB, .ok { User := aliceUser, AccessToken := "A1", RefreshToken := "R1" }) ∧
    normalizeEmail sampleDeps.lower "Alice@X.com" = aliceUser.Email ∧
    sampleService.Login sampleDeps (credEnv 5 "A2" "R2") aliceDB "Alice@X.com" "passw0rd" none =
      (aliceDB, .error ErrInvalidCredentials) ∧
    AuthHandler.Login sampleService sampleDeps (credEnv 5 "A2" "R2") aliceDB
        (some { Email := " Alice@X.com ", Password := "passw0rd" }) none =
      (aliceDB, .error .Unauthenticated) ∧
    (sampleService.Login sampleDeps (credEnv 5 "A2" "R2") aliceDB "alice@x.com" "passw0rd"
        none).2 = .ok { User := aliceUser, AccessToken := "A2", RefreshToken := "R2" } := by
  refine ⟨by decide, by decide, by decide, by decide, by decide⟩

set_option maxRecDepth 100000 in
/-- C13 (code bug), the code at the failing input: the store holds the user
`alice@x.com`. A registration of `Alice@X.com`, whose normalized form is the
stored email, with the password `abc` is not found by `ExistsByEmail`, which
only trims, and fails with `ErrPasswordTooShort`, not with `ErrAlreadyExists`;
the same password with the email `alice@x.com` fails with `ErrAlreadyExists`.
With a password the policy accepts the registration of `Alice@X.com` fails
with `ErrAlreadyExists` at the insert. The store is unchanged each time. -/
theorem C13_register_duplicate_email_case :
    normalizeEmail sampleDeps.lower "Alice@X.com" = aliceUser.Email ∧
    sampleService.Register sampleDeps (credEnv 5 "A2" "R2") aliceDB "Alice@X.com" "abc" none =
      (aliceDB, .error ErrPasswordTooShort) ∧
    sampleService.Register sampleDeps (credEnv 5 "A2" "R2") aliceDB "alice@x.com" "abc" none =
      (aliceDB, .error ErrAlreadyExists) ∧
    sampleService.Register sampleDeps (credEnv 5 "A2" "R2") aliceDB "Alice@X.com" "passw0rd"
        none = (aliceDB, .error ErrAlreadyExists) := by
  refine ⟨by decide, by decide, by decide, by decide⟩

/-! ## Access tokens -/

theorem digitValue36_digitChar (d : Nat) (h : d < 10) : digitValue36 (digitChar d) = some d := by
  have h1 : 48 ≤ digitChar d ∧ digitChar d ≤ 57 := by unfold digitChar; omega
  simp only [digitValue36, h1, and_self, if_true]
  congr 1
  unfold digitChar
  omega

/-- One step of the loop of `ParseUint` on a decimal digit that does not overflow. -/
theorem parseUintLoop_digit (d n : Nat) (r : List Nat) (us : Bool) (hd : d < 10)
    (hn : n * 10 + d < 2 ^ 64) :
    parseUintLoop 10 true (digitChar d :: r) n us = parseUintLoop 10 true r (n * 10 + d) us := by
  have h95 : digitChar d ≠ 95 := by unfold digitChar; omega
  have h1 : ¬ d ≥ 10 := by omega
  have h2 : ¬ n ≥ (2 ^ 64 - 1) / 10 + 1 := by norm_num; omega
  have h3 : ¬ n * 10 + d ≥ 2 ^ 64 := by omega
  rw [parseUintLoop]
  simp only [h95, false_and, if_false, digitValue36_digitChar d hd, h1, h2, h3]

/-- The loop of `ParseUint` reads the decimal digits of a number back. -/
theorem parseUintLoop_decimalAux (fuel : Nat) :
    ∀ (n : Nat) (acc : List Nat) (us : Bool), n < fuel → n < 2 ^ 64 →
      parseUintLoop 10 true (decimalAux fuel n acc) 0 us = parseUintLoop 10 true acc n us := by
  induction fuel with
  | zero => intro n acc us h; omega
  | succ f ih =>
    intro n acc us hf hn
    rw [decimalAux]
    by_cases h10 : n < 10
    · simp only [h10, if_true]
      rw [parseUintLoop_digit n 0 acc us h10 (by omega)]
      simp
    · simp only [h10, if_false]
      rw [ih (n / 10) _ us (by omega) (by omega)]
      rw [parseUintLoop_digit (n % 10) (n / 10) acc us (by omega) (by omega)]
      congr 1
      omega

theorem decimalAux_digits (fuel : Nat) :
    ∀ (n : Nat) (acc : List Nat), (∀ c ∈ acc, 48 ≤ c ∧ c ≤ 57) →
      ∀ c ∈ decimalAux fuel n acc, 48 ≤ c ∧ c ≤ 57 := by
  induction fuel with
  | zero => intro n acc h c hc; exact h c hc
  | succ f ih =>
    intro n acc h c hc
    rw [decimalAux] at hc
    by_cases h10 : n < 10
    · simp only [h10, if_true, List.mem_cons] at hc
      rcases hc with rfl | hc
      · unfold digitChar; omega
      · exact h c hc
    · simp only [h10, if_false] at hc
      refine ih (n / 10) _ ?_ c hc
      intro x hx
      simp only [List.mem_cons] at hx
      rcases hx with rfl | hx
      · unfold digitChar; omega
      · exact h x hx

/-- The decimal digits of a positive number start with a digit that is not zero. -/
theorem decimalAux_head (fuel : Nat) :
    ∀ (n : Nat) (acc : List Nat), n < fuel → 0 < n →
      ∃ h t, decimalAux fuel n acc = h :: t ∧ 49 ≤ h ∧ h ≤ 57 := by
  induction fuel with
  | zero => intro n acc h; omega
  | succ f ih =>
    intro n acc hf hpos
    rw [decimalAux]
    by_cases h10 : n < 10
    · simp only [h10, if_true]
      exact ⟨_, _, rfl, by unfold digitChar; omega, by unfold digitChar; omega⟩
    · simp only [h10, if_false]
      exact ih (n / 10) _ (by omega) (by omega)

theorem isSpace_digit (c : Nat) (h1 : 45 ≤ c) (h2 : c ≤ 57) : isSpace c = false := by
  simp only [isSpace, Bool.or_eq_false_iff, beq_eq_false_iff_ne, ne_eq, Bool.and_eq_false_imp,
    decide_eq_true_eq, decide_eq_false_iff_not]
  refine ⟨⟨⟨⟨⟨⟨⟨⟨⟨⟨⟨⟨⟨⟨?_, ?_⟩, ?_⟩, ?_⟩, ?_⟩, ?_⟩, ?_⟩, ?_⟩, ?_⟩, ?_⟩, ?_⟩, ?_⟩, ?_⟩, ?_⟩, ?_⟩ <;>
    omega

theorem takeWhile_all {α : Type} (p : α → Bool) (l : List α) (h : ∀ x ∈ l, p x = true) :
    l.takeWhile p = l := by
  induction l with
  | nil => rfl
  | cons a l ih =>
    rw [List.takeWhile_cons, h a (by simp), if_pos rfl, ih (fun x hx => h x (by simp [hx]))]

/-- Function `ParseUint` reads the decimal digits of a positive number below `2^64` back. -/
theorem ParseUint_decimal (n : Nat) (hpos : 0 < n) (hn : n < 2 ^ 64) :
    ParseUint (decimal n) 0 = some n := by
  obtain ⟨h, t, hdec, h49, h57⟩ := decimalAux_head (n + 1) n [] (by omega) hpos
  have hloop := parseUintLoop_decimalAux (n + 1) n [] false (by omega) hn
  unfold decimal at *
  rw [hdec] at hloop
  rw [hdec]
  have h48 : h ≠ 48 := by omega
  have hb : ¬ (2 ≤ 0 ∧ 0 ≤ 36) := by omega
  simp only [ParseUint, hb, h48, if_false, if_true, hloop, parseUintLoop, Bool.false_and,
    Bool.false_eq_true]

/-- Function `ParseInt` on digits that do not start with a sign. -/
theorem ParseInt_unsigned (h : Nat) (t : List Nat) (n : Nat) (h43 : h ≠ 43) (h45 : h ≠ 45)
    (hpu : ParseUint (h :: t) 0 = some n) (hn : n < 2 ^ 63) :
    ParseInt (h :: t) 0 = some (n : Int) := by
  have hlt : n < 9223372036854775808 := by norm_num at hn; exact hn
  simp [ParseInt, h43, h45, hpu, hlt]

/-- Function `ParseInt` on a minus sign and digits. -/
theorem ParseInt_minus (l : List Nat) (n : Nat) (hpu : ParseUint l 0 = some n) (hn : n ≤ 2 ^ 63) :
    ParseInt (45 :: l) 0 = some (-(n : Int)) := by
  have hgt : n ≤ 9223372036854775808 := by norm_num at hn; exact hn
  simp [ParseInt, hpu, hgt]

/-- The scanner of `fmt` on decimal digits that do not start with zero: the
token is all of them. -/
theorem scanBasePrefix_decimal (h : Nat) (t : List Nat) (h48 : h ≠ 48) :
    scanBasePrefix (h :: t) =
      ([], [48, 49, 50, 51, 52, 53, 54, 55, 56, 57, 95], false, h :: t) := by
  simp [scanBasePrefix, h48]

/-- The scanner of `fmt` reads the decimal digits of a positive number below
`2^63`, with or without a minus sign in front, back. -/
theorem scan_decimal (n : Nat) (hpos : 0 < n) :
    (n < 2 ^ 63 → SscanInt64 (ofRunes (decimal n)) = some (n : Int)) ∧
    (n ≤ 2 ^ 63 → SscanInt64 (ofRunes (45 :: decimal n)) = some (-(n : Int))) := by
  obtain ⟨h, t, hdec, h49, h57⟩ := decimalAux_head (n + 1) n [] (by omega) hpos
  have hdig : ∀ c ∈ decimal n, 48 ≤ c ∧ c ≤ 57 :=
    decimalAux_digits (n + 1) n [] (by simp)
  have hdec' : decimal n = h :: t := hdec
  have htake : (h :: t).takeWhile
      (fun x => [48, 49, 50, 51, 52, 53, 54, 55, 56, 57, 95].contains x) = h :: t := by
    apply takeWhile_all
    intro x hx
    have := hdig x (hdec' ▸ hx)
    simp only [List.contains, List.elem_eq_mem, List.mem_cons, decide_eq_true_eq]
    omega
  have hscan := scanBasePrefix_decimal h t (by omega)
  have hsp : isSpace h = false := isSpace_digit h (by omega) h57
  have h43 : h ≠ 43 := by omega
  have h45 : h ≠ 45 := by omega
  constructor
  · intro hn
    have hr : runes (ofRunes (decimal n)) = h :: t := by
      rw [runes_ofRunes_small _ (fun r hr => by have := hdig r hr; omega), hdec']
    have hpu := ParseUint_decimal n hpos (by omega)
    rw [hdec'] at hpu
    have hpi := ParseInt_unsigned h t n h43 h45 hpu hn
    unfold SscanInt64
    rw [hr, List.dropWhile_cons, hsp]
    simp only [Bool.false_eq_true, if_false, h43, h45, or_self, hscan, htake,
      List.isEmpty_cons, Bool.not_false, Bool.and_false, List.nil_append, hpi]
  · intro hn
    have hr : runes (ofRunes (45 :: decimal n)) = 45 :: h :: t := by
      rw [runes_ofRunes_small _ (fun r hr => by
        simp only [List.mem_cons] at hr
        rcases hr with rfl | hr
        · omega
        · have := hdig r hr; omega), hdec']
    have hpu := ParseUint_decimal n hpos (by omega)
    rw [hdec'] at hpu
    have hpi := ParseInt_minus (h :: t) n hpu hn
    have hsp45 : isSpace 45 = false := by decide
    unfold SscanInt64
    rw [hr, List.dropWhile_cons, hsp45]
    simp only [Bool.false_eq_true, if_false, or_true, if_true, hscan, htake,
      List.isEmpty_cons, Bool.not_false, Bool.and_false, List.append_nil, List.singleton_append,
      hpi]

/-- The call `fmt.Sscan` reads what `fmt.Sprint` prints for an `int64` back. -/
theorem SscanInt64_formatInt (u : Int) (hlo : -2 ^ 63 ≤ u) (hhi : u < 2 ^ 63) :
    SscanInt64 (formatInt u) = some u := by
  unfold formatInt
  by_cases hneg : u < 0
  · simp only [hneg, if_true]
    have h := (scan_decimal u.natAbs (by omega)).2 (by omega)
    rw [h]
    congr 1
    omega
  · simp only [hneg, if_false]
    by_cases h0 : u = 0
    · subst h0
      decide
    · have h := (scan_decimal u.natAbs (by omega)).1 (by omega)
      rw [h]
      congr 1
      omega

/-- What `fmt.Sprint` prints for an `int64` is not the empty string. -/
theorem formatInt_ne_empty (u : Int) : formatInt u ≠ "" := by
  unfold formatInt
  have hne : ∀ l : List Nat, l ≠ [] → ofRunes l ≠ "" := by
    intro l hl h
    apply hl
    have h2 : (ofRunes l).data = [] := by rw [h]
    simpa [ofRunes] using h2
  have hdne : decimal u.natAbs ≠ [] := by
    unfold decimal
    rw [decimalAux]
    split_ifs
    · exact List.cons_ne_nil _ _
    · intro hnil
      have hmem : digitChar (u.natAbs % 10) ∈ decimalAux u.natAbs (u.natAbs / 10)
          [digitChar (u.natAbs % 10)] := by
        have : ∀ (f n : Nat) (acc : List Nat) (x : Nat), x ∈ acc → x ∈ decimalAux f n acc := by
          intro f
          induction f with
          | zero => intro n acc x hx; exact hx
          | succ f ih =>
            intro n acc x hx
            rw [decimalAux]
            split_ifs
            · exact List.mem_cons_of_mem _ hx
            · exact ih _ _ x (List.mem_cons_of_mem _ hx)
        exact this _ _ _ _ (by simp)
      rw [hnil] at hmem
      simp at hmem
  split_ifs
  · exact hne _ (List.cons_ne_nil _ _)
  · exact hne _ hdne

/-- The whole seconds of an instant are the second it lies in. -/
theorem unixSeconds_spec (t : Int) :
    unixSeconds t * 1000000000 ≤ t ∧ t < (unixSeconds t + 1) * 1000000000 := by
  unfold unixSeconds
  constructor <;> omega

/-- C15: for every user id of type `int64` and every instant `now`,
`SignAccessToken` returns a token (when the signature itself does not fail)
whose claims are: subject the decimal string of the id, issuer and audience
the configured ones, issued-at the Unix second of `now`, not-before the Unix
second of `now - clockSkew`, expires-at the Unix second of `now + ttl`; and
`SubjectAsUserID` gives the id back from those claims. -/
theorem C15_access_claims (s : JWTSigner) (u now : Int) (hlo : -2 ^ 63 ≤ u) (hhi : u < 2 ^ 63) :
    ∃ tok, s.SignAccessToken none u now = .ok tok ∧
      tok.claims.Subject = formatInt u ∧
      tok.claims.Issuer = s.issuer ∧ tok.claims.Audience = s.audience ∧
      (tok.claims.IssuedAt * 1000000000 ≤ now ∧ now < (tok.claims.IssuedAt + 1) * 1000000000) ∧
      (tok.claims.NotBefore * 1000000000 ≤ now - s.clockSkew ∧
        now - s.clockSkew < (tok.claims.NotBefore + 1) * 1000000000) ∧
      (tok.claims.ExpiresAt * 1000000000 ≤ now + s.ttl ∧
        now + s.ttl < (tok.claims.ExpiresAt + 1) * 1000000000) ∧
      SubjectAsUserID (some tok.claims) = .ok u := by
  refine ⟨_, rfl, rfl, rfl, rfl, unixSeconds_spec now, ?_, unixSeconds_spec (now + s.ttl), ?_⟩
  · have h := unixSeconds_spec (now + -s.clockSkew)
    have e : now + -s.clockSkew = now - s.clockSkew := by ring
    rw [e] at h
    exact h
  · have hne : (s.accessClaims u now).Subject ≠ "" := formatInt_ne_empty u
    have hscan : SscanInt64 (s.accessClaims u now).Subject = some u :=
      SscanInt64_formatInt u hlo hhi
    simp only [SubjectAsUserID, hne, if_false, hscan]

set_option maxRecDepth 100000 in
/-- The token of user 7 signed at second 1000 by the sample signer: its subject
is `7` and `SubjectAsUserID` reads 7 from it. -/
theorem C15_access_claims_witness :
    formatInt 7 = "7" ∧
    ∃ tok, sampleSigner.SignAccessToken none 7 1000000000000 = .ok tok ∧
      tok.claims.Subject = formatInt 7 ∧
      tok.claims.Issuer = "cwrk-auth" ∧ tok.claims.Audience = "cwrk-api" ∧
      (tok.claims.IssuedAt * 1000000000 ≤ 1000000000000 ∧
        1000000000000 < (tok.claims.IssuedAt + 1) * 1000000000) ∧
      (tok.claims.NotBefore * 1000000000 ≤ 1000000000000 - 30000000000 ∧
        1000000000000 - 30000000000 < (tok.claims.NotBefore + 1) * 1000000000) ∧
      (tok.claims.ExpiresAt * 1000000000 ≤ 1000000000000 + 900000000000 ∧
        1000000000000 + 900000000000 < (tok.claims.ExpiresAt + 1) * 1000000000) ∧
      SubjectAsUserID (some tok.claims) = .ok 7 :=
  ⟨by decide, C15_access_claims sampleSigner 7 1000000000000 (by decide) (by decide)⟩

/-- When `ParseAndValidate` accepts a token that `SignAccessToken` signed at the instant
`t`: exactly at the instants `t'` whose Unix second is neither before that of
`t` nor after that of `t + ttl`, and that are not more than the clock skew
past the latter second (both readings of the clock are `t'`). The clock skew
buys nothing before `t` and at most the rest of a second after `t + ttl`. -/
theorem ParseAndValidate_window (s : JWTSigner) (u t t' : Int)
    (hkey : s.publicKey = s.privateKey) (hiss : s.issuer ≠ "") (haud : s.audience ≠ "")
    (hskew : 0 ≤ s.clockSkew) (httl : 0 ≤ s.ttl) (hpos : 1000000000 ≤ t - s.clockSkew) :
    (∃ c, s.ParseAndValidate t' t'
        { alg := "RS256", claims := s.accessClaims u t, signedWith := s.privateKey } = .ok c) ↔
      (unixSeconds t ≤ unixSeconds t' ∧ unixSeconds t' ≤ unixSeconds (t + s.ttl) ∧
        t' ≤ unixSeconds (t + s.ttl) * 1000000000 + s.clockSkew) := by
  have h1 := unixSeconds_spec t
  have h2 := unixSeconds_spec (t + -s.clockSkew)
  have h3 := unixSeconds_spec (t + s.ttl)
  have h4 := unixSeconds_spec t'
  have hiat : unixSeconds t ≠ 0 := by omega
  have hnbf : unixSeconds (t + -s.clockSkew) ≠ 0 := by omega
  have hexp : unixSeconds (t + s.ttl) ≠ 0 := by omega
  have hkey' : ¬ (s.privateKey ≠ s.publicKey) := by rw [hkey]; simp
  simp only [JWTSigner.ParseAndValidate, ParseWithClaims, JWTSigner.accessClaims,
    StandardClaims.Valid, StandardClaims.VerifyIssuer, StandardClaims.VerifyAudience,
    ne_eq, not_true_eq_false, if_false, hkey', hiat, hnbf, hexp, not_false_eq_true,
    true_and, decide_True, Bool.not_true, not_le, ge_iff_le]
  constructor
  · rintro ⟨c, hc⟩
    by_cases ha : unixSeconds t' < unixSeconds (t + -s.clockSkew)
    · simp [ha] at hc
    · by_cases hb : unixSeconds t' < unixSeconds t
      · simp [ha, hb] at hc
      · by_cases hd : unixSeconds (t + s.ttl) < unixSeconds t'
        · simp [ha, hb, hd] at hc
        · simp only [ha, hb, hd, if_false] at hc
          split_ifs at hc with hw
          all_goals exact ⟨by omega, by omega, by omega⟩
  · rintro ⟨ha, hb, hc⟩
    have ha' : ¬ unixSeconds t' < unixSeconds (t + -s.clockSkew) := by omega
    have hb' : ¬ unixSeconds t' < unixSeconds t := by omega
    have hd' : ¬ unixSeconds (t + s.ttl) < unixSeconds t' := by omega
    have hw : ¬ (t' < unixSeconds (t + -s.clockSkew) * 1000000000 + -s.clockSkew ∨
        t' > unixSeconds (t + s.ttl) * 1000000000 + s.clockSkew) := by omega
    simp only [ha', hb', hd', if_false, hw, hiss, haud, decide_True, not_true_eq_false]
    exact ⟨_, rfl⟩

set_option maxRecDepth 100000 in
/-- C14 (code bug), the code at the failing input: the sample signer (lifetime
900 s, clock skew 30 s) signs a token at second 1000, so the claim's window
runs from second 970 to second 1930. The token is accepted at seconds 1000
and 1900. At second 1910, inside the window, the library's own validation of
`exp`, which allows no skew, has already refused it before the code's window
with skew is looked at; at second 990, inside the window, the library refuses
it as used before issued. At second 2000, outside the window, the error is
the library's and not `ErrTokenExpired`. -/
theorem C14_token_window :
    sampleSigner.SignAccessToken none 7 1000000000000 = .ok sampleToken ∧
    validateAtSecond 1000 = .ok sampleToken.claims ∧
    validateAtSecond 1900 = .ok sampleToken.claims ∧
    validateAtSecond 1910 = .error (.lib "token is expired") ∧
    validateAtSecond 990 = .error (.lib "Token used before issued") ∧
    validateAtSecond 2000 = .error (.lib "token is expired") ∧
    (GoError.lib "token is expired").is ErrTokenExpired = false := by
  refine ⟨by decide, by decide, by decide, by decide, by decide, by decide, by decide⟩

/-! ## Redaction -/

mutual
/-- What `redactWalk` returns is redacted. -/
theorem redactWalk_redacted (tbl : Nat → Nat) : ∀ v : GoVal, Redacted tbl (redactWalk tbl v)
  | .map es => by
    simp only [redactWalk, Redacted]
    exact redactEntries_redacted tbl es
  | .slice items => by
    simp only [redactWalk, Redacted]
    exact redactItems_redacted tbl items
  | .null => by simp only [redactWalk, Redacted]
  | .bool _ => by simp only [redactWalk, Redacted]
  | .float64 _ => by simp only [redactWalk, Redacted]
  | .string _ => by simp only [redactWalk, Redacted]
theorem redactEntries_redacted (tbl : Nat → Nat) :
    ∀ es : List (String × GoVal), RedactedEntries tbl (redactEntries tbl es)
  | [] => by simp only [redactEntries, RedactedEntries]
  | (k, v) :: es => by
    simp only [redactEntries]
    by_cases hk : isRedactKey tbl k = true
    · simp only [hk, if_true, RedactedEntries]
      exact ⟨trivial, redactEntries_redacted tbl es⟩
    · simp only [hk, if_false, RedactedEntries]
      exact ⟨redactWalk_redacted tbl v, redactEntries_redacted tbl es⟩
theorem redactItems_redacted (tbl : Nat → Nat) :
    ∀ items : List GoVal, RedactedItems tbl (redactItems tbl items)
  | [] => by simp only [redactItems, RedactedItems]
  | v :: vs => by
    simp only [redactItems, RedactedItems]
    exact ⟨redactWalk_redacted tbl v, redactItems_redacted tbl vs⟩
end

mutual
/-- Function `redactWalk` returns the same for two values that differ in secrets only. -/
theorem redactWalk_secretsApart (tbl : Nat → Nat) :
    ∀ v v' : GoVal, SecretsApart tbl v v' → redactWalk tbl v = redactWalk tbl v'
  | .map es, .map es', h => by
    simp only [SecretsApart] at h
    simp only [redactWalk, redactEntries_secretsApart tbl es es' h]
  | .slice items, .slice items', h => by
    simp only [SecretsApart] at h
    simp only [redactWalk, redactItems_secretsApart tbl items items' h]
  | .null, .null, _ => rfl
  | .bool b, .bool b', h => by
    simp only [SecretsApart] at h
    rw [h]
  | .float64 r, .float64 r', h => by
    simp only [SecretsApart] at h
    rw [h]
  | .string s, .string s', h => by
    simp only [SecretsApart] at h
    rw [h]
  | .map _, .slice _, h | .map _, .null, h | .map _, .bool _, h | .map _, .float64 _, h
  | .map _, .string _, h | .slice _, .map _, h | .slice _, .null, h | .slice _, .bool _, h
  | .slice _, .float64 _, h | .slice _, .string _, h | .null, .map _, h | .null, .slice _, h
  | .null, .bool _, h | .null, .float64 _, h | .null, .string _, h | .bool _, .map _, h
  | .bool _, .slice _, h | .bool _, .null, h | .bool _, .float64 _, h | .bool _, .string _, h
  | .float64 _, .map _, h | .float64 _, .slice _, h | .float64 _, .null, h
  | .float64 _, .bool _, h | .float64 _, .string _, h | .string _, .map _, h
  | .string _, .slice _, h | .string _, .null, h | .string _, .bool _, h
  | .string _, .float64 _, h => by simp [SecretsApart] at h
theorem redactEntries_secretsApart (tbl : Nat → Nat) :
    ∀ es es' : List (String × GoVal), SecretsApartEntries tbl es es' →
      redactEntries tbl es = redactEntries tbl es'
  | [], [], _ => rfl
  | (k, v) :: es, (k', v') :: es', h => by
    simp only [SecretsApartEntries] at h
    obtain ⟨hk, hv, hes⟩ := h
    subst hk
    simp only [redactEntries, redactEntries_secretsApart tbl es es' hes]
    by_cases hr : isRedactKey tbl k = true
    · simp only [hr, if_true]
    · simp only [hr, if_false] at hv ⊢
      rw [redactWalk_secretsApart tbl v v' hv]
  | [], _ :: _, h => by simp [SecretsApartEntries] at h
  | _ :: _, [], h => by simp [SecretsApartEntries] at h
theorem redactItems_secretsApart (tbl : Nat → Nat) :
    ∀ items items' : List GoVal, SecretsApartItems tbl items items' →
      redactItems tbl items = redactItems tbl items'
  | [], [], _ => rfl
  | v :: vs, v' :: vs', h => by
    simp only [SecretsApartItems] at h
    simp only [redactItems, redactWalk_secretsApart tbl v v' h.1,
      redactItems_secretsApart tbl vs vs' h.2]
  | [], _ :: _, h => by simp [SecretsApartItems] at h
  | _ :: _, [], h => by simp [SecretsApartItems] at h
end

/-- The empty text is no JSON. -/
theorem jsonUnmarshalAny_nil (fl : Float64Text) : jsonUnmarshalAny fl [] = none := by
  rfl

/-- Function `redactJSON` on a body that `json.Unmarshal` accepts. -/
theorem redactJSON_ok (fl : Float64Text) (tbl : Nat → Nat) (b : List Nat) (v : GoVal)
    (hv : jsonUnmarshalAny fl b = some v) :
    redactJSON fl tbl b = utf8Encode (jsonMarshalAny fl (redactWalk tbl v)) := by
  have hne : b.length ≠ 0 := by
    intro h
    have hb : b = [] := List.length_eq_zero.1 h
    rw [hb, jsonUnmarshalAny_nil] at hv
    cases hv
  simp only [redactJSON, hne, if_false, hv]

/-- Function `redactJSONBytes` on a text that `json.Unmarshal` accepts. -/
theorem redactJSONBytes_ok (fl : Float64Text) (tbl : Nat → Nat) (b : List Nat) (v : GoVal)
    (hv : jsonUnmarshalAny fl b = some v) :
    redactJSONBytes fl tbl b = utf8Encode (jsonMarshalAny fl (redactWalk tbl v)) := by
  simp only [redactJSONBytes, hv]

/-- Function `marshalRedacted` on a proto message whose `protojson` text
`json.Unmarshal` accepts. -/
theorem marshalRedacted_ok (fl : Float64Text) (tbl : Nat → Nat) (m : LoggedMessage)
    (b : List Nat) (v : GoVal) (hp : m.isProto = true) (hb : m.protoJSON = .ok b)
    (hv : jsonUnmarshalAny fl b = some v) :
    marshalRedacted fl tbl (some m) = utf8Encode (jsonMarshalAny fl (redactWalk tbl v)) := by
  simp only [marshalRedacted, hp, if_true, hb, redactJSONBytes_ok fl tbl b v hv]

set_option maxRecDepth 1000000 in
/-- C16 (as stated) fails: the body of a login that lacks its closing brace is
no JSON, so `redactJSON` returns it as it is, and the field `req` of the
request log is the body with the password in it, although `password` is one
of the keys. -/
theorem C16_redaction_counterexample :
    isRedactKey id "password" = true ∧
    redactJSON sampleFloats id brokenLoginBody = brokenLoginBody ∧
    redactJSONBytes sampleFloats id brokenLoginBody = brokenLoginBody ∧
    requestLoggerReq sampleFloats id (loginRequest brokenLoginBody) = brokenLoginBody ∧
    Contains (requestLoggerReq sampleFloats id (loginRequest brokenLoginBody))
      (runes "hunter2") = true := by
  refine ⟨by decide, by decide, by decide, by decide, by decide⟩

/-- C16 (amended): for a body that `json.Unmarshal` accepts, `redactJSON` and
`redactJSONBytes` (and `marshalRedacted` for a proto message with that JSON
text) return the JSON text of the walked value; in the walked value every key
whose lower-case form is one of the nine keys holds the sentinel, at any depth
of maps and slices; and the text is the same for every other accepted body
whose value differs only under such keys, so it does not depend on the
original values of those keys. -/
theorem C16_redaction (fl : Float64Text) (tbl : Nat → Nat) (b : List Nat) (v : GoVal)
    (hv : jsonUnmarshalAny fl b = some v) :
    redactJSON fl tbl b = utf8Encode (jsonMarshalAny fl (redactWalk tbl v)) ∧
    redactJSONBytes fl tbl b = utf8Encode (jsonMarshalAny fl (redactWalk tbl v)) ∧
    (∀ m : LoggedMessage, m.isProto = true → m.protoJSON = .ok b →
      marshalRedacted fl tbl (some m) = utf8Encode (jsonMarshalAny fl (redactWalk tbl v))) ∧
    Redacted tbl (redactWalk tbl v) ∧
    ∀ (b' : List Nat) (v' : GoVal), jsonUnmarshalAny fl b' = some v' → SecretsApart tbl v v' →
      redactJSON fl tbl b' = redactJSON fl tbl b ∧
      redactJSONBytes fl tbl b' = redactJSONBytes fl tbl b := by
  refine ⟨redactJSON_ok fl tbl b v hv, redactJSONBytes_ok fl tbl b v hv, ?_,
    redactWalk_redacted tbl v, ?_⟩
  · intro m hp hb
    exact marshalRedacted_ok fl tbl m b v hp hb hv
  · intro b' v' hv' hsec
    have hw : redactWalk tbl v = redactWalk tbl v' := redactWalk_secretsApart tbl v v' hsec
    rw [redactJSON_ok fl tbl b v hv, redactJSON_ok fl tbl b' v' hv',
      redactJSONBytes_ok fl tbl b v hv, redactJSONBytes_ok fl tbl b' v' hv', hw]
    exact ⟨rfl, rfl⟩

set_option maxRecDepth 1000000 in
/-- The body of a login: the logged text holds the sentinel in place of the
password, and it is the same text for the login with another password. -/
theorem C16_redaction_witness :
    redactJSON sampleFloats id loginBody = redactedLoginBody ∧
    redactJSON sampleFloats id otherLoginBody = redactJSON sampleFloats id loginBody :=
  have h := C16_redaction sampleFloats id loginBody
    (.map [("email", .string "a@x.com"), ("password", .string "hunter2")]) rfl
  ⟨by decide,
   (h.2.2.2.2 otherLoginBody
      (.map [("email", .string "a@x.com"), ("password", .string "s3cret!")]) rfl
      (by simp [SecretsApart, SecretsApartEntries, isRedactKey, redactKeys, ToLower, runes,
            ofRunes, unicodeToLower])).1⟩

/-! ## The logging middleware of the gateway -/

/-- Function `MiddlewareLogging` writes the body of a request as it is into the field
`req_body` when the content type contains `json` and there is a body. -/
theorem MiddlewareLogging_req_body (tbl : Nat → Nat) (next : HttpRequest → List ResponseCall)
    (reqID dur : String) (r : HttpRequest) (b : List Nat)
    (hct : Contains (runes (ToLower tbl r.ContentType)) (runes "json") = true)
    (hb : r.Body = some b) :
    ("req_body", LogValue.text b) ∈ MiddlewareLogging tbl next reqID dur r := by
  simp [MiddlewareLogging, hct, hb]

set_option maxRecDepth 1000000 in
/-- C17 (code bug), the code at the failing input: a login is posted to the
gateway with the content type `application/json` and a body that holds the
password `hunter2`. Whatever the handler does, the record that
`MiddlewareLogging` writes has the field `req_body` with the body as it is,
password included; the request logger of auth-service writes the same body
with the sentinel in place of the password. -/
theorem C17_gateway_logs_password (next : HttpRequest → List ResponseCall)
    (reqID dur : String) :
    ("req_body", LogValue.text loginBody) ∈
      MiddlewareLogging id next reqID dur (loginRequest loginBody) ∧
    Contains loginBody (runes "hunter2") = true ∧
    requestLoggerReq sampleFloats id (loginRequest loginBody) = redactedLoginBody ∧
    Contains redactedLoginBody (runes "hunter2") = false := by
  refine ⟨?_, by decide, by decide, by decide⟩
  exact MiddlewareLogging_req_body id next reqID dur (loginRequest loginBody) loginBody
    (by decide) rfl

/-! ## The fan-out hub -/

theorem mem_roomsSet {rooms : List (String × List Conn)} {roomID : String} {rs : List Conn}
    {e : String × List Conn} (h : e ∈ roomsSet rooms roomID rs) :
    e = (roomID, rs) ∨ e ∈ rooms := by
  induction rooms with
  | nil =>
    simp only [roomsSet, List.mem_singleton] at h
    exact Or.inl h
  | cons x rest ih =>
    obtain ⟨k, v⟩ := x
    simp only [roomsSet] at h
    by_cases hk : k = roomID
    · simp only [hk, if_true, List.mem_cons] at h
      rcases h with h | h
      · exact Or.inl h
      · exact Or.inr (List.mem_cons_of_mem _ h)
    · simp only [hk, if_false, List.mem_cons] at h
      rcases h with h | h
      · exact Or.inr (h ▸ List.mem_cons_self _ _)
      · rcases ih h with h' | h'
        · exact Or.inl h'
        · exact Or.inr (List.mem_cons_of_mem _ h')

/-- A set found by the lookup is an entry of the map, under the key asked for. -/
theorem lookup_mem {h : Hub} {roomID : String} {rs : List Conn} (hl : h.lookup roomID = some rs) :
    (roomID, rs) ∈ h.rooms := by
  unfold Hub.lookup at hl
  cases hf : h.rooms.find? (fun e => e.1 == roomID) with
  | none => rw [hf] at hl; cases hl
  | some e =>
    rw [hf] at hl
    simp only [Option.some.injEq] at hl
    have hm := List.mem_of_find?_eq_some hf
    have hp := List.find?_some hf
    simp only [beq_iff_eq] at hp
    obtain ⟨k, v⟩ := e
    simp only at hp hl
    subst hp
    subst hl
    exact hm

theorem setInsert_nodup {rs : List Conn} (c : Conn) (h : rs.Nodup) : (setInsert rs c).Nodup := by
  unfold setInsert
  split_ifs with hc
  · exact h
  · exact List.Nodup.append h (List.nodup_singleton c) (by
      intro x hx hx'
      simp only [List.mem_singleton] at hx'
      exact hc (hx' ▸ hx))

theorem mem_setInsert {rs : List Conn} {c x : Conn} (h : x ∈ setInsert rs c) : x ∈ rs ∨ x = c := by
  unfold setInsert at h
  split_ifs at h with hc
  · exact Or.inl h
  · simp only [List.mem_append, List.mem_singleton] at h
    exact h

theorem WellFormed_NewHub : NewHub.WellFormed := by
  intro e he
  simp [NewHub] at he

/-- Method `Add` keeps the hub well formed. -/
theorem WellFormed_Add (h : Hub) (c : Conn) (hw : h.WellFormed) : (h.Add c).WellFormed := by
  unfold Hub.Add
  cases hl : h.lookup c.RoomID with
  | none =>
    intro e he
    rcases mem_roomsSet he with rfl | he
    · refine ⟨setInsert_nodup c List.nodup_nil, ?_⟩
      intro x hx
      have hx' : x ∈ setInsert [] c := hx
      rcases mem_setInsert hx' with hx | hx
      · simp at hx
      · rw [hx]; rfl
    · exact hw e he
  | some rs =>
    have hrs := hw _ (lookup_mem hl)
    intro e he
    rcases mem_roomsSet he with rfl | he
    · refine ⟨setInsert_nodup c hrs.1, ?_⟩
      intro x hx
      have hx' : x ∈ setInsert rs c := hx
      rcases mem_setInsert hx' with hx | hx
      · exact hrs.2 x hx
      · rw [hx]; rfl
    · exact hw e he

/-- Method `Remove` keeps the hub well formed. -/
theorem WellFormed_Remove (h : Hub) (c : Conn) (hw : h.WellFormed) :
    (h.Remove c).WellFormed := by
  unfold Hub.Remove
  cases hl : h.lookup c.RoomID with
  | none => exact hw
  | some rs =>
    have hrs := hw _ (lookup_mem hl)
    simp only
    split_ifs with hlen
    · intro e he
      simp only [roomsDelete, List.mem_filter] at he
      exact hw e he.1
    · intro e he
      rcases mem_roomsSet he with rfl | he
      · exact ⟨hrs.1.erase c, fun x hx => hrs.2 x (List.mem_of_mem_erase hx)⟩
      · exact hw e he

/-- Every hub that additions and removals make of a new hub is well formed. -/
theorem WellFormed_runHub (ops : List HubOp) : (runHub ops).WellFormed := by
  unfold runHub
  have : ∀ (h : Hub), h.WellFormed → (ops.foldl Hub.step h).WellFormed := by
    induction ops with
    | nil => intro h hw; exact hw
    | cons op rest ih =>
      intro h hw
      simp only [List.foldl_cons]
      apply ih
      cases op with
      | add c => exact WellFormed_Add h c hw
      | remove c => exact WellFormed_Remove h c hw
  exact this NewHub WellFormed_NewHub

/-- In a well-formed hub the sessions of a room are listed once each and are
sessions of that room. -/
theorem sessions_facts (h : Hub) (hw : h.WellFormed) (roomID : String) :
    (h.sessions roomID).Nodup ∧ ∀ c ∈ h.sessions roomID, c.roomID = roomID := by
  unfold Hub.sessions
  cases hl : h.lookup roomID with
  | none => simp
  | some rs => exact hw _ (lookup_mem hl)

/-- What `Broadcast` sends: the message, once to each session of the room. -/
theorem Broadcast_sends (h : Hub) (roomID : String) (msg : Message) :
    (h.Broadcast roomID msg).2 = (h.sessions roomID).map (fun c => (c, msg)) := by
  unfold Hub.Broadcast Hub.sessions
  cases h.lookup roomID <;> rfl

/-- In a list without repetition, the elements equal to a member are that
member, once. -/
theorem filter_eq_of_nodup {l : List Conn} (hn : l.Nodup) {c : Conn} (hc : c ∈ l) :
    l.filter (fun x => decide (x = c)) = [c] := by
  induction l with
  | nil => simp at hc
  | cons a l ih =>
    rw [List.nodup_cons] at hn
    by_cases hac : a = c
    · subst hac
      have hnone : l.filter (fun x => decide (x = a)) = [] := by
        rw [List.filter_eq_nil_iff]
        intro x hx
        simp only [decide_eq_true_eq]
        intro hxa
        exact hn.1 (hxa ▸ hx)
      simp [List.filter_cons, hnone]
    · have hc' : c ∈ l := by
        rcases List.mem_cons.1 hc with h | h
        · exact absurd h.symm hac
        · exact h
      simp [List.filter_cons, hac, ih hn.2 hc']

/-- The loop body of `readLoop` neither closes the session nor removes it from the hub. -/
theorem onFrame_no_teardown (s : Server) (c : Conn) (f : Frame) (x : WsCall)
    (hx : x ∈ s.onFrame c f) : x ≠ .connClose c ∧ x ≠ .hubRemove c := by
  cases f with
  | pong =>
    simp only [Server.onFrame, List.mem_singleton] at hx
    subst hx
    constructor <;> intro h <;> cases h
  | malformed => simp [Server.onFrame] at hx
  | other t => simp [Server.onFrame] at hx
  | chatUndecoded => simp [Server.onFrame] at hx
  | chat p env =>
    obtain ⟨save, now⟩ := env
    obtain ⟨hasSvc⟩ := s
    cases hasSvc <;> cases save <;> simp only [Server.onFrame] at hx <;>
      split_ifs at hx <;> simp at hx <;>
      (try rcases hx with h | h | h) <;> (try subst h) <;> simp

/-- Every execution of `HandleWS` that gets a session: what it calls ends with
the close the read loop makes on its way out, the removal from the hub, the
leave, the broadcast of `peer_left` and the close of `HandleWS` itself, and
nothing before that closes the session or removes it from the hub. -/
theorem HandleWS_teardown (s : Server) (r : UpgradeRequest) (uid : Int) (addr : Nat)
    (htok : TrimSpace r.accessToken ≠ "")
    (huid : ParseInt (runes (TrimSpace r.userID)) 10 = some uid) (hpos : 0 < uid)
    (hroom : r.roomID ≠ "") (hup : r.upgrade = .ok addr) :
    ∃ pre : List WsCall,
      s.HandleWS r = pre ++
        [.connClose { addr := addr, roomID := r.roomID, userID := uid },
         .hubRemove { addr := addr, roomID := r.roomID, userID := uid },
         .leaveRoom r.roomID uid,
         .hubBroadcast r.roomID
           { Typ := TypePeerLeft,
             Payload := .peerEvent { RoomID := r.roomID, UserID := TrimSpace r.userID } },
         .connClose { addr := addr, roomID := r.roomID, userID := uid }] ∧
      (∀ x ∈ pre, x ≠ .connClose { addr := addr, roomID := r.roomID, userID := uid } ∧
        x ≠ .hubRemove { addr := addr, roomID := r.roomID, userID := uid }) := by
  have hpos' : ¬ uid ≤ 0 := by omega
  refine ⟨[.hubAdd { addr := addr, roomID := r.roomID, userID := uid }] ++
      Server.sendState { addr := addr, roomID := r.roomID, userID := uid } r.participants ++
      [.hubBroadcast r.roomID
         { Typ := TypePeerJoined,
           Payload := .peerEvent { RoomID := r.roomID, UserID := TrimSpace r.userID } },
       .goWriteLoop { addr := addr, roomID := r.roomID, userID := uid }] ++
      ([.touchHeartbeat r.roomID uid] ++
        (r.frames.map
          (s.onFrame { addr := addr, roomID := r.roomID, userID := uid })).flatten), ?_, ?_⟩
  · simp only [Server.HandleWS, htok, if_false, huid, hpos', hroom, hup, Server.readLoop,
      List.append_assoc, List.cons_append, List.nil_append, List.singleton_append]
  · intro x hx
    simp only [List.mem_append, List.mem_cons, List.mem_singleton, List.not_mem_nil, or_false,
      List.mem_flatten, List.mem_map] at hx
    rcases hx with ((hx | hx) | hx) | hx
    · subst hx
      constructor <;> intro h <;> cases h
    · unfold Server.sendState at hx
      cases hp : r.participants with
      | error e =>
        rw [hp] at hx
        simp only [List.mem_singleton] at hx
        subst hx
        constructor <;> intro h <;> cases h
      | ok ps =>
        rw [hp] at hx
        simp only [List.mem_cons, List.mem_singleton, List.not_mem_nil, or_false] at hx
        rcases hx with hx | hx <;> subst hx <;> constructor <;> intro h <;> cases h
    · rcases hx with hx | hx <;> subst hx <;> constructor <;> intro h <;> cases h
    · rcases hx with hx | ⟨l, ⟨f, _, hf⟩, hxl⟩
      · subst hx
        constructor <;> intro h <;> cases h
      · subst hf
        exact onFrame_no_teardown s _ f x hxl

set_option maxRecDepth 1000000 in
/-- C19 (code bug), the code at the failing input: user 1 opens a session for
room `r1` and the read loop ends at once. The calls of `HandleWS` are, in
order: add to the hub, list the participants, send the roster, broadcast
`peer_joined`, start the write loop, touch the heartbeat, close the session
(the deferred close of the read loop), remove it from the hub, leave the room,
broadcast `peer_left`, close the session. The first close is call 6, the
removal from the hub is call 7. -/
theorem C19_close_before_remove :
    sampleServer.HandleWS sampleUpgrade =
      [.hubAdd connA, .listParticipants "r1",
       .connSend connA { Typ := TypeState, Payload := .state "r1" [] },
       .hubBroadcast "r1"
         { Typ := TypePeerJoined, Payload := .peerEvent { RoomID := "r1", UserID := "1" } },
       .goWriteLoop connA, .touchHeartbeat "r1" 1,
       .connClose connA, .hubRemove connA, .leaveRoom "r1" 1,
       .hubBroadcast "r1"
         { Typ := TypePeerLeft, Payload := .peerEvent { RoomID := "r1", UserID := "1" } },
       .connClose connA] ∧
    firstIndex (fun x => decide (x = .connClose connA)) (sampleServer.HandleWS sampleUpgrade) =
      some 6 ∧
    firstIndex (fun x => decide (x = .hubRemove connA)) (sampleServer.HandleWS sampleUpgrade) =
      some 7 := by
  refine ⟨by decide, by decide, by decide⟩

/-- C20: for a received chat message, (1) a text that is blank after trimming
makes no call at all: nothing is saved, broadcast or acknowledged; (2) when
the text is not blank and the save succeeds with a non-empty id `i` and a time
`t` that is not the zero time, the calls are the save, then one broadcast to
the room of a `chat` message with the trimmed text, `msg_id = i` and
`ts_unix` the Unix second of `t`, then one `chat_ack` with `i` sent to the
sender's own session; (3) when the save fails, the calls are the save and one
broadcast of a `chat` message with the trimmed text, no `msg_id` and `ts_unix`
the Unix second of the clock, and nothing else. -/
theorem C20_chat_message (s : Server) (c : Conn) (p : ChatPayload) (env : ChatEnv) :
    (TrimSpace p.Message = "" → s.onFrame c (.chat p env) = []) ∧
    (TrimSpace p.Message ≠ "" → s.hasChatSvc = true →
      ∀ (i : String) (t : Time), env.save = .ok (i, t) → i ≠ "" → t.IsZero = false →
        s.onFrame c (.chat p env) =
          [.chatSave c.roomID c.userID (TrimSpace p.Message),
           .hubBroadcast c.roomID
             { Typ := TypeChat,
               Payload := .chat { RoomID := c.roomID, UserID := formatInt c.userID,
                                  Message := TrimSpace p.Message, MsgID := i,
                                  TSUnix := t.Unix } },
           .connSend c { Typ := TypeChatAck, Payload := .chatAck { MsgID := i } }]) ∧
    (TrimSpace p.Message ≠ "" → s.hasChatSvc = true →
      ∀ e : GoError, env.save = .error e → env.now.IsZero = false →
        s.onFrame c (.chat p env) =
          [.chatSave c.roomID c.userID (TrimSpace p.Message),
           .hubBroadcast c.roomID
             { Typ := TypeChat,
               Payload := .chat { RoomID := c.roomID, UserID := formatInt c.userID,
                                  Message := TrimSpace p.Message, MsgID := "",
                                  TSUnix := env.now.Unix } }]) := by
  refine ⟨?_, ?_, ?_⟩
  · intro h
    simp only [Server.onFrame, h, if_true]
  · intro h hs i t hsave hi ht
    simp [Server.onFrame, h, hs, hsave, hi, ht]
  · intro h hs e hsave hnow
    simp [Server.onFrame, h, hs, hsave, hnow]

set_option maxRecDepth 1000000 in
/-- User 1 sends ` hello ` in room `r1` and the save gives the id `m1` and the
time of 1 January 2024: the message is saved, broadcast with the trimmed
text, the id and the second 1704067200, and acknowledged to the sender. -/
theorem C20_chat_message_witness :
    sampleServer.onFrame connA
        (.chat incomingChat { save := .ok ("m1", sampleTime), now := sampleTime }) =
      [.chatSave "r1" 1 "hello",
       .hubBroadcast "r1"
         { Typ := TypeChat,
           Payload := .chat { RoomID := "r1", UserID := "1", Message := "hello", MsgID := "m1",
                              TSUnix := 1704067200 } },
       .connSend connA { Typ := TypeChatAck, Payload := .chatAck { MsgID := "m1" } }] :=
  (C20_chat_message sampleServer connA incomingChat
      { save := .ok ("m1", sampleTime), now := sampleTime }).2.1
    (by decide) rfl "m1" sampleTime rfl (by decide) (by decide)
/-! ## Leaving a room -/

theorem filter_not_eq_self {α : Type} (p : α → Bool) (l : List α)
    (h : l.any p = false) : l.filter (fun x => !p x) = l := by
  induction l with
  | nil => rfl
  | cons a l ih =>
    simp only [List.any_cons, Bool.or_eq_false_iff] at h
    simp only [List.filter_cons, h.1, Bool.not_false, if_true]
    rw [ih h.2]

theorem filter_eq_nil_of_any {α : Type} (p : α → Bool) (l : List α)
    (h : l.any p = false) : l.filter p = [] := by
  induction l with
  | nil => rfl
  | cons a l ih =>
    simp only [List.any_cons, Bool.or_eq_false_iff] at h
    simp only [List.filter_cons, h.1]
    exact ih h.2

theorem filter_length_pos_of_any {α : Type} (p : α → Bool) (l : List α)
    (h : l.any p = true) : 0 < (l.filter p).length := by
  induction l with
  | nil => simp at h
  | cons a l ih =>
    simp only [List.any_cons, Bool.or_eq_true] at h
    by_cases ha : p a = true
    · simp [List.filter_cons, ha]
    · simp only [Bool.not_eq_true] at ha
      simp only [List.filter_cons, ha]
      rcases h with h | h
      · rw [ha] at h; cases h
      · exact ih h

/-- With a statement that works, `LeaveRoom` fails with `ErrNotInRoom`, and
changes nothing, when the user has no row in the room. -/
theorem LeaveRoom_absent (db : DB) (roomID : String) (userID : Int)
    (h : ParticipantRepository.Exists db roomID userID = false) :
    MemberService.LeaveRoom none db roomID userID = (db, .error ErrNotInRoom) := by
  unfold ParticipantRepository.Exists at h
  have h1 := filter_eq_nil_of_any _ _ h
  have h2 := filter_not_eq_self _ _ h
  simp only [MemberService.LeaveRoom, ParticipantRepository.Leave, execDeleteParticipant,
    deleteParticipant, h1, h2, List.length_nil, if_true]

/-- With a statement that works, `LeaveRoom` succeeds when the user has a row in
the room, and deletes the rows of that user in that room and no other row. -/
theorem LeaveRoom_present (db : DB) (roomID : String) (userID : Int)
    (h : ParticipantRepository.Exists db roomID userID = true) :
    MemberService.LeaveRoom none db roomID userID =
      ({ db with
          participants :=
            db.participants.filter (fun p => !(p.RoomID == roomID && p.UserID == userID)) },
        .ok ()) := by
  unfold ParticipantRepository.Exists at h
  have h1 := filter_length_pos_of_any _ _ h
  simp only [MemberService.LeaveRoom, ParticipantRepository.Leave, execDeleteParticipant,
    deleteParticipant]
  rw [if_neg (by omega)]

/-- When the statement fails, `LeaveRoom` returns `ErrNotInRoom`, whatever the
failure and whether or not the user has a row in the room. -/
theorem LeaveRoom_fault (e : GoError) (db : DB) (roomID : String) (userID : Int) :
    MemberService.LeaveRoom (some e) db roomID userID = (db, .error ErrNotInRoom) := by
  simp [MemberService.LeaveRoom, ParticipantRepository.Leave, execDeleteParticipant]

/-- C21 (code bug), the code at the failing input: users 1 and 2 are in room
`r`, and the `DELETE` of `LeaveRoom("r", 1)` fails because the connection is
lost. The row of user 1 exists, and yet the call fails with `ErrNotInRoom`;
the error of the statement is not returned. With a statement that works the
same call deletes the row of user 1 and no other, and the call for user 3,
who has no row, fails with `ErrNotInRoom`. -/
theorem C21_leave_storage_error :
    ParticipantRepository.Exists rosterDB "r" 1 = true ∧
    MemberService.LeaveRoom (some connLost) rosterDB "r" 1 =
      (rosterDB, .error ErrNotInRoom) ∧
    connLost.is ErrNotInRoom = false ∧
    MemberService.LeaveRoom none rosterDB "r" 1 = (rosterDBWithout1, .ok ()) ∧
    ParticipantRepository.Exists rosterDB "r" 3 = false ∧
    MemberService.LeaveRoom none rosterDB "r" 3 = (rosterDB, .error ErrNotInRoom) := by
  refine ⟨by decide, by decide, by decide, by decide, by decide, by decide⟩

/-! ## Saving a chat message -/

theorem byteLen_ge (s : String) : (runes s).length ≤ byteLen s :=
  utf8Encode_length (runes s)

theorem utf8Encode_replicate_two (n r : Nat) (h1 : 0x80 ≤ r) (h2 : r < 0x800) :
    (utf8Encode (List.replicate n r)).length = 2 * n := by
  induction n with
  | zero => rfl
  | succ n ih =>
    have h3 : ¬ r < 0x80 := by omega
    simp only [List.replicate_succ, utf8Encode, utf8EncodeRune, h3, h2, if_false, if_true,
      List.length_append, List.length_cons, List.length_nil, ih]
    omega

theorem dropWhile_replicate_false {α : Type} (p : α → Bool) (n : Nat) (a : α)
    (h : p a = false) : (List.replicate n a).dropWhile p = List.replicate n a := by
  cases n with
  | zero => rfl
  | succ n => simp [List.replicate_succ, List.dropWhile_cons, h]

theorem TrimSpace_replicate (n r : Nat) (hs : isSpace r = false) (hr : r < 0xD800) :
    TrimSpace (ofRunes (List.replicate n r)) = ofRunes (List.replicate n r) := by
  have hrunes : runes (ofRunes (List.replicate n r)) = List.replicate n r :=
    runes_ofRunes_small _ (fun x hx => by rw [List.eq_of_mem_replicate hx]; exact hr)
  unfold TrimSpace
  rw [hrunes, dropWhile_replicate_false _ _ _ hs, List.reverse_replicate,
    dropWhile_replicate_false _ _ _ hs, List.reverse_replicate]

theorem wideText_facts :
    TrimSpace wideText = wideText ∧ (runes wideText).length = 2001 ∧ byteLen wideText = 4002 ∧
      wideText ≠ "" := by
  have hrunes : runes wideText = List.replicate 2001 1103 :=
    runes_ofRunes_small _ (fun x hx => by rw [List.eq_of_mem_replicate hx]; norm_num)
  refine ⟨TrimSpace_replicate 2001 1103 (by decide) (by norm_num), ?_, ?_, ?_⟩
  · rw [hrunes, List.length_replicate]
  · unfold byteLen
    rw [hrunes, utf8Encode_replicate_two 2001 1103 (by norm_num) (by norm_num)]
  · intro h
    have h2 : (runes wideText).length = (runes "").length := by rw [h]
    rw [hrunes, List.length_replicate] at h2
    have h3 : (runes "").length = 0 := by decide
    omega

/-- A text that is empty after trimming is refused, whatever the store does,
and nothing is stored. -/
theorem Save_empty (fault : Option GoError) (db : DB) (roomID : String) (userID : Int)
    (text : String) (row : Assigned) (h : TrimSpace text = "") :
    ChatService.Save fault db roomID userID text row = (db, .error (.lib "empty message")) := by
  simp [ChatService.Save, h]

/-- A text of more than 4000 bytes after trimming is refused, whatever the store
does, and nothing is stored. -/
theorem Save_too_long (fault : Option GoError) (db : DB) (roomID : String) (userID : Int)
    (text : String) (row : Assigned) (h1 : TrimSpace text ≠ "")
    (h2 : 4000 < byteLen (TrimSpace text)) :
    ChatService.Save fault db roomID userID text row =
      (db, .error (.lib "message too long")) := by
  simp [ChatService.Save, h1, h2]

/-- Any other text is stored in its trimmed form when the store works. -/
theorem Save_stores (db : DB) (roomID : String) (userID : Int)
    (text : String) (row : Assigned) (h1 : TrimSpace text ≠ "")
    (h2 : byteLen (TrimSpace text) ≤ 4000) :
    ChatService.Save none db roomID userID text row =
      ({ db with
          messages := db.messages ++
            [{ ID := row.id, RoomID := roomID, UserID := userID, Text := TrimSpace text,
               ReplyTo := none, CreatedAt := row.createdAt }] },
        .ok (row.id, row.createdAt)) := by
  have h3 : ¬ 4000 < byteLen (TrimSpace text) := by omega
  simp [ChatService.Save, ChatRepository.Save, h1, h3]

/-- C22 (as stated) fails: a text of 2001 Cyrillic letters has a trimmed length
between 1 and 4000 characters and is refused as too long, because the code
counts the 4002 bytes of the text; nothing is stored. -/
theorem C22_chat_save_counterexample :
    (runes (TrimSpace wideText)).length = 2001 ∧
    byteLen (TrimSpace wideText) = 4002 ∧
    ChatService.Save none sampleDB "r" 1 wideText sampleAssigned =
      (sampleDB, .error (.lib "message too long")) := by
  obtain ⟨ht, hl, hb, hne⟩ := wideText_facts
  refine ⟨by rw [ht]; exact hl, by rw [ht]; exact hb, ?_⟩
  exact Save_too_long none sampleDB "r" 1 wideText sampleAssigned (by rw [ht]; exact hne)
    (by rw [ht, hb]; norm_num)

/-- C22 (amended): the limit of `ChatService.Save` is 4000 bytes of the trimmed
text, not 4000 characters, and its refusals are errors made on the spot, with
the texts `empty message` and `message too long`. A text that is empty after
trimming, and a text whose trimmed form has more than 4000 bytes (as every
text of more than 4000 characters has), is refused and nothing is stored,
whatever the store does. With a store that works these are the only refusals:
every text whose trimmed form has between 1 and 4000 bytes is stored in its
trimmed form, under the id and time the database assigns. -/
theorem C22_chat_save (fault : Option GoError) (db : DB) (roomID : String) (userID : Int)
    (text : String) (row : Assigned) :
    (TrimSpace text = "" →
      ChatService.Save fault db roomID userID text row =
        (db, .error (.lib "empty message"))) ∧
    (TrimSpace text ≠ "" → 4000 < byteLen (TrimSpace text) →
      ChatService.Save fault db roomID userID text row =
        (db, .error (.lib "message too long"))) ∧
    (4000 < (runes (TrimSpace text)).length → 4000 < byteLen (TrimSpace text)) ∧
    (TrimSpace text ≠ "" → byteLen (TrimSpace text) ≤ 4000 →
      ChatService.Save none db roomID userID text row =
        ({ db with
            messages := db.messages ++
              [{ ID := row.id, RoomID := roomID, UserID := userID, Text := TrimSpace text,
                 ReplyTo := none, CreatedAt := row.createdAt }] },
          .ok (row.id, row.createdAt))) ∧
    ((∃ e, (ChatService.Save none db roomID userID text row).2 = .error e) ↔
      (TrimSpace text = "" ∨ 4000 < byteLen (TrimSpace text))) := by
  refine ⟨Save_empty fault db roomID userID text row,
    Save_too_long fault db roomID userID text row,
    fun h => lt_of_lt_of_le h (byteLen_ge _),
    Save_stores db roomID userID text row, ?_⟩
  by_cases h1 : TrimSpace text = ""
  · rw [Save_empty none db roomID userID text row h1]
    exact ⟨fun _ => Or.inl h1, fun _ => ⟨_, rfl⟩⟩
  · by_cases h2 : 4000 < byteLen (TrimSpace text)
    · rw [Save_too_long none db roomID userID text row h1 h2]
      exact ⟨fun _ => Or.inr h2, fun _ => ⟨_, rfl⟩⟩
    · rw [Save_stores db roomID userID text row h1 (by omega)]
      constructor
      · rintro ⟨e, he⟩; cases he
      · rintro (h | h)
        · exact absurd h h1
        · exact absurd h h2

/-- The text `  hello ` is stored as `hello`; a blank text is refused. -/
theorem C22_chat_save_witness :
    TrimSpace "  hello " ≠ "" ∧ byteLen (TrimSpace "  hello ") ≤ 4000 ∧
    ChatService.Save none sampleDB "r" 1 "  hello " sampleAssigned =
      ({ sampleDB with
          messages := sampleDB.messages ++
            [{ ID := sampleAssigned.id, RoomID := "r", UserID := 1, Text := TrimSpace "  hello ",
               ReplyTo := none, CreatedAt := sampleAssigned.createdAt }] },
        .ok (sampleAssigned.id, sampleAssigned.createdAt)) ∧
    TrimSpace "  hello " = "hello" ∧
    ChatService.Save none sampleDB "r" 1 "   " sampleAssigned =
      (sampleDB, .error (.lib "empty message")) :=
  ⟨by decide, by decide,
    (C22_chat_save none sampleDB "r" 1 "  hello " sampleAssigned).2.2.2.1 (by decide) (by decide),
    by decide,
    (C22_chat_save none sampleDB "r" 1 "   " sampleAssigned).1 (by decide)⟩

/-! ## Page limits and room creation -/

theorem listQuery_length (db : DB) (cur : Option Cursor) (n : Nat) :
    (listQuery db cur n).length ≤ n := by
  unfold listQuery; rw [List.length_take]; exact Nat.min_le_left _ _

theorem historyQuery_length (db : DB) (roomID : String) (cur : Option Cursor) (n : Nat) :
    (historyQuery db roomID cur n).length ≤ n := by
  unfold historyQuery; rw [List.length_take]; exact Nat.min_le_left _ _

/-- The page of `ListRooms` is the query at the clamped limit. -/
theorem ListRooms_page (db : DB) (limit : Int) (cursor : String) (rooms : List Room)
    (next : String) (h : RoomService.ListRooms db limit cursor = .ok (rooms, next)) :
    ∃ cur, DecodeCursor cursor = .ok cur ∧ rooms = listQuery db cur (listLimit limit) := by
  unfold RoomService.ListRooms RoomRepository.List at h
  cases hd : DecodeCursor cursor with
  | error e => rw [hd] at h; cases h
  | ok cur =>
    rw [hd] at h
    simp only [Except.ok.injEq, Prod.mk.injEq] at h
    exact ⟨cur, rfl, h.1.symm⟩

/-- The page of `History` is the query at the clamped limit. -/
theorem History_page (db : DB) (roomID after : String) (limit : Int) (page : List ChatMessage)
    (next : String) (h : ChatService.History db roomID after limit = .ok (page, next)) :
    ∃ cur, DecodeCursor after = .ok cur ∧
      page = historyQuery db roomID cur (historyLimit limit) := by
  unfold ChatService.History ChatRepository.History at h
  cases hd : DecodeCursor after with
  | error e => rw [hd] at h; cases h
  | ok cur =>
    rw [hd] at h
    simp only [Except.ok.injEq, Prod.mk.injEq] at h
    exact ⟨cur, rfl, h.1.symm⟩

/-- C26: the page limit actually used is clamped. Every page `ListRooms` returns
is the result of the rooms query run with the limit 20 when the requested
limit is zero or less, 50 when it is above 50, and the requested limit
otherwise; every page `History` returns is the result of the messages query
run with the limit 50 when the requested limit is zero or less, 100 when it is
above 100, and the requested limit otherwise. So a page never holds more than
50 rooms or 100 messages, nor more rows than a requested limit within the
bounds. -/
theorem C26_page_limits (db : DB) (limit : Int) (cursor roomID after : String) :
    (∀ rooms next, RoomService.ListRooms db limit cursor = .ok (rooms, next) →
      ∃ cur, DecodeCursor cursor = .ok cur ∧
        (limit ≤ 0 → rooms = listQuery db cur 20) ∧
        (50 < limit → rooms = listQuery db cur 50) ∧
        (0 < limit → limit ≤ 50 →
          rooms = listQuery db cur limit.toNat ∧ (limit.toNat : Int) = limit ∧
            (rooms.length : Int) ≤ limit) ∧
        rooms.length ≤ 50) ∧
    (∀ page next, ChatService.History db roomID after limit = .ok (page, next) →
      ∃ cur, DecodeCursor after = .ok cur ∧
        (limit ≤ 0 → page = historyQuery db roomID cur 50) ∧
        (100 < limit → page = historyQuery db roomID cur 100) ∧
        (0 < limit → limit ≤ 100 →
          page = historyQuery db roomID cur limit.toNat ∧ (limit.toNat : Int) = limit ∧
            (page.length : Int) ≤ limit) ∧
        page.length ≤ 100) := by
  constructor
  · intro rooms next h
    obtain ⟨cur, hd, hq⟩ := ListRooms_page db limit cursor rooms next h
    have hlen := listQuery_length db cur (listLimit limit)
    rw [← hq] at hlen
    refine ⟨cur, hd, ?_, ?_, ?_, ?_⟩
    · intro hl; rw [hq]; simp [listLimit, hl]
    · intro hl
      have h1 : ¬ limit ≤ 0 := by omega
      rw [hq]; simp [listLimit, h1, hl]
    · intro h0 h50
      have h1 : ¬ limit ≤ 0 := by omega
      have h2 : ¬ limit > 50 := by omega
      have h3 : listLimit limit = limit.toNat := by simp [listLimit, h1, h2]
      rw [h3] at hq hlen
      have h4 : (limit.toNat : Int) = limit := Int.toNat_of_nonneg (by omega)
      exact ⟨hq, h4, by omega⟩
    · have := (listLimit_pos limit).2; omega
  · intro page next h
    obtain ⟨cur, hd, hq⟩ := History_page db roomID after limit page next h
    have hlen := historyQuery_length db roomID cur (historyLimit limit)
    rw [← hq] at hlen
    refine ⟨cur, hd, ?_, ?_, ?_, ?_⟩
    · intro hl; rw [hq]; simp [historyLimit, hl]
    · intro hl
      have h1 : ¬ limit ≤ 0 := by omega
      rw [hq]; simp [historyLimit, h1, hl]
    · intro h0 h100
      have h1 : ¬ limit ≤ 0 := by omega
      have h2 : ¬ limit > 100 := by omega
      have h3 : historyLimit limit = limit.toNat := by simp [historyLimit, h1, h2]
      rw [h3] at hq hlen
      have h4 : (limit.toNat : Int) = limit := Int.toNat_of_nonneg (by omega)
      exact ⟨hq, h4, by omega⟩
    · have := (historyLimit_pos limit).2; omega

set_option maxRecDepth 100000 in
/-- A request for 1 message of a room with two messages gets the later one, and
a request for 0 rooms of a database with one room gets that room. -/
theorem C26_page_limits_witness :
    ChatService.History twoMessageDB "r" "" 1 =
      .ok ([laterMessage], "eyJjcmVhdGVkX2F0IjoiMjAyNC0wMS0wMVQwMDowMDowMVoiLCJpZCI6Im0yIn0") ∧
    (∃ cur, DecodeCursor "" = .ok cur ∧
      ((1 : Int) ≤ 0 → [laterMessage] = historyQuery twoMessageDB "r" cur 50) ∧
      ((100 : Int) < 1 → [laterMessage] = historyQuery twoMessageDB "r" cur 100) ∧
      ((0 : Int) < 1 → (1 : Int) ≤ 100 →
        [laterMessage] = historyQuery twoMessageDB "r" cur (1 : Int).toNat ∧
          (((1 : Int).toNat : Nat) : Int) = 1 ∧ (([laterMessage].length : Nat) : Int) ≤ 1) ∧
      [laterMessage].length ≤ 100) ∧
    RoomService.ListRooms sampleDB 0 "" = .ok ([sampleRoom], "") :=
  ⟨by decide,
    (C26_page_limits twoMessageDB 1 "" "r" "").2 [laterMessage]
      "eyJjcmVhdGVkX2F0IjoiMjAyNC0wMS0wMVQwMDowMDowMVoiLCJpZCI6Im0yIn0" (by decide),
    by decide⟩

/-- C27: for every requested `max`, every name and every store, `CreateRoom`
(with a statement that works) stores one new room and returns it; its
`MaxParticipants` is `max` when `1 ≤ max ≤ 10` and 10 otherwise, so it lies in
`[1,10]`; its name is the name as given; its id and creation time are those
the database assigned; the rooms that were there are unchanged. -/
theorem C27_create_room (db : DB) (name : String) (max : Int) (row : Assigned) :
    RoomService.CreateRoom none db name max row =
      ({ db with
          rooms := db.rooms ++
            [{ ID := row.id, Name := name,
               MaxParticipants := if 1 ≤ max ∧ max ≤ 10 then max else 10,
               CreatedAt := row.createdAt }] },
        .ok { ID := row.id, Name := name,
              MaxParticipants := if 1 ≤ max ∧ max ≤ 10 then max else 10,
              CreatedAt := row.createdAt }) ∧
    1 ≤ (if 1 ≤ max ∧ max ≤ 10 then max else 10) ∧
    (if 1 ≤ max ∧ max ≤ 10 then max else 10) ≤ 10 := by
  have hmax : (if max ≤ 0 ∨ max > 10 then 10 else max) =
      (if 1 ≤ max ∧ max ≤ 10 then max else 10) := by
    split_ifs <;> omega
  refine ⟨?_, ?_, ?_⟩
  · simp only [RoomService.CreateRoom, RoomRepository.Create, hmax]
  · split_ifs <;> omega
  · split_ifs <;> omega

/-- Rooms asked for with `max` 2, 0, -3 and 11 get the limits 2, 10, 10 and 10. -/
theorem C27_create_room_witness :
    (RoomService.CreateRoom none sampleDB "g" 2 sampleAssigned).2 =
      .ok { ID := "n1", Name := "g", MaxParticipants := 2, CreatedAt := sampleTime } ∧
    (RoomService.CreateRoom none sampleDB "g" 0 sampleAssigned).2 =
      .ok { ID := "n1", Name := "g", MaxParticipants := 10, CreatedAt := sampleTime } ∧
    (RoomService.CreateRoom none sampleDB " g " (-3) sampleAssigned).2 =
      .ok { ID := "n1", Name := " g ", MaxParticipants := 10, CreatedAt := sampleTime } ∧
    (RoomService.CreateRoom none sampleDB "g" 11 sampleAssigned).2 =
      .ok { ID := "n1", Name := "g", MaxParticipants := 10, CreatedAt := sampleTime } :=
  ⟨by rw [(C27_create_room sampleDB "g" 2 sampleAssigned).1]; decide,
    by rw [(C27_create_room sampleDB "g" 0 sampleAssigned).1]; decide,
    by rw [(C27_create_room sampleDB " g " (-3) sampleAssigned).1]; decide,
    by rw [(C27_create_room sampleDB "g" 11 sampleAssigned).1]; decide⟩
/-! ## The boundaries of the rooms engine -/

/-- The chat-history handler answers 500 for every cursor that does not decode. -/
theorem GetChatHistory_undecodable (db : DB) (roomID after limit : String) (e : GoError)
    (h : DecodeCursor after = .error e) :
    Handler.GetChatHistory true db roomID after limit =
      { status := 500, body := .errorOf (.wrap "decode cursor: %w" e) } := by
  simp [Handler.GetChatHistory, ChatService.History, ChatRepository.History, h]

set_option maxRecDepth 100000 in
/-- C23 (code bug), the code at the failing input: the cursor `!!not-b64!!`.
It does not decode, and the error is `ErrInvalidCursor`. `GET /rooms` with it
answers 400, but `GET /rooms/r/chat` answers 500, and the RPCs `GetChatHistory`
and `ListRooms` answer `Internal`: the chat handler has no test for the
error, and `mapErr` has no case for it. -/
theorem C23_invalid_cursor_boundaries :
    (match DecodeCursor "!!not-b64!!" with
      | .error e => e.is ErrInvalidCursor
      | .ok _ => false) = true ∧
    (Handler.ListRooms sampleDB "" "!!not-b64!!").status = 400 ∧
    (Handler.GetChatHistory true sampleDB "r" "!!not-b64!!" "").status = 500 ∧
    (RoomsServer.GetChatHistory sampleRoomsServer id sampleDB (some sampleMD) "r" "!!not-b64!!"
        0).2.err = some .Internal ∧
    (RoomsServer.ListRooms id sampleDB (some sampleMD) 0 "!!not-b64!!").2.err =
      some .Internal := by
  refine ⟨by decide, by decide, by decide, by decide, by decide⟩

/-- The RPC `LeaveRoom` of a user without a row in the room answers OK and changes
nothing, when the metadata is in order and the statement works. -/
theorem RoomsServer_LeaveRoom_absent (tbl : Nat → Nat) (db : DB) (ctx : Option MD)
    (id token userID : String) (uid : Int)
    (hmd : userFromMD tbl ctx = .ok (token, userID))
    (huid : ParseInt (runes userID) 10 = some uid)
    (h : ParticipantRepository.Exists db id uid = false) :
    RoomsServer.LeaveRoom tbl none db ctx id = (db, { resp := some (), err := none }) := by
  have hl := LeaveRoom_absent db id uid h
  have hi : ErrNotInRoom.is ErrNotInRoom = true := by decide
  simp [RoomsServer.LeaveRoom, hmd, huid, hl, hi]

/-- C24 (as stated) fails: `mapErr` maps `ErrNotInRoom` to `FailedPrecondition`,
not to `NotFound`, and the RPC `LeaveRoom` of user 1, who is not in room `r`,
answers OK, because the method does not treat `ErrNotInRoom` as an error. -/
theorem C24_map_err_counterexample :
    mapErr (some ErrNotInRoom) = some .FailedPrecondition ∧
    ParticipantRepository.Exists sampleDB "r" 1 = false ∧
    MemberService.LeaveRoom none sampleDB "r" 1 = (sampleDB, .error ErrNotInRoom) ∧
    RoomsServer.LeaveRoom id none sampleDB (some sampleMD) "r" =
      (sampleDB, { resp := some (), err := none }) := by
  refine ⟨by decide, by decide, by decide, by decide⟩

/-- C24 (amended): `mapErr` maps nil to nil; an error that is `ErrRoomNotFound`
to `NotFound`; any other error that is `ErrRoomFull`, `ErrAlreadyJoined` or
`ErrNotInRoom` to `FailedPrecondition`; and every error that is none of the
four to `Internal` (so `AlreadyExists` is never given out). The RPC
`LeaveRoom` of a user who is not in the room, with metadata in order and a
statement that works, answers OK and changes nothing. -/
theorem C24_map_err (tbl : Nat → Nat) (db : DB) (ctx : Option MD) (id token userID : String)
    (uid : Int) (err : GoError) :
    mapErr none = none ∧
    (err.is ErrRoomNotFound = true → mapErr (some err) = some .NotFound) ∧
    (err.is ErrRoomNotFound = false →
      (err.is ErrRoomFull = true ∨ err.is ErrAlreadyJoined = true ∨
        err.is ErrNotInRoom = true) →
      mapErr (some err) = some .FailedPrecondition) ∧
    (err.is ErrRoomNotFound = false → err.is ErrRoomFull = false →
      err.is ErrAlreadyJoined = false → err.is ErrNotInRoom = false →
      mapErr (some err) = some .Internal) ∧
    mapErr (some err) ≠ some .AlreadyExists ∧
    mapErr (some ErrRoomNotFound) = some .NotFound ∧
    mapErr (some ErrRoomFull) = some .FailedPrecondition ∧
    mapErr (some ErrAlreadyJoined) = some .FailedPrecondition ∧
    mapErr (some ErrNotInRoom) = some .FailedPrecondition ∧
    (userFromMD tbl ctx = .ok (token, userID) → ParseInt (runes userID) 10 = some uid →
      ParticipantRepository.Exists db id uid = false →
      RoomsServer.LeaveRoom tbl none db ctx id = (db, { resp := some (), err := none })) := by
  refine ⟨rfl, ?_, ?_, ?_, ?_, by decide, by decide, by decide, by decide,
    RoomsServer_LeaveRoom_absent tbl db ctx id token userID uid⟩
  · intro h; simp [mapErr, h]
  · intro h1 h2
    simp only [mapErr, h1]
    rcases h2 with h | h | h
    · simp [h]
    · cases hf : err.is ErrRoomFull <;> simp [h]
    · cases hf : err.is ErrRoomFull <;> cases hj : err.is ErrAlreadyJoined <;> simp [h]
  · intro h1 h2 h3 h4; simp [mapErr, h1, h2, h3, h4]
  · simp only [mapErr]; split_ifs <;> simp

/-- The error of a repository wrapped around `ErrRoomFull` maps to
`FailedPrecondition`, and user 1, who is not in room `r`, leaves it with OK. -/
theorem C24_map_err_witness :
    (GoError.wrap "join: %w" ErrRoomFull).is ErrRoomNotFound = false ∧
    mapErr (some (GoError.wrap "join: %w" ErrRoomFull)) = some .FailedPrecondition ∧
    userFromMD id (some sampleMD) = .ok ("tok", "1") ∧
    ParseInt (runes "1") 10 = some 1 ∧
    ParticipantRepository.Exists sampleDB "r" 1 = false ∧
    RoomsServer.LeaveRoom id none sampleDB (some sampleMD) "r" =
      (sampleDB, { resp := some (), err := none }) :=
  ⟨by decide,
    (C24_map_err id sampleDB (some sampleMD) "r" "tok" "1" 1
      (GoError.wrap "join: %w" ErrRoomFull)).2.2.1 (by decide) (Or.inl (by decide)),
    by decide, by decide, by decide,
    (C24_map_err id sampleDB (some sampleMD) "r" "tok" "1" 1 ErrRoomFull).2.2.2.2.2.2.2.2.2
      (by decide) (by decide) (by decide)⟩

/-- Every refusal of `userFromMD` is `Unauthenticated`. -/
theorem userFromMD_error (tbl : Nat → Nat) (ctx : Option MD) (c : Code)
    (h : userFromMD tbl ctx = .error c) : c = .Unauthenticated := by
  unfold userFromMD at h
  split at h
  · cases h; rfl
  · simp only at h
    split_ifs at h <;> cases h <;> rfl

/-- When `userFromMD` refuses the metadata, every method of the RPC surface
returns the refusal, and the database is as it was. -/
theorem RoomsServer_refuses (s : RoomsServer) (tbl : Nat → Nat) (fault : Option GoError)
    (db : DB) (ctx : Option MD) (c : Code) (h : userFromMD tbl ctx = .error c)
    (name id cursor after : String) (max limit : Int) (row : Assigned) (clk : JoinClock) :
    RoomsServer.CreateRoom tbl fault db ctx name max row = (db, { resp := none, err := some c }) ∧
    RoomsServer.ListRooms tbl db ctx limit cursor = (db, { resp := none, err := some c }) ∧
    RoomsServer.GetRoom tbl db ctx id = (db, { resp := none, err := some c }) ∧
    RoomsServer.JoinRoom tbl db ctx id clk = (db, { resp := none, err := some c }) ∧
    RoomsServer.LeaveRoom tbl fault db ctx id = (db, { resp := none, err := some c }) ∧
    RoomsServer.ListParticipants tbl fault db ctx id = (db, { resp := none, err := some c }) ∧
    s.GetChatHistory tbl db ctx id after limit = (db, { resp := none, err := some c }) := by
  simp [RoomsServer.CreateRoom, RoomsServer.ListRooms, RoomsServer.GetRoom, RoomsServer.JoinRoom,
    RoomsServer.LeaveRoom, RoomsServer.ListParticipants, RoomsServer.GetChatHistory, h]

set_option maxRecDepth 100000 in
/-- C25 (code bug), the code at the failing input: a call with the metadata
`authorization: Bearer tok` and `x-user-id: abc`. The user id is no `int64`,
and `JoinRoom` and `LeaveRoom` answer `Unauthenticated`; but `CreateRoom`
answers OK and the room is in the database, and `ListRooms`, `GetRoom`,
`ListParticipants` and `GetChatHistory` answer OK as well: these five methods
only test that `x-user-id` is not empty. A bearer credential that is a blank
passes `userFromMD` as the empty token. (A call without `authorization` is
refused by `CreateRoom`, and the database is as it was.) -/
theorem C25_user_id_not_parsed :
    ParseInt (runes "abc") 10 = none ∧
    userFromMD id (some badUserMD) = .ok ("tok", "abc") ∧
    RoomsServer.JoinRoom id sampleDB (some badUserMD) "r" sampleClock =
      (sampleDB, { resp := none, err := some .Unauthenticated }) ∧
    RoomsServer.LeaveRoom id none sampleDB (some badUserMD) "r" =
      (sampleDB, { resp := none, err := some .Unauthenticated }) ∧
    RoomsServer.CreateRoom id none sampleDB (some badUserMD) "g" 2 sampleAssigned =
      ({ sampleDB with
          rooms := sampleDB.rooms ++
            [{ ID := "n1", Name := "g", MaxParticipants := 2, CreatedAt := sampleTime }] },
        { resp := some { ID := "n1", Name := "g", MaxParticipants := 2, CreatedAt := sampleTime },
          err := none }) ∧
    (RoomsServer.ListRooms id sampleDB (some badUserMD) 0 "").2.err = none ∧
    (RoomsServer.GetRoom id sampleDB (some badUserMD) "r").2.err = none ∧
    (RoomsServer.ListParticipants id none sampleDB (some badUserMD) "r").2.err = none ∧
    (RoomsServer.GetChatHistory sampleRoomsServer id sampleDB (some badUserMD) "r" "" 0).2.err =
      none ∧
    userFromMD id (some blankBearerMD) = .ok ("", "1") ∧
    (RoomsServer.GetRoom id sampleDB (some blankBearerMD) "r").2.err = none ∧
    RoomsServer.CreateRoom id none sampleDB (some noAuthMD) "g" 2 sampleAssigned =
      (sampleDB, { resp := none, err := some .Unauthenticated }) := by
  refine ⟨by decide, by decide, by decide, by decide, by decide, by decide, by decide, by decide,
    by decide, by decide, by decide, by decide⟩
/-! ## The profile of a user -/

/-- The function `AuthService.Me` returns no error, whatever the lookup does. -/
theorem Me_no_error (fault : Option GoError) (db : CredentialDB) (userID : Int) :
    (AuthService.Me fault db userID).2 = none := by
  unfold AuthService.Me
  cases UserRepo.GetByID fault db userID <;> rfl

/-- After a failed lookup `AuthService.Me` returns nil for the user and nil for
the error. -/
theorem Me_lookup_failed (fault : Option GoError) (db : CredentialDB) (userID : Int)
    (e : GoError) (h : UserRepo.GetByID fault db userID = .error e) :
    AuthService.Me fault db userID = (none, none) := by
  unfold AuthService.Me; rw [h]

/-- C28 (code bug), the code at the failing input: the store holds user 1 only.
The lookup of user 99 fails with `ErrNotFound`, and `AuthService.Me` returns
nil for the user and nil for the error; so the RPC `Me`, called with
`x-user-id: 99`, answers OK with no user. The same happens for user 1 when
the query fails because the connection is lost. (With a lookup that works the
RPC answers with the profile of user 1.) -/
theorem C28_me_drops_lookup_error :
    UserRepo.GetByID none aliceDB 99 = .error ErrNotFound ∧
    AuthService.Me none aliceDB 99 = (none, none) ∧
    AuthHandler.Me id noToken none aliceDB (some user99MD) = .ok none ∧
    UserRepo.GetByID (some connLost) aliceDB 1 = .error connLost ∧
    AuthService.Me (some connLost) aliceDB 1 = (none, none) ∧
    AuthHandler.Me id noToken (some connLost) aliceDB (some user1MD) = .ok none ∧
    AuthHandler.Me id noToken none aliceDB (some user1MD) = .ok (some aliceUser) := by
  refine ⟨by decide, by decide, by decide, by decide, by decide, by decide, by decide⟩

/-! ## The environment of the logger -/

/-- Whatever the case tables, a value that is `preprod` after trimming and
lower-casing gives dev. -/
theorem DetectEnv_preprod (tbl : Nat → Nat) (s : String)
    (h : ToLower tbl (TrimSpace s) = "preprod") : DetectEnv tbl s = EnvDev := by
  simp only [DetectEnv, h]
  decide

/-- C29 (code bug), the code at the failing input: `APP_ENV=preprod`. The case
of the switch is written `" preprod"`, with a blank in front, which the
trimmed value never equals; so `DetectEnv` returns dev for `preprod`, in any
case of the letters and with any blanks around it. The other values of the
claim give what it says. -/
theorem C29_detect_env_preprod :
    DetectEnv id "preprod" = EnvDev ∧
    DetectEnv id " PreProd " = EnvDev ∧
    DetectEnv id " preprod" = EnvDev ∧
    DetectEnv id "prod" = EnvProd ∧
    DetectEnv id " Production " = EnvProd ∧
    DetectEnv id "stage" = EnvStage ∧
    DetectEnv id "STAGING" = EnvStage ∧
    DetectEnv id "pre-production" = EnvStage ∧
    DetectEnv id "" = EnvDev ∧
    DetectEnv id "test" = EnvDev := by
  refine ⟨by decide, by decide, by decide, by decide, by decide, by decide, by decide, by decide,
    by decide, by decide⟩
/-! ## The identity a chat broadcast carries -/

/-- Every broadcast the loop body makes goes to the room of the session and is a
`chat` message with the room id and the user id of the session. -/
theorem onFrame_broadcasts (s : Server) (c : Conn) (f : Frame) (r : String) (msg : Message)
    (h : WsCall.hubBroadcast r msg ∈ s.onFrame c f) :
    r = c.RoomID ∧ ∃ q : ChatPayload, msg = { Typ := TypeChat, Payload := .chat q } ∧
      q.RoomID = c.RoomID ∧ q.UserID = c.UserID := by
  cases f with
  | pong => simp [Server.onFrame] at h
  | malformed => simp [Server.onFrame] at h
  | other t => simp [Server.onFrame] at h
  | chatUndecoded => simp [Server.onFrame] at h
  | chat p env =>
    obtain ⟨save, now⟩ := env
    obtain ⟨hasSvc⟩ := s
    cases hasSvc <;> cases save <;> simp only [Server.onFrame] at h <;> split_ifs at h <;>
      simp at h
    all_goals exact ⟨h.1, _, h.2, rfl, rfl⟩

/-- The calls the loop body makes for a decoded chat message depend on the
payload through its text only. -/
theorem onFrame_chat_congr (s : Server) (c : Conn) (p q : ChatPayload) (env : ChatEnv)
    (h : q.Message = p.Message) : s.onFrame c (.chat q env) = s.onFrame c (.chat p env) := by
  simp only [Server.onFrame, h]

set_option maxRecDepth 1000000 in
/-- C30 (as stated) fails: user 1 of room `r1` sends two frames that differ only
in the `room_id` of the payload, the string `r2` in one and the number 7 in the
other. The first is saved, broadcast and acknowledged; the second does not
decode into a `ChatPayload`, and the loop body drops it: nothing is broadcast.
So the broadcasts of the two are not identical. -/
theorem C30_chat_identity_counterexample :
    readFrame sampleFloats stringRoomFrame savedEnv =
      .chat { RoomID := "r2", UserID := "2", Message := "hi", MsgID := "", TSUnix := 0 }
        savedEnv ∧
    sampleServer.onData connA sampleFloats stringRoomFrame savedEnv =
      [.chatSave "r1" 1 "hi",
       .hubBroadcast "r1"
         { Typ := TypeChat,
           Payload := .chat { RoomID := "r1", UserID := "1", Message := "hi", MsgID := "m1",
                              TSUnix := 1704067200 } },
       .connSend connA { Typ := TypeChatAck, Payload := .chatAck { MsgID := "m1" } }] ∧
    readFrame sampleFloats numberRoomFrame savedEnv = .chatUndecoded ∧
    sampleServer.onData connA sampleFloats numberRoomFrame savedEnv = [] := by
  refine ⟨by decide, by decide, by decide, by decide⟩

/-- C30 (amended): for chat payloads that decode into a `ChatPayload`, the loop
body makes the same calls, and so the same broadcasts, whatever their
`room_id` and `user_id`: this holds for two decoded payloads that differ only
in these fields, and for the data of two frames that both decode to chat
payloads with the same text. The data of a frame whose payload does not
decode makes no call at all. Every broadcast the loop body makes, for any
frame and for the data of any frame, goes to the room bound to the sending
session and carries a `chat` payload whose `room_id` and `user_id` are those
bound to the session; and in every hub that additions and removals make of a
new hub, such a broadcast is sent to sessions of that room only. -/
theorem C30_chat_identity (s : Server) (c : Conn) (fl : Float64Text) (p : ChatPayload)
    (roomID userID : String) (env : ChatEnv) (f : Frame) (data other : List Nat)
    (ops : List HubOp) :
    s.onFrame c (.chat { p with RoomID := roomID, UserID := userID } env) =
      s.onFrame c (.chat p env) ∧
    (∀ q q', readFrame fl data env = .chat q env → readFrame fl other env = .chat q' env →
      q'.Message = q.Message → s.onData c fl other env = s.onData c fl data env) ∧
    (readFrame fl data env = .chatUndecoded → s.onData c fl data env = []) ∧
    (∀ r msg, WsCall.hubBroadcast r msg ∈ s.onFrame c f →
      r = c.RoomID ∧
      (∃ q : ChatPayload, msg = { Typ := TypeChat, Payload := .chat q } ∧
        q.RoomID = c.RoomID ∧ q.UserID = c.UserID) ∧
      ∀ x ∈ ((runHub ops).Broadcast r msg).2, x.1.roomID = c.RoomID ∧ x.2 = msg) ∧
    (∀ r msg, WsCall.hubBroadcast r msg ∈ s.onData c fl data env →
      r = c.RoomID ∧
      (∃ q : ChatPayload, msg = { Typ := TypeChat, Payload := .chat q } ∧
        q.RoomID = c.RoomID ∧ q.UserID = c.UserID) ∧
      ∀ x ∈ ((runHub ops).Broadcast r msg).2, x.1.roomID = c.RoomID ∧ x.2 = msg) := by
  have key : ∀ (g : Frame) r msg, WsCall.hubBroadcast r msg ∈ s.onFrame c g →
      r = c.RoomID ∧
      (∃ q : ChatPayload, msg = { Typ := TypeChat, Payload := .chat q } ∧
        q.RoomID = c.RoomID ∧ q.UserID = c.UserID) ∧
      ∀ x ∈ ((runHub ops).Broadcast r msg).2, x.1.roomID = c.RoomID ∧ x.2 = msg := by
    intro g r msg h
    obtain ⟨hr, hq⟩ := onFrame_broadcasts s c g r msg h
    refine ⟨hr, hq, ?_⟩
    intro x hx
    rw [Broadcast_sends, List.mem_map] at hx
    obtain ⟨y, hy, hxy⟩ := hx
    have hroom := (sessions_facts (runHub ops) (WellFormed_runHub ops) r).2 y hy
    subst hxy
    exact ⟨hroom.trans hr, rfl⟩
  refine ⟨rfl, ?_, ?_, key f, key (readFrame fl data env)⟩
  · intro q q' hd ho hm
    unfold Server.onData
    rw [hd, ho]
    exact onFrame_chat_congr s c q q' env hm
  · intro hd
    unfold Server.onData
    rw [hd]
    rfl

set_option maxRecDepth 1000000 in
/-- User 1 of room `r1` sends `hi` and names room `r2` and user 2 in one frame,
room `r1` and user 2 in another: the calls are the same, and with sessions of
users 1 and 2 in room `r1` and of user 3 in room `r2`, the broadcast names
room `r1` and user 1 and goes to the two sessions of room `r1`. -/
theorem C30_chat_identity_witness :
    sampleServer.onData connA sampleFloats otherRoomFrame savedEnv =
      sampleServer.onData connA sampleFloats stringRoomFrame savedEnv ∧
    WsCall.hubBroadcast "r1"
        { Typ := TypeChat,
          Payload := .chat { RoomID := "r1", UserID := "1", Message := "hi", MsgID := "m1",
                             TSUnix := 1704067200 } } ∈
      sampleServer.onData connA sampleFloats stringRoomFrame savedEnv ∧
    ((runHub [.add connA, .add connB, .add connC]).Broadcast "r1" helloMessage).2 =
      [(connA, helloMessage), (connB, helloMessage)] ∧
    ("r1" = connA.RoomID ∧
      (∃ q : ChatPayload,
        ({ Typ := TypeChat,
           Payload := .chat { RoomID := "r1", UserID := "1", Message := "hi", MsgID := "m1",
                              TSUnix := 1704067200 } } : Message) =
          { Typ := TypeChat, Payload := .chat q } ∧
        q.RoomID = connA.RoomID ∧ q.UserID = connA.UserID) ∧
      ∀ x ∈ ((runHub [.add connA, .add connB, .add connC]).Broadcast "r1"
          { Typ := TypeChat,
            Payload := .chat { RoomID := "r1", UserID := "1", Message := "hi", MsgID := "m1",
                               TSUnix := 1704067200 } }).2,
        x.1.roomID = connA.RoomID ∧
          x.2 = { Typ := TypeChat,
                  Payload := .chat { RoomID := "r1", UserID := "1", Message := "hi",
                                     MsgID := "m1", TSUnix := 1704067200 } }) :=
  ⟨(C30_chat_identity sampleServer connA sampleFloats incomingChat "r2" "2" savedEnv .pong
      stringRoomFrame otherRoomFrame [.add connA, .add connB, .add connC]).2.1
      { RoomID := "r2", UserID := "2", Message := "hi", MsgID := "", TSUnix := 0 }
      { RoomID := "r1", UserID := "2", Message := "hi", MsgID := "", TSUnix := 0 }
      (by decide) (by decide) rfl,
    by decide, by decide,
    (C30_chat_identity sampleServer connA sampleFloats incomingChat "r2" "2" savedEnv .pong
      stringRoomFrame otherRoomFrame [.add connA, .add connB, .add connC]).2.2.2.2 _ _
      (by decide)⟩

end CwrkPlanet
